import Mathlib

/-!
Verification development for the `obsidian-mstodo-sync` plugin.

The TypeScript sources are shallowly embedded: the task model
(`ObsidianTodoTask`), the delta-cache merge (`MsTodoActions.mergeCollections`),
the reconciliation steps of `MsTodoActions.syncVault` / `MsTodoActions.postTask`,
the delta refresh (`MsTodoActions.getTaskDelta`) and the gateway payloads
(`TodoApi.updateTaskFromToDo`, `TodoApi.createLinkedResource`) are translated
into executable Lean definitions.  JavaScript runtime facilities the code calls
into (the `Date` parser, `luxon`'s `DateTime.fromISO(...).toISODate()`, and
`moment(...).format(...)`) are external libraries, so they enter the model as
explicit function parameters; everything written in the repository itself is
translated directly.

Strings are modelled by `List Char` workhorses (`Lst.*`) wrapped into `String`
at the interfaces; the specific regular expressions appearing in the source are
implemented as dedicated scanners with JavaScript semantics (leftmost match,
greedy repetition, `g`/`m` flags as used at each call site).
-/

set_option autoImplicit false

namespace MsTodo

/-- Three-valued JavaScript optional: a field can be absent (`undefined`),
explicitly `null`, or present.  Graph's `NullableOption<T>` fields need all
three states because `ObsidianTodoTask.equals` distinguishes `undefined`
from `null`. -/
inductive JsOpt (α : Type) where
  | undef : JsOpt α
  | null : JsOpt α
  | val : α → JsOpt α
deriving DecidableEq, Repr

namespace Lst

/-- JavaScript `\s` (whitespace class) restricted to the characters that can
actually occur here. -/
def jsWs (c : Char) : Bool :=
  c = ' ' || c = '\t' || c = '\n' || c = '\r' || c = '\x0b' || c = '\x0c'

/-- `splitSub pat s`: first occurrence of the substring `pat` in `s`,
returned as the part before and the part after the occurrence. -/
def splitSub (pat : List Char) : List Char → Option (List Char × List Char)
  | [] => if pat.isPrefixOf ([] : List Char) then some ([], []) else none
  | c :: rest =>
    if pat.isPrefixOf (c :: rest) then some ([], (c :: rest).drop pat.length)
    else (splitSub pat rest).map (fun pq => (c :: pq.1, pq.2))

/-- JavaScript `String.prototype.includes`. -/
def containsSub (pat s : List Char) : Bool :=
  (splitSub pat s).isSome

/-- JavaScript `String.prototype.replace` with a plain (first-occurrence)
pattern. -/
def replaceFirst (pat rep s : List Char) : List Char :=
  match splitSub pat s with
  | some (pre, post) => pre ++ rep ++ post
  | none => s

/-- JavaScript `String.prototype.trim`. -/
def jsTrim (s : List Char) : List Char :=
  ((s.dropWhile jsWs).reverse.dropWhile jsWs).reverse

theorem isPrefixOf_append : ∀ (p l : List Char), p.isPrefixOf l = true →
    l = p ++ l.drop p.length := by
  intro p
  induction p with
  | nil => intro l _; simp
  | cons a p ih =>
    intro l h
    cases l with
    | nil => simp [List.isPrefixOf] at h
    | cons b l =>
      simp only [List.isPrefixOf, Bool.and_eq_true, beq_iff_eq] at h
      obtain ⟨rfl, h2⟩ := h
      simpa using ih l h2

theorem splitSub_eq (pat : List Char) :
    ∀ s pre post, splitSub pat s = some (pre, post) →
      s = pre ++ pat ++ post := by
  intro s
  induction s with
  | nil =>
    intro pre post h
    simp only [splitSub] at h
    by_cases hp : pat.isPrefixOf ([] : List Char)
    · rw [if_pos hp] at h
      cases h
      have : pat = [] := by
        cases pat with
        | nil => rfl
        | cons a l => simp [List.isPrefixOf] at hp
      simp [this]
    · rw [if_neg hp] at h
      cases h
  | cons c rest ih =>
    intro pre post h
    simp only [splitSub] at h
    by_cases hp : pat.isPrefixOf (c :: rest)
    · rw [if_pos hp] at h
      cases h
      exact isPrefixOf_append pat (c :: rest) hp
    · rw [if_neg hp] at h
      cases hopt : splitSub pat rest with
      | none => rw [hopt] at h; cases h
      | some pq =>
        rw [hopt] at h
        cases h
        have := ih pq.1 pq.2 (by rw [hopt])
        simp [this]

theorem splitSub_length (pat : List Char) (s pre post : List Char)
    (h : splitSub pat s = some (pre, post)) :
    s.length = pre.length + pat.length + post.length := by
  have := splitSub_eq pat s pre post h
  subst this
  simp
  omega

/-- Last occurrence of the substring `pat` in `s` (used for the greedy `.*`
of the JavaScript regexes). -/
def lastSplitSub (pat : List Char) (s : List Char) : Option (List Char × List Char) :=
  match _hs : splitSub pat s with
  | none => none
  | some (pre, post) =>
    if _hpat : pat = [] then some (pre, post)
    else
      match lastSplitSub pat post with
      | none => some (pre, post)
      | some (pre2, post2) => some (pre ++ pat ++ pre2, post2)
termination_by s.length
decreasing_by
  have := splitSub_length pat s pre post _hs
  have hl : 0 < pat.length := by
    cases pat with
    | nil => exact absurd rfl _hpat
    | cons a l => simp
  omega

/-- Generic left-to-right global regex replacement: `matcher` reports the
length of a match starting at the current position (`none` or length `0`
meaning no match there); every match is replaced by `rep`, scanning resumes
after the match.  This is the semantics of `String.prototype.replaceAll`
with a `g`-flagged regex that contains no `^` anchor. -/
def scanRegex (matcher : List Char → Option Nat) (rep : List Char) (s : List Char) :
    List Char :=
  match s with
  | [] => []
  | c :: rest =>
    match matcher (c :: rest) with
    | some (n + 1) => rep ++ scanRegex matcher rep ((c :: rest).drop (n + 1))
    | _ => c :: scanRegex matcher rep rest
termination_by s.length
decreasing_by
  · simp [List.length_drop]; omega
  · simp

end Lst

/-! ## The Microsoft Graph task data model

Translated from the `@microsoft/microsoft-graph-types` declarations as the
plugin uses them (`src/model/obsidianTodoTask.ts`, `src/api/todoApi.ts`):
only the fields the embedded code reads or writes are carried. -/

/-- `TaskStatus` of the Graph API. -/
inductive TaskStatus where
  | notStarted | inProgress | completed | waitingOnOthers | deferred
deriving DecidableEq, Repr

/-- `Importance` of the Graph API. -/
inductive Importance where
  | low | normal | high
deriving DecidableEq, Repr

/-- `DateTimeTimeZone` of the Graph API. -/
structure DateTimeTimeZone where
  dateTime : String
  timeZone : Option String
deriving DecidableEq, Repr

/-- `ItemBody` of the Graph API. -/
structure ItemBody where
  content : String
  contentType : String
deriving DecidableEq, Repr

/-- `ChecklistItem` of the Graph API (the fields the plugin touches). -/
structure ChecklistItem where
  displayName : String
  isChecked : Option Bool
deriving DecidableEq, Repr

/-- `LinkedResource` of the Graph API (the fields the plugin touches). -/
structure LinkedResource where
  id : Option String
  webUrl : Option String
  applicationName : Option String
  externalId : Option String
  displayName : Option String
deriving DecidableEq, Repr

/-- A remote `TodoTask` snapshot (also the shape of the payloads the plugin
builds), restricted to the fields the embedded code reads or writes.
`dueDateTime` is `NullableOption` in Graph and the code distinguishes
`undefined` from `null`, hence `JsOpt`. -/
structure TodoTask where
  id : Option String
  title : Option String
  status : Option TaskStatus
  importance : Option Importance
  dueDateTime : JsOpt DateTimeTimeZone
  lastModifiedDateTime : Option String
  body : Option ItemBody
  checklistItems : Option (List ChecklistItem)
  linkedResources : Option (List LinkedResource)
deriving DecidableEq, Repr

/-- A `TodoTask` with every field absent, as `{}` in TypeScript. -/
def TodoTask.empty : TodoTask :=
  ⟨none, none, none, none, .undef, none, none, none, none⟩

/-! ## JavaScript `Date` comparison semantics

`new Date(string)` yields either a timestamp or `NaN` (an invalid date); the
parser itself is a JavaScript runtime facility, so it is a parameter
`jsDate : String → Option Int` of every definition that compares dates
(`none` models `NaN`).  `NaN` compares false under both `<` and `>`. -/

/-- JavaScript `<` on two `Date` values (`none` = invalid date/`NaN`). -/
def jsLtDate : Option Int → Option Int → Bool
  | some a, some b => a < b
  | _, _ => false

/-- JavaScript `>` on two `Date` values (`none` = invalid date/`NaN`). -/
def jsGtDate : Option Int → Option Int → Bool
  | some a, some b => b < a
  | _, _ => false

/-- JavaScript truthiness of an optional string (`undefined` and `""` are
falsy). -/
def truthy : Option String → Bool
  | none => false
  | some s => s ≠ ""

/-! ## A JavaScript `Map`

`Map` preserves insertion order; `set` on an existing key replaces the value
in place, `set` on a fresh key appends.  Modelled as an association list. -/

/-- `Map.get`. -/
def mapGet (k : String) : List (String × TodoTask) → Option TodoTask
  | [] => none
  | (k0, v0) :: rest => if k0 = k then some v0 else mapGet k rest

/-- `Map.set`. -/
def mapSet (k : String) (v : TodoTask) : List (String × TodoTask) → List (String × TodoTask)
  | [] => [(k, v)]
  | (k0, v0) :: rest => if k0 = k then (k0, v) :: rest else (k0, v0) :: mapSet k v rest

/-- `Array.from(map.values())`. -/
def mapValues (m : List (String × TodoTask)) : List TodoTask :=
  m.map Prod.snd

/-! ## `MsTodoActions.mergeCollections` (src/command/msToDoActions.ts) -/

/-- The inner helper `addToMap` of `MsTodoActions.mergeCollections`: an item
is considered only when `item.id && item.lastModifiedDateTime` is truthy; it
is inserted when the id is new or when its `lastModifiedDateTime` parses to a
strictly newer `Date` than the stored item's (`?? 0` supplying the epoch when
the stored item has no timestamp). -/
def addToMap (jsDate : String → Option Int) (m : List (String × TodoTask))
    (item : TodoTask) : List (String × TodoTask) :=
  if truthy item.id && truthy item.lastModifiedDateTime then
    let k := item.id.getD ""
    match mapGet k m with
    | none => mapSet k item m
    | some existingItem =>
      if jsGtDate (jsDate (item.lastModifiedDateTime.getD ""))
          (match existingItem.lastModifiedDateTime with
           | none => some 0
           | some s => jsDate s) then
        mapSet k item m
      else m
  else m

/-- `MsTodoActions.mergeCollections`: fold both collections into a `Map`
keyed by remote id, then return the values. -/
def mergeCollections (jsDate : String → Option Int) (col1 col2 : List TodoTask) :
    List TodoTask :=
  mapValues (col2.foldl (addToMap jsDate) (col1.foldl (addToMap jsDate) []))

/-! ## `ObsidianTodoTask` (src/model/obsidianTodoTask.ts): the local record -/

/-- The state of an `ObsidianTodoTask` object, restricted to the fields the
embedded methods read or write. -/
structure ObsidianTask where
  id : Option String
  title : Option String
  status : Option TaskStatus
  importance : Option Importance
  dueDateTime : JsOpt DateTimeTimeZone
  createdDateTime : Option String
  body : Option ItemBody
  checklistItems : Option (List ChecklistItem)
  linkedResources : Option (List LinkedResource)
  blockLink : Option String
  listId : Option String
  listName : Option String
deriving DecidableEq, Repr

namespace ObsidianTask

/-- `ObsidianTodoTask.hasBlockLink`. -/
def hasBlockLink (t : ObsidianTask) : Bool :=
  truthy t.blockLink

/-- `ObsidianTodoTask.hasId`. -/
def hasId (t : ObsidianTask) : Bool :=
  truthy t.id

/-- The JavaScript value `x?.toISODate()` where
`x = (due === undefined) ? undefined : DateTime.fromISO(due?.dateTime ?? "", zone: due?.timeZone ?? "utc")`:
it is `undefined`, or `null` (invalid parse), or a calendar-date string. -/
inductive JsIsoDate where
  | undef : JsIsoDate
  | null : JsIsoDate
  | date : String → JsIsoDate
deriving DecidableEq, Repr

/-- The due-date side of `ObsidianTodoTask.equals`: luxon's
`DateTime.fromISO(dt, zone).toISODate()` is the external-library parameter
`luxonIso` (`none` = invalid DateTime, whose `toISODate()` is `null`).  A
`null` due date feeds `fromISO("",{zone:"utc"})`; an `undefined` one is left
as `undefined`. -/
def isoDateOf (luxonIso : String → String → Option String) :
    JsOpt DateTimeTimeZone → JsIsoDate
  | .undef => .undef
  | .null =>
    match luxonIso "" "utc" with
    | none => .null
    | some d => .date d
  | .val dtz =>
    match luxonIso dtz.dateTime (dtz.timeZone.getD "utc") with
    | none => .null
    | some d => .date d

/-- `ObsidianTodoTask.equals`: title, status, importance compared with `===`;
due dates compared as `localDue?.toISODate() === remoteDue?.toISODate()`. -/
def equals (luxonIso : String → String → Option String) (a : ObsidianTask)
    (todoTask : TodoTask) : Bool :=
  let titleMatch := a.title == todoTask.title
  let statusMatch := a.status == todoTask.status
  let dueDateTimeMatch :=
    isoDateOf luxonIso a.dueDateTime == isoDateOf luxonIso todoTask.dueDateTime
  let importanceMatch := a.importance == todoTask.importance
  titleMatch && statusMatch && dueDateTimeMatch && importanceMatch

/-- `ObsidianTodoTask.getTodoTask` (the payload pushed to the gateway): each
optional field is copied only when truthy; `dueDateTime` is copied when
present and set to `null` otherwise. -/
def getTodoTask (t : ObsidianTask) (withChecklist : Bool) : TodoTask :=
  let addBody := match t.body with
    | some b => b.content != "" | none => false
  let addStatus := t.status.isSome
  let addImportance := t.importance.isSome
  let addChecklist := withChecklist && (match t.checklistItems with
    | some l => decide (l.length > 0) | none => false)
  let addLinked := match t.linkedResources with
    | some l => decide (l.length > 0) | none => false
  { id := none
    title := t.title
    status := if addStatus then t.status else none
    importance := if addImportance then t.importance else none
    dueDateTime := match t.dueDateTime with
      | .val d => .val d
      | _ => .null
    lastModifiedDateTime := none
    body := if addBody then t.body else none
    checklistItems := if addChecklist then t.checklistItems else none
    linkedResources := if addLinked then t.linkedResources else none }

/-- `ObsidianTodoTask.updateFromTodoTask`: pull the remote fields into the
local record (each guarded by truthiness of the remote field). -/
def updateFromTodoTask (t : ObsidianTask) (remoteTask : TodoTask) : ObsidianTask :=
  let copyBody := match remoteTask.body with
    | some b => b.content != "" | none => false
  let copyLinked := match remoteTask.linkedResources with
    | some l => decide (l.length > 0) | none => false
  { t with
    title := remoteTask.title
    body := if copyBody then remoteTask.body else t.body
    status := if remoteTask.status.isSome then remoteTask.status else t.status
    importance := if remoteTask.importance.isSome then remoteTask.importance else t.importance
    linkedResources := if copyLinked then remoteTask.linkedResources else t.linkedResources
    dueDateTime := match remoteTask.dueDateTime with
      | .val d => .val d
      | _ => t.dueDateTime }

end ObsidianTask

/-! ## `TodoApi` (src/api/todoApi.ts): gateway request construction -/

/-- JavaScript template interpolation of a possibly-`undefined` string. -/
def jsTpl : Option String → String
  | none => "undefined"
  | some s => s

/-- A PATCH request as built by `TodoApi.updateTaskFromToDo`. -/
structure PatchRequest where
  endpoint : String
  payload : TodoTask
deriving DecidableEq, Repr

/-- `TodoApi.updateTaskFromToDo`: sets `toDo.linkedResources = undefined`
and PATCHes the task endpoint with the resulting payload. -/
def TodoApi.updateTaskFromToDo (listId : Option String) (taskId : String)
    (toDo : TodoTask) : PatchRequest :=
  { endpoint := "/me/todo/lists/" ++ jsTpl listId ++ "/tasks/" ++ taskId
    payload := { toDo with linkedResources := none } }

/-- A linked-resource request as built by `TodoApi.createLinkedResource` and
`TodoApi.updateLinkedResource`. -/
structure LinkedResourceRequest where
  endpoint : String
  payload : LinkedResource
deriving DecidableEq, Repr

/-- `TodoApi.createLinkedResource`: POST a fresh back-reference resource. -/
def TodoApi.createLinkedResource (listId : Option String) (taskId blockId webUrl : String) :
    LinkedResourceRequest :=
  { endpoint := "/me/todo/lists/" ++ jsTpl listId ++ "/tasks/" ++ taskId ++ "/linkedResources"
    payload :=
      { id := none
        webUrl := some webUrl
        applicationName := some "Obsidian Microsoft To Do Sync"
        externalId := some blockId
        displayName := some ("Tracking Block Link: " ++ blockId) } }

/-- `TodoApi.updateLinkedResource`: update an existing back-reference
resource. -/
def TodoApi.updateLinkedResource (listId : Option String)
    (taskId linkedResourceId blockId webUrl : String) : LinkedResourceRequest :=
  { endpoint := "/me/todo/lists/" ++ jsTpl listId ++ "/tasks/" ++ taskId
      ++ "/linkedResources/" ++ linkedResourceId
    payload :=
      { id := none
        webUrl := some webUrl
        applicationName := some "Obsidian Microsoft To Do Sync"
        externalId := some blockId
        displayName := some ("Tracking Block Link: " ++ blockId) } }

/-! ## Delta-cache collections

The revision of `todoApi.ts` that declares the multi-list collections is not
among the source files (only its callers in `msToDoActions.ts` are). -/

/-- Modelled from the spec: the per-list delta cache entry
`{listId, listName, continuationToken, tasks}` — the `TasksDeltaCollection`
as constructed by `new TasksDeltaCollection(allTasks, deltaLink, listId, name)`
in `MsTodoActions`. -/
structure TasksDeltaCollection where
  allTasks : List TodoTask
  deltaLink : String
  listId : String
  name : String
deriving DecidableEq, Repr

/-- Modelled from the spec: the multi-list variant
`{ allLists: [{listId, name, allTasks, deltaLink}, ...] }` — the
`ListsDeltaCollection` as constructed by `new ListsDeltaCollection([])`. -/
structure ListsDeltaCollection where
  allLists : List TasksDeltaCollection
deriving DecidableEq, Repr

/-! ## `MsTodoActions` reconciliation steps (src/command/msToDoActions.ts) -/

/-- One gateway write call, as issued by the reconciliation code paths. -/
inductive GatewayWrite where
  | createTask : Option String → TodoTask → GatewayWrite
  | updateTask : Option String → String → TodoTask → GatewayWrite
  | createTaskList : Option String → GatewayWrite
  | createLinkedResource : String → String → String → String → GatewayWrite
  | updateLinkedResource : String → String → String → String → String → GatewayWrite
deriving DecidableEq, Repr

/-- The outcome of the per-task body of the `syncVault` loop. -/
inductive SyncDecision where
  /-- a `continue`: nothing is done for this task -/
  | skip : SyncDecision
  /-- local newer: `updateTaskFromToDo(list.listId, internalTask.id, internalTask.getTodoTask())` -/
  | push : String → Option String → TodoTask → SyncDecision
  /-- remote newer or equal: pull the remote fields and rewrite the document
  line with `getMarkdownTask(true)` of the carried record -/
  | pull : ObsidianTask → SyncDecision
deriving DecidableEq, Repr

/-- The body of the per-anchor loop of `MsTodoActions.syncVault`
(src/command/msToDoActions.ts, `for (const blockId in taskIdLookup)`): the
guards (`continue` cases) in source order, then the
last-writer-wins direction decision
`localTaskNewer = new Date(cachedTask.lastModifiedDateTime) < new Date(localTask.mtime)`.
`parse` is the `ObsidianTodoTask` constructor applied to the block's text
(verified separately); `taskId` is `getTaskIdFromBlockId(blockId)`. -/
def syncVaultTaskStep (luxonIso : String → String → Option String)
    (jsDate : String → Option Int) (parse : String → ObsidianTask)
    (taskId : Option String) (found : Option (TasksDeltaCollection × TodoTask))
    (localTask : Option (Int × String)) (blockFound : Bool) : SyncDecision :=
  match found with
  | none => .skip
  | some (_list, cachedTask) =>
    match localTask with
    | none => .skip
    | some (mtime, taskLine) =>
      if !blockFound || !(truthy cachedTask.lastModifiedDateTime) || taskLine = "" then
        .skip
      else
        let localTaskNewer :=
          jsLtDate (jsDate (cachedTask.lastModifiedDateTime.getD "")) (some mtime)
        let internalTask := { parse taskLine with id := taskId }
        if internalTask.equals luxonIso cachedTask then .skip
        else if localTaskNewer then
          .push (_list.listId) internalTask.id (internalTask.getTodoTask false)
        else
          .pull (internalTask.updateFromTodoTask cachedTask)

/-- The gateway write calls a `syncVault` loop body issues: only the
local-newer branch calls the gateway (the pull branch writes to the vault,
not to the gateway). -/
def SyncDecision.gatewayWrites : SyncDecision → List GatewayWrite
  | .skip => []
  | .push listId taskId payload => [.updateTask (some listId) (jsTpl taskId) payload]
  | .pull _ => []

/-! ## The Identity Registry (`taskIdLookup` / `taskIdIndex` in settings) -/

/-- `Object.keys`-style association update on a JavaScript object literal:
replace in place, else append. -/
def objSet (k : String) (v : String) : List (String × String) → List (String × String)
  | [] => [(k, v)]
  | (k0, v0) :: rest => if k0 = k then (k0, v) :: rest else (k0, v0) :: objSet k v rest

/-- The slice of the settings blob owned by the Identity Registry. -/
structure RegistrySettings where
  taskIdIndex : Nat
  taskIdLookup : List (String × String)
deriving DecidableEq, Repr

/-- Decimal digits of a positive numeral, most significant first
(JavaScript `Number.prototype.toString` for the natural numbers in play). -/
def decDigits : Nat → List Char
  | 0 => []
  | n + 1 => decDigits ((n + 1) / 10) ++ [Char.ofNat (48 + (n + 1) % 10)]

/-- JavaScript `Number.prototype.toString` (base 10). -/
def toDecString (n : Nat) : String :=
  if n = 0 then "0" else String.mk (decDigits n)

/-- JavaScript `String.prototype.padStart(n, pad)`. -/
def padStart (n : Nat) (pad : Char) (s : List Char) : List Char :=
  List.replicate (n - s.length) pad ++ s

/-- `ObsidianTodoTask.cacheTaskId` (src/model/obsidianTodoTask.ts): increment
`taskIdIndex`, mint `MSTD` + a random suffix (`Math.random().toString(20).slice(2, 6)`,
passed in as `rand` since `Math.random` is a runtime facility) + the
5-zero-padded counter, store `anchor → remoteId` and return the anchor. -/
def cacheTaskId (rand : String) (id : String) (st : RegistrySettings) :
    String × RegistrySettings :=
  let newIndex := st.taskIdIndex + 1
  let index := "MSTD" ++ rand ++ String.mk (padStart 5 '0' (toDecString newIndex).data)
  (index, ⟨newIndex, objSet index (id) st.taskIdLookup⟩)

/-- `n` sequential `cacheTaskId` calls (call counter `k` selects the random
suffix and the remote id of each call), returning the minted anchors in
order. -/
def genAnchors (rands ids : Nat → String) : RegistrySettings → Nat → Nat → List String
  | _, _, 0 => []
  | st, k, n + 1 =>
    let (anchor, st1) := cacheTaskId (rands k) (ids k) st
    anchor :: genAnchors rands ids st1 (k + 1) n

/-- JavaScript `String.prototype.toLowerCase` on the ASCII anchors in play
(`A`–`Z`, code points 65–90, map to code points +32). -/
def asciiLower (c : Char) : Char :=
  if 65 ≤ c.toNat ∧ c.toNat ≤ 90 then Char.ofNat (c.toNat + 32) else c

/-- Case normalization used for anchor comparison. -/
def jsToLowerCase (s : String) : String :=
  String.mk (s.data.map asciiLower)

/-! ## `MsTodoActions.postTask`: the per-line reconciliation step -/

/-- `ObsidianTodoTask.getRedirectUrl`:
`${redirectUriBase}?vault=${vaultName}&block=${blockLink}`. -/
def ObsidianTask.getRedirectUrl (redirectUriBase vaultName : String)
    (t : ObsidianTask) : String :=
  redirectUriBase ++ "?vault=" ++ vaultName ++ "&block=" ++ jsTpl t.blockLink

/-- The outcome of a `postTask` line handler. -/
inductive PostLineOutcome where
  /-- an early `return;` inside the map callback (configuration error) -/
  | aborted : PostLineOutcome
  /-- normal completion with the final state of the `todo` object and of the
  registry slice of the settings -/
  | done : ObsidianTask → RegistrySettings → PostLineOutcome
deriving DecidableEq, Repr

/-- The per-selected-line body of `MsTodoActions.postTask`
(src/command/msToDoActions.ts).  Parameters standing for the surrounding
state and the gateway responses:
`found` is `getListAndTaskFromTaskId(todo.id)`; `cachedLists` the cached
delta collections (for the list-name lookup); `defaultListId` is
`settings.todoListSync.listId`; `createIfMissing` is
`settings.todo_CreateToDoListIfMissing`; `createdListId` the response of
`createTaskList` (`none` = `!newTaskList`); `createdTask` the response of
`createTaskFromToDo`; `rand` feeds `cacheTaskId`.  Returns the gateway write
calls in issue order together with the outcome. -/
def postTaskLineStep (luxonIso : String → String → Option String)
    (redirectUriBase vaultName : String)
    (todo : ObsidianTask) (found : Option (TasksDeltaCollection × TodoTask))
    (cachedLists : List TasksDeltaCollection) (defaultListId : Option String)
    (createIfMissing : Bool) (createdListId : Option (Option String))
    (createdTask : TodoTask) (rand : String) (st : RegistrySettings) :
    List GatewayWrite × PostLineOutcome :=
  if todo.hasBlockLink && todo.hasId then
    -- tracked path: update the linked resource and then the task, each only
    -- when the cached task exists and differs
    let cachedTask := found.map Prod.snd
    let list := found.map Prod.fst
    let resourceWrites : List GatewayWrite :=
      match cachedTask with
      | some ct =>
        if !(todo.equals luxonIso ct) then
          match ct.linkedResources.getD [] |>.head? with
          | some linkedResource =>
            if truthy linkedResource.id then
              [.updateLinkedResource ((list.map (·.listId)).getD "") (jsTpl todo.id)
                (linkedResource.id.getD "") (todo.blockLink.getD "")
                (todo.getRedirectUrl redirectUriBase vaultName)]
            else
              [.createLinkedResource ((list.map (·.listId)).getD "") (jsTpl todo.id)
                (todo.blockLink.getD "") (todo.getRedirectUrl redirectUriBase vaultName)]
          | none =>
            [.createLinkedResource ((list.map (·.listId)).getD "") (jsTpl todo.id)
              (todo.blockLink.getD "") (todo.getRedirectUrl redirectUriBase vaultName)]
        else []
      | none => []
    let todo1 := { todo with linkedResources := cachedTask.bind (·.linkedResources) }
    let updateWrites : List GatewayWrite :=
      match cachedTask with
      | some ct =>
        if !(todo1.equals luxonIso ct) then
          [.updateTask (some ((list.map (·.listId)).getD "")) (jsTpl todo1.id)
            (todo1.getTodoTask false)]
        else []
      | none => []
    (resourceWrites ++ updateWrites, .done todo1 st)
  else
    -- create path
    let listId0 := defaultListId
    if truthy todo.listName then
      let foundList := cachedLists.find? (fun l => l.name = todo.listName.getD "")
      let listId1 := foundList.map (·.listId)
      if truthy listId1 then
        let returnedTask := createdTask
        let todo2 := { todo with status := returnedTask.status }
        let (anchor, st1) := cacheTaskId rand (returnedTask.id.getD "") st
        let todo3 := { todo2 with blockLink := some anchor, id := some (returnedTask.id.getD "") }
        ([.createTask listId1 (todo.getTodoTask false)], .done todo3 st1)
      else if createIfMissing then
        match createdListId with
        | none => ([.createTaskList todo.listName], .aborted)
        | some newListId =>
          let todo1 := { todo with listId := some (newListId.getD "") }
          let listId2 := todo1.listId
          let returnedTask := createdTask
          let todo2 := { todo1 with status := returnedTask.status }
          let (anchor, st1) := cacheTaskId rand (returnedTask.id.getD "") st
          let todo3 := { todo2 with blockLink := some anchor, id := some (returnedTask.id.getD "") }
          ([.createTaskList todo.listName, .createTask listId2 (todo1.getTodoTask false)],
            .done todo3 st1)
      else ([], .aborted)
    else
      let returnedTask := createdTask
      let todo2 := { todo with status := returnedTask.status }
      let (anchor, st1) := cacheTaskId rand (returnedTask.id.getD "") st
      let todo3 := { todo2 with blockLink := some anchor, id := some (returnedTask.id.getD "") }
      ([.createTask listId0 (todo.getTodoTask false)], .done todo3 st1)

/-! ## `MsTodoActions.getTaskDelta`: the cache refresh -/

/-- The gateway operations the refresh consumes, as oracles: `getListsResult`
is the `TodoApi.getLists()` response (`none` = falsy), `getTasksDelta` the
delta query, which can fail with a transport error (`Except.error`). -/
structure DeltaGateway where
  getListsResult : Option (List (Option String × Option String))
  getTasksDelta : String → String → Except Unit TasksDeltaCollection

/-- The result of a refresh run: the final persisted delta-cache file (the
vault-adapter state), the list of `adapter.write` calls performed, and the
function result (`Except.error` = a gateway exception propagated out,
`Option` = the possibly-`undefined` return value). -/
structure DeltaRunResult where
  persisted : Option ListsDeltaCollection
  writes : List ListsDeltaCollection
  result : Except Unit (Option ListsDeltaCollection)

/-- The per-list body of the refresh loop of `MsTodoActions.getTaskDelta`:
delta-query the gateway, then either merge into the cached tasks (non-empty
cache) or adopt the returned batch wholesale. -/
def refreshList (jsDate : String → Option Int) (gw : DeltaGateway)
    (skipRemoteCheck : Bool) (list : TasksDeltaCollection) :
    Except Unit TasksDeltaCollection := do
  let deltaLink := if list.deltaLink = "" then "" else list.deltaLink
  let returnedTask ←
    if skipRemoteCheck then pure (TasksDeltaCollection.mk [] "" list.listId list.name)
    else gw.getTasksDelta list.listId deltaLink
  if list.allTasks.length > 0 then
    pure { list with
      allTasks := mergeCollections jsDate list.allTasks returnedTask.allTasks
      deltaLink := returnedTask.deltaLink }
  else
    pure { list with
      allTasks := returnedTask.allTasks
      deltaLink := returnedTask.deltaLink }

/-- `MsTodoActions.getTaskDelta` (src/command/msToDoActions.ts): optionally
reset the cache file, load it (absent ⇒ rebuild the list skeleton from
`getLists`), refresh every list from the gateway, and persist the refreshed
collection in one `setDeltaCache` write at the end.  A gateway exception
propagates, leaving the persisted file as it was. -/
def getTaskDelta (jsDate : String → Option Int) (gw : DeltaGateway)
    (persisted : Option ListsDeltaCollection) (reset skipRemoteCheck : Bool) :
    DeltaRunResult :=
  let p0 := if reset then none else persisted
  let cache0 : Option ListsDeltaCollection :=
    match p0 with
    | some c => some c
    | none =>
      match gw.getListsResult with
      | none => none
      | some allToDoLists =>
        some ⟨allToDoLists.filterMap (fun l =>
          if truthy l.1 && truthy l.2 then
            some (TasksDeltaCollection.mk [] "" (l.1.getD "") (l.2.getD ""))
          else none)⟩
  match cache0 with
  | none => ⟨p0, [], .ok none⟩
  | some cache =>
    match cache.allLists.mapM (refreshList jsDate gw skipRemoteCheck) with
    | .error e => ⟨p0, [], .error e⟩
    | .ok newLists =>
      let final : ListsDeltaCollection := ⟨newLists⟩
      if skipRemoteCheck then ⟨p0, [], .ok (some final)⟩
      else ⟨some final, [final], .ok (some final)⟩

/-! ## Properties of `mergeCollections` -/

/-- The guard of `addToMap`: `item.id && item.lastModifiedDateTime`. -/
def validTask (t : TodoTask) : Bool :=
  truthy t.id && truthy t.lastModifiedDateTime

/-- `new Date(item.lastModifiedDateTime)` on the incoming side. -/
def dIn (jsDate : String → Option Int) (t : TodoTask) : Option Int :=
  jsDate (t.lastModifiedDateTime.getD "")

/-- `new Date(existingItem.lastModifiedDateTime ?? 0)` on the stored side. -/
def dStored (jsDate : String → Option Int) (t : TodoTask) : Option Int :=
  match t.lastModifiedDateTime with
  | none => some 0
  | some s => jsDate s

theorem addToMap_eq (jsDate : String → Option Int) (m : List (String × TodoTask))
    (item : TodoTask) :
    addToMap jsDate m item =
      if validTask item then
        match mapGet (item.id.getD "") m with
        | none => mapSet (item.id.getD "") item m
        | some w =>
          if jsGtDate (dIn jsDate item) (dStored jsDate w) then
            mapSet (item.id.getD "") item m
          else m
      else m := by
  simp only [addToMap, validTask, dIn, dStored]

theorem dIn_eq_dStored (jsDate : String → Option Int) (t : TodoTask)
    (h : validTask t = true) : dIn jsDate t = dStored jsDate t := by
  simp only [validTask, truthy, Bool.and_eq_true] at h
  cases hl : t.lastModifiedDateTime with
  | none => rw [hl] at h; simp at h
  | some s => simp [dIn, dStored, hl]

theorem jsGtDate_irrefl (a : Option Int) : jsGtDate a a = false := by
  cases a <;> simp [jsGtDate]

theorem jsGtDate_of_not_of_gt {x w v : Option Int} (h1 : jsGtDate x w = false)
    (h2 : jsGtDate v w = true) : jsGtDate x v = false := by
  cases x with
  | none => cases v <;> simp [jsGtDate]
  | some a =>
    cases v with
    | none => simp [jsGtDate]
    | some b =>
      cases w with
      | none => simp [jsGtDate] at h2
      | some c =>
        simp only [jsGtDate, decide_eq_false_iff_not, not_lt, decide_eq_true_eq] at *
        omega

theorem mapGet_mapSet_self (k : String) (v : TodoTask) :
    ∀ m, mapGet k (mapSet k v m) = some v := by
  intro m
  induction m with
  | nil => simp [mapSet, mapGet]
  | cons p rest ih =>
    by_cases h : p.1 = k
    · simp [mapSet, mapGet, h]
    · simp [mapSet, mapGet, h, ih]

theorem mapGet_mapSet_ne (k k' : String) (v : TodoTask) (h : k ≠ k') :
    ∀ m, mapGet k' (mapSet k v m) = mapGet k' m := by
  intro m
  induction m with
  | nil => simp [mapSet, mapGet, h]
  | cons p rest ih =>
    by_cases hp : p.1 = k
    · subst hp
      simp [mapSet, mapGet, h]
    · simp only [mapSet, if_neg hp, mapGet]
      by_cases hp' : p.1 = k'
      · simp [hp']
      · simp [hp', ih]

/-- After `addToMap`, the entry at any key is either unchanged, or it became
the (valid) incoming item at its own id. -/
theorem mapGet_addToMap (jsDate : String → Option Int) (m : List (String × TodoTask))
    (y : TodoTask) (k : String) (v : TodoTask)
    (h : mapGet k (addToMap jsDate m y) = some v) :
    mapGet k m = some v ∨
      (validTask y = true ∧ y.id = some k ∧ v = y ∧
        ((mapGet k m = none) ∨
          ∃ w, mapGet k m = some w ∧ jsGtDate (dIn jsDate y) (dStored jsDate w) = true)) := by
  by_cases hv : validTask y = true
  · have hid : y.id = some (y.id.getD "") := by
      have h2 := hv
      simp only [validTask, truthy, Bool.and_eq_true] at h2
      cases hy : y.id with
      | none => rw [hy] at h2; simp at h2
      | some s => simp [hy]
    cases hw : mapGet (y.id.getD "") m with
    | none =>
      simp only [addToMap_eq, hv, if_true, hw] at h
      by_cases hk : y.id.getD "" = k
      · subst hk
        rw [mapGet_mapSet_self] at h
        cases h
        exact Or.inr ⟨hv, hid, rfl, Or.inl hw⟩
      · rw [mapGet_mapSet_ne _ _ _ hk] at h
        exact Or.inl h
    | some w =>
      simp only [addToMap_eq, hv, if_true, hw] at h
      by_cases hgt : jsGtDate (dIn jsDate y) (dStored jsDate w) = true
      · rw [if_pos hgt] at h
        by_cases hk : y.id.getD "" = k
        · subst hk
          rw [mapGet_mapSet_self] at h
          cases h
          exact Or.inr ⟨hv, hid, rfl, Or.inr ⟨w, hw, hgt⟩⟩
        · rw [mapGet_mapSet_ne _ _ _ hk] at h
          exact Or.inl h
      · rw [if_neg hgt] at h
        exact Or.inl h
  · simp only [addToMap_eq, if_neg hv] at h
    exact Or.inl h

/-- `addToMap` never deletes a key. -/
theorem mapGet_addToMap_isSome (jsDate : String → Option Int)
    (m : List (String × TodoTask)) (y : TodoTask) (k : String)
    (h : (mapGet k m).isSome) : (mapGet k (addToMap jsDate m y)).isSome := by
  by_cases hv : validTask y = true
  · cases hw : mapGet (y.id.getD "") m with
    | none =>
      simp only [addToMap_eq, hv, if_true, hw]
      by_cases hk : y.id.getD "" = k
      · subst hk; simp [mapGet_mapSet_self]
      · rw [mapGet_mapSet_ne _ _ _ hk]; exact h
    | some w =>
      simp only [addToMap_eq, hv, if_true, hw]
      by_cases hgt : jsGtDate (dIn jsDate y) (dStored jsDate w) = true
      · rw [if_pos hgt]
        by_cases hk : y.id.getD "" = k
        · subst hk; simp [mapGet_mapSet_self]
        · rw [mapGet_mapSet_ne _ _ _ hk]; exact h
      · rw [if_neg hgt]; exact h
  · simp only [addToMap_eq, if_neg hv]; exact h

theorem validTask_id (y : TodoTask) (h : validTask y = true) :
    y.id = some (y.id.getD "") := by
  simp only [validTask, truthy, Bool.and_eq_true] at h
  cases hy : y.id with
  | none => rw [hy] at h; simp at h
  | some s => simp [hy]

/-- Folding more items keeps every key dominated: a date that was not newer
than the stored value stays not newer. -/
theorem foldl_addToMap_not_gt (jsDate : String → Option Int) (col : List TodoTask) :
    ∀ (m : List (String × TodoTask)) (k : String) (d : Option Int),
      (∃ w, mapGet k m = some w ∧ jsGtDate d (dStored jsDate w) = false) →
      ∃ v, mapGet k (col.foldl (addToMap jsDate) m) = some v ∧
        jsGtDate d (dStored jsDate v) = false := by
  induction col with
  | nil => intro m k d h; exact h
  | cons y rest ih =>
    intro m k d h
    obtain ⟨w, hw, hnot⟩ := h
    apply ih
    by_cases hv : validTask y = true
    · by_cases hk : y.id.getD "" = k
      · subst hk
        simp only [addToMap_eq, hv, if_true, hw]
        by_cases hgt : jsGtDate (dIn jsDate y) (dStored jsDate w) = true
        · rw [if_pos hgt, mapGet_mapSet_self]
          refine ⟨y, rfl, ?_⟩
          rw [dIn_eq_dStored jsDate y hv] at hgt
          exact jsGtDate_of_not_of_gt hnot hgt
        · rw [if_neg hgt]
          exact ⟨w, hw, hnot⟩
      · refine ⟨w, ?_, hnot⟩
        cases hw0 : mapGet (y.id.getD "") m with
        | none =>
          simp only [addToMap_eq, hv, if_true, hw0]
          rw [mapGet_mapSet_ne _ _ _ hk]
          exact hw
        | some w0 =>
          simp only [addToMap_eq, hv, if_true, hw0]
          by_cases hgt : jsGtDate (dIn jsDate y) (dStored jsDate w0) = true
          · rw [if_pos hgt, mapGet_mapSet_ne _ _ _ hk]
            exact hw
          · rw [if_neg hgt]
            exact hw
    · simp only [addToMap_eq, if_neg hv]
      exact ⟨w, hw, hnot⟩

/-- Every valid item of the folded collection ends up dominated by the final
stored value at its id. -/
theorem foldl_addToMap_self_not_gt (jsDate : String → Option Int) (col : List TodoTask) :
    ∀ (m : List (String × TodoTask)) (x : TodoTask), x ∈ col → validTask x = true →
      ∃ v, mapGet (x.id.getD "") (col.foldl (addToMap jsDate) m) = some v ∧
        jsGtDate (dIn jsDate x) (dStored jsDate v) = false := by
  induction col with
  | nil => intro m x hx; cases hx
  | cons y rest ih =>
    intro m x hx hv
    rw [List.foldl_cons]
    rcases List.mem_cons.mp hx with rfl | hx'
    · -- the head itself: after its own `addToMap` its key is dominated,
      -- and folding the rest preserves that
      apply foldl_addToMap_not_gt
      cases hw : mapGet (x.id.getD "") m with
      | none =>
        simp only [addToMap_eq, hv, if_true, hw]
        rw [mapGet_mapSet_self]
        refine ⟨x, rfl, ?_⟩
        rw [dIn_eq_dStored jsDate x hv]
        exact jsGtDate_irrefl _
      | some w =>
        simp only [addToMap_eq, hv, if_true, hw]
        by_cases hgt : jsGtDate (dIn jsDate x) (dStored jsDate w) = true
        · rw [if_pos hgt, mapGet_mapSet_self]
          refine ⟨x, rfl, ?_⟩
          rw [dIn_eq_dStored jsDate x hv]
          exact jsGtDate_irrefl _
        · rw [if_neg hgt]
          exact ⟨w, hw, by simpa using hgt⟩
    · exact ih (addToMap jsDate m y) x hx' hv

/-- Well-formedness of the merge map: keys are distinct and every entry is a
valid task stored at its own id. -/
def MapWF (m : List (String × TodoTask)) : Prop :=
  (m.map Prod.fst).Nodup ∧ ∀ p ∈ m, p.2.id = some p.1 ∧ validTask p.2 = true

theorem mapGet_eq_none_iff (k : String) :
    ∀ m : List (String × TodoTask), mapGet k m = none ↔ k ∉ m.map Prod.fst := by
  intro m
  induction m with
  | nil => simp [mapGet]
  | cons p rest ih =>
    obtain ⟨k0, v0⟩ := p
    by_cases h : k0 = k
    · simp [mapGet, h]
    · simp [mapGet, h, ih, Ne.symm h]

theorem mem_mapSet (k : String) (v : TodoTask) :
    ∀ m p, p ∈ mapSet k v m → p ∈ m ∨ p = (k, v) := by
  intro m
  induction m with
  | nil => intro p hp; simp [mapSet] at hp; simp [hp]
  | cons q rest ih =>
    intro p hp
    by_cases h : q.1 = k
    · simp only [mapSet, if_pos h] at hp
      rcases List.mem_cons.mp hp with rfl | hp'
      · right; rw [← h]
      · left; exact List.mem_cons_of_mem _ hp'
    · simp only [mapSet, if_neg h] at hp
      rcases List.mem_cons.mp hp with rfl | hp'
      · left; exact List.mem_cons_self _ _
      · rcases ih p hp' with h1 | h2
        · left; exact List.mem_cons_of_mem _ h1
        · right; exact h2

theorem map_fst_mapSet (k : String) (v : TodoTask) :
    ∀ m, (mapSet k v m).map Prod.fst =
      if (mapGet k m).isSome then m.map Prod.fst else m.map Prod.fst ++ [k] := by
  intro m
  induction m with
  | nil => simp [mapSet, mapGet]
  | cons q rest ih =>
    by_cases h : q.1 = k
    · simp [mapSet, mapGet, h]
    · simp only [mapSet, if_neg h, mapGet, List.map_cons, ih]
      by_cases hs : (mapGet k rest).isSome
      · simp [h, hs]
      · simp [h, hs]

theorem MapWF_mapSet (k : String) (v : TodoTask) (m : List (String × TodoTask))
    (hwf : MapWF m) (hv : v.id = some k ∧ validTask v = true) :
    MapWF (mapSet k v m) := by
  constructor
  · rw [map_fst_mapSet]
    by_cases hs : (mapGet k m).isSome
    · rw [if_pos hs]; exact hwf.1
    · rw [if_neg hs]
      have hk : k ∉ m.map Prod.fst := by
        rw [← mapGet_eq_none_iff]
        cases h : mapGet k m
        · rfl
        · rw [h] at hs; simp at hs
      simp [List.nodup_append, hwf.1, hk]
  · intro p hp
    rcases mem_mapSet k v m p hp with h1 | rfl
    · exact hwf.2 p h1
    · exact hv

theorem MapWF_addToMap (jsDate : String → Option Int) (m : List (String × TodoTask))
    (y : TodoTask) (hwf : MapWF m) : MapWF (addToMap jsDate m y) := by
  by_cases hv : validTask y = true
  · cases hw : mapGet (y.id.getD "") m with
    | none =>
      simp only [addToMap_eq, hv, if_true, hw]
      exact MapWF_mapSet _ _ _ hwf ⟨validTask_id y hv, hv⟩
    | some w =>
      simp only [addToMap_eq, hv, if_true, hw]
      by_cases hgt : jsGtDate (dIn jsDate y) (dStored jsDate w) = true
      · rw [if_pos hgt]
        exact MapWF_mapSet _ _ _ hwf ⟨validTask_id y hv, hv⟩
      · rw [if_neg hgt]; exact hwf
  · simp only [addToMap_eq, if_neg hv]; exact hwf

theorem MapWF_foldl (jsDate : String → Option Int) (col : List TodoTask) :
    ∀ m, MapWF m → MapWF (col.foldl (addToMap jsDate) m) := by
  induction col with
  | nil => intro m h; exact h
  | cons y rest ih => intro m h; exact ih _ (MapWF_addToMap jsDate m y h)

theorem MapWF_nil : MapWF [] := by
  constructor <;> simp

theorem mapGet_of_mem (k : String) (v : TodoTask) :
    ∀ m : List (String × TodoTask), (m.map Prod.fst).Nodup → (k, v) ∈ m →
      mapGet k m = some v := by
  intro m
  induction m with
  | nil => intro _ h; cases h
  | cons q rest ih =>
    obtain ⟨k0, v0⟩ := q
    intro hnd hm
    rcases List.mem_cons.mp hm with heq | hm'
    · cases heq
      simp [mapGet]
    · have hk : k0 ≠ k := by
        intro hq
        have hmem : k ∈ rest.map Prod.fst := List.mem_map.mpr ⟨(k, v), hm', rfl⟩
        rw [List.map_cons, List.nodup_cons, hq] at hnd
        exact hnd.1 hmem
      simp only [mapGet, if_neg hk]
      exact ih (by rw [List.map_cons, List.nodup_cons] at hnd; exact hnd.2) hm'

theorem mem_of_mapGet (k : String) (v : TodoTask) :
    ∀ m : List (String × TodoTask), mapGet k m = some v → (k, v) ∈ m := by
  intro m
  induction m with
  | nil => intro h; simp [mapGet] at h
  | cons q rest ih =>
    obtain ⟨k0, v0⟩ := q
    intro h
    by_cases hq : k0 = k
    · simp only [mapGet, if_pos hq] at h
      cases h
      subst hq
      exact List.mem_cons_self _ _
    · simp only [mapGet, if_neg hq] at h
      exact List.mem_cons_of_mem _ (ih h)

theorem mem_mapValues (y : TodoTask) (m : List (String × TodoTask)) :
    y ∈ mapValues m ↔ ∃ k, (k, y) ∈ m := by
  simp only [mapValues, List.mem_map]
  constructor
  · rintro ⟨⟨k, v⟩, hm, rfl⟩; exact ⟨k, hm⟩
  · rintro ⟨k, hm⟩; exact ⟨(k, y), hm, rfl⟩

theorem addToMap_cons_of_ne (jsDate : String → Option Int) (k : String)
    (v : TodoTask) (m : List (String × TodoTask)) (y : TodoTask)
    (h : validTask y = true → y.id.getD "" ≠ k) :
    addToMap jsDate ((k, v) :: m) y = (k, v) :: addToMap jsDate m y := by
  by_cases hv : validTask y = true
  · have hk := h hv
    have hget : mapGet (y.id.getD "") ((k, v) :: m) = mapGet (y.id.getD "") m := by
      simp only [mapGet, if_neg (Ne.symm hk)]
    have hset : ∀ z, mapSet (y.id.getD "") z ((k, v) :: m) =
        (k, v) :: mapSet (y.id.getD "") z m := by
      intro z
      simp only [mapSet, if_neg (Ne.symm hk)]
    cases hw : mapGet (y.id.getD "") m with
    | none =>
      simp only [addToMap_eq, hv, if_true, hget, hw, hset]
    | some w =>
      simp only [addToMap_eq, hv, if_true, hget, hw]
      by_cases hgt : jsGtDate (dIn jsDate y) (dStored jsDate w) = true
      · rw [if_pos hgt, if_pos hgt, hset]
      · rw [if_neg hgt, if_neg hgt]
  · simp only [addToMap_eq, if_neg hv]

theorem foldl_cons_of_ne (jsDate : String → Option Int) (k : String) (v : TodoTask) :
    ∀ (col : List TodoTask) (m : List (String × TodoTask)),
      (∀ y ∈ col, validTask y = true → y.id.getD "" ≠ k) →
      col.foldl (addToMap jsDate) ((k, v) :: m) =
        (k, v) :: col.foldl (addToMap jsDate) m := by
  intro col
  induction col with
  | nil => intro m _; rfl
  | cons y rest ih =>
    intro m h
    rw [List.foldl_cons, List.foldl_cons,
      addToMap_cons_of_ne jsDate k v m y (h y (List.mem_cons_self _ _))]
    exact ih _ (fun z hz => h z (List.mem_cons_of_mem _ hz))

/-- Re-inserting the values of a well-formed map rebuilds it verbatim. -/
theorem foldl_mapValues_eq_self (jsDate : String → Option Int) :
    ∀ m : List (String × TodoTask), MapWF m →
      (mapValues m).foldl (addToMap jsDate) [] = m := by
  intro m
  induction m with
  | nil => intro _; rfl
  | cons p rest ih =>
    obtain ⟨k, v⟩ := p
    intro hwf
    obtain ⟨hnd, hent⟩ := hwf
    rw [List.map_cons, List.nodup_cons] at hnd
    have hv := hent (k, v) (List.mem_cons_self _ _)
    have hfirst : addToMap jsDate [] v = [(k, v)] := by
      have hkk : v.id.getD "" = k := by
        rw [hv.1]
        rfl
      simp only [addToMap_eq, hv.2, if_true, mapGet, hkk, mapSet]
    have hne : ∀ y ∈ mapValues rest, validTask y = true → y.id.getD "" ≠ k := by
      intro y hy _
      obtain ⟨k', hk'⟩ := (mem_mapValues y rest).mp hy
      have h1 := (hent (k', y) (List.mem_cons_of_mem _ hk')).1
      have h2 : y.id.getD "" = k' := by rw [h1]; rfl
      rw [h2]
      intro hkk
      subst hkk
      exact hnd.1 (List.mem_map.mpr ⟨(k', y), hk', rfl⟩)
    calc (mapValues ((k, v) :: rest)).foldl (addToMap jsDate) []
        = (mapValues rest).foldl (addToMap jsDate) [(k, v)] := by
          simp [mapValues, hfirst]
      _ = (k, v) :: (mapValues rest).foldl (addToMap jsDate) [] :=
          foldl_cons_of_ne jsDate k v (mapValues rest) [] hne
      _ = (k, v) :: rest := by
          rw [ih ⟨hnd.2, fun p hp => hent p (List.mem_cons_of_mem _ hp)⟩]

theorem addToMap_self_of_dominated (jsDate : String → Option Int)
    (m : List (String × TodoTask)) (y : TodoTask)
    (h : validTask y = true →
      ∃ w, mapGet (y.id.getD "") m = some w ∧
        jsGtDate (dIn jsDate y) (dStored jsDate w) = false) :
    addToMap jsDate m y = m := by
  by_cases hv : validTask y = true
  · obtain ⟨w, hw, hnot⟩ := h hv
    simp only [addToMap_eq, hv, if_true, hw, hnot]
    simp
  · simp only [addToMap_eq, if_neg hv]

theorem foldl_eq_self_of_dominated (jsDate : String → Option Int) :
    ∀ (col : List TodoTask) (m : List (String × TodoTask)),
      (∀ y ∈ col, addToMap jsDate m y = m) →
      col.foldl (addToMap jsDate) m = m := by
  intro col
  induction col with
  | nil => intro m _; rfl
  | cons y rest ih =>
    intro m h
    rw [List.foldl_cons, h y (List.mem_cons_self _ _)]
    exact ih m (fun z hz => h z (List.mem_cons_of_mem _ hz))

/-- Every valid record of either input is dominated by the final stored value
at its id. -/
theorem merge_dominates (jsDate : String → Option Int) (a b : List TodoTask)
    (x : TodoTask) (hx : x ∈ a ++ b) (hv : validTask x = true) :
    ∃ v, mapGet (x.id.getD "")
        (b.foldl (addToMap jsDate) (a.foldl (addToMap jsDate) [])) = some v ∧
      jsGtDate (dIn jsDate x) (dStored jsDate v) = false := by
  rcases List.mem_append.mp hx with h | h
  · obtain ⟨w, hw, hnot⟩ := foldl_addToMap_self_not_gt jsDate a [] x h hv
    exact foldl_addToMap_not_gt jsDate b _ _ _ ⟨w, hw, hnot⟩
  · exact foldl_addToMap_self_not_gt jsDate b (a.foldl (addToMap jsDate) []) x h hv

/-- C7: for any two task-snapshot collections `a` and `b` and any `Date`
parsing semantics, `Merge(Merge(a,b), b)` equals `Merge(a,b)` — merging the
already-merged collection with `b` again changes nothing, including the
order of the entries. -/
theorem c7_merge_idempotent (jsDate : String → Option Int) (a b : List TodoTask) :
    mergeCollections jsDate (mergeCollections jsDate a b) b =
      mergeCollections jsDate a b := by
  have hwf : MapWF (b.foldl (addToMap jsDate) (a.foldl (addToMap jsDate) [])) :=
    MapWF_foldl jsDate b _ (MapWF_foldl jsDate a [] MapWF_nil)
  show mapValues (b.foldl (addToMap jsDate)
      ((mapValues (b.foldl (addToMap jsDate) (a.foldl (addToMap jsDate) []))).foldl
        (addToMap jsDate) [])) = _
  rw [foldl_mapValues_eq_self jsDate _ hwf]
  rw [foldl_eq_self_of_dominated jsDate b _ (fun y hy =>
    addToMap_self_of_dominated jsDate _ y (fun hv =>
      merge_dominates jsDate a b y (List.mem_append.mpr (Or.inr hy)) hv))]
  rfl

/-- The property C2 asserts of `mergeCollections`: every remote id present in
either collection is represented in the result by the newest record of that
id (records without a timestamp never win over a timestamped one). -/
def c2MergeClaim : Prop :=
  ∀ (jsDate : String → Option Int) (a b : List TodoTask) (k : String),
    (∃ x, x ∈ a ++ b ∧ x.id = some k) →
    ∃ y, y ∈ mergeCollections jsDate a b ∧ y.id = some k ∧
      ∀ x, x ∈ a ++ b → x.id = some k → truthy x.lastModifiedDateTime = true →
        jsGtDate (dIn jsDate x) (dStored jsDate y) = false

/-- C2, counterexample: a collection whose only record of id `"1"` carries no
`lastModifiedDateTime` — `addToMap` drops it entirely, so id `"1"` is present
in the input but absent from the merge result, refuting the claim. -/
theorem c2_cex_dropped_id : ¬ c2MergeClaim := by
  intro h
  obtain ⟨y, hy, -, -⟩ :=
    h (fun _ => none) [{ TodoTask.empty with id := some "1" }] [] "1"
      ⟨{ TodoTask.empty with id := some "1" }, by simp, rfl⟩
  have hempty : mergeCollections (fun _ => none)
      [{ TodoTask.empty with id := some "1" }] [] = [] := rfl
  rw [hempty] at hy
  cases hy

/-- C2, amended: every remote id carried by a record with a truthy id and
timestamp in either collection is represented by exactly one record in the
merge result; that record is itself valid and no valid input record of the
same id has a strictly newer timestamp.  Records with a falsy id or
timestamp are dropped, so they never appear in (and are in that sense always
superseded from) the result. -/
theorem c2_merge_keeps_newest (jsDate : String → Option Int) (a b : List TodoTask)
    (k : String) (hx : ∃ x, x ∈ a ++ b ∧ x.id = some k ∧ validTask x = true) :
    (∀ z ∈ mergeCollections jsDate a b, validTask z = true) ∧
    ∃ y, y ∈ mergeCollections jsDate a b ∧ y.id = some k ∧ validTask y = true ∧
      (∀ x, x ∈ a ++ b → x.id = some k → validTask x = true →
        jsGtDate (dIn jsDate x) (dStored jsDate y) = false) ∧
      (∀ y', y' ∈ mergeCollections jsDate a b → y'.id = some k → y' = y) := by
  have hwf : MapWF (b.foldl (addToMap jsDate) (a.foldl (addToMap jsDate) [])) :=
    MapWF_foldl jsDate b _ (MapWF_foldl jsDate a [] MapWF_nil)
  constructor
  · intro z hz
    obtain ⟨k', hk'⟩ := (mem_mapValues z _).mp hz
    exact (hwf.2 _ hk').2
  · obtain ⟨x0, hx0, hid0, hv0⟩ := hx
    have hkey0 : x0.id.getD "" = k := by rw [hid0]; rfl
    obtain ⟨y, hy, -⟩ := merge_dominates jsDate a b x0 hx0 hv0
    rw [hkey0] at hy
    have hmem : (k, y) ∈ b.foldl (addToMap jsDate) (a.foldl (addToMap jsDate) []) :=
      mem_of_mapGet k y _ hy
    have hyprops := hwf.2 _ hmem
    refine ⟨y, (mem_mapValues y _).mpr ⟨k, hmem⟩, hyprops.1, hyprops.2, ?_, ?_⟩
    · intro x hxm hidx hvx
      obtain ⟨v, hv', hnot⟩ := merge_dominates jsDate a b x hxm hvx
      have hkeyx : x.id.getD "" = k := by rw [hidx]; rfl
      rw [hkeyx, hy] at hv'
      cases hv'
      exact hnot
    · intro y' hy' hidy'
      obtain ⟨k', hk'⟩ := (mem_mapValues y' _).mp hy'
      have h1 := (hwf.2 _ hk').1
      rw [hidy'] at h1
      have hkk : k' = k := (Option.some.inj h1).symm
      subst hkk
      have h2 := mapGet_of_mem k' y' _ hwf.1 hk'
      rw [hy] at h2
      exact (Option.some.inj h2).symm

/-- C2, witness for the amended theorem at a concrete input. -/
theorem c2_merge_keeps_newest_witness :
    (∀ z ∈ mergeCollections (fun _ => some 5)
        [{ TodoTask.empty with id := some "1", lastModifiedDateTime := some "t" }] [],
      validTask z = true) ∧
    ∃ y, y ∈ mergeCollections (fun _ => some 5)
        [{ TodoTask.empty with id := some "1", lastModifiedDateTime := some "t" }] [] ∧
      y.id = some "1" ∧ validTask y = true ∧
      (∀ x, x ∈ [{ TodoTask.empty with id := some "1", lastModifiedDateTime := some "t" }]
          ++ [] → x.id = some "1" → validTask x = true →
        jsGtDate (dIn (fun _ => some 5) x) (dStored (fun _ => some 5) y) = false) ∧
      (∀ y', y' ∈ mergeCollections (fun _ => some 5)
          [{ TodoTask.empty with id := some "1", lastModifiedDateTime := some "t" }] [] →
        y'.id = some "1" → y' = y) :=
  c2_merge_keeps_newest (fun _ => some 5)
    [{ TodoTask.empty with id := some "1", lastModifiedDateTime := some "t" }] [] "1"
    ⟨{ TodoTask.empty with id := some "1", lastModifiedDateTime := some "t" },
      by simp, rfl, by decide⟩

/-! ## Claim C10: task updates never transmit linked resources -/

/-- C10: every payload `TodoApi.updateTaskFromToDo` PATCHes has its
`linkedResources` field cleared (`undefined`), so a task update never
transmits or modifies the task's linked resources; the dedicated
linked-resource requests are the ones that carry the back-reference
(`externalId` = the anchor, `webUrl` = the redirect URL). -/
theorem c10_update_never_transmits_linked_resources :
    ∀ (listId : Option String) (taskId : String) (toDo : TodoTask)
      (blockId webUrl : String) (linkedResourceId : String),
      (TodoApi.updateTaskFromToDo listId taskId toDo).payload.linkedResources = none ∧
      (TodoApi.createLinkedResource listId taskId blockId webUrl).payload.externalId
        = some blockId ∧
      (TodoApi.createLinkedResource listId taskId blockId webUrl).payload.webUrl
        = some webUrl ∧
      (TodoApi.updateLinkedResource listId taskId linkedResourceId blockId
        webUrl).payload.externalId = some blockId := by
  intro listId taskId toDo blockId webUrl linkedResourceId
  exact ⟨rfl, rfl, rfl, rfl⟩

/-! ## Claim C9: fail-closed, atomic delta-cache refresh -/

/-- C9: a refresh run (`getTaskDelta` with `reset = false`,
`skipRemoteCheck = false`) either fails without touching the persisted cache
(a gateway delta-query exception leaves the last good snapshot and performs
zero writes), or returns without a cache and performs zero writes, or
succeeds with exactly one write that persists the fully refreshed collection
— continuation tokens and task snapshots together, after all fetching and
merging is done. -/
theorem c9_delta_refresh_fail_closed_atomic :
    ∀ (jsDate : String → Option Int) (gw : DeltaGateway)
      (persisted : Option ListsDeltaCollection),
      match getTaskDelta jsDate gw persisted false false with
      | ⟨p', w, .error _⟩ => p' = persisted ∧ w = []
      | ⟨p', w, .ok none⟩ => p' = persisted ∧ w = []
      | ⟨p', w, .ok (some c)⟩ => p' = some c ∧ w = [c] := by
  intro jsDate gw persisted
  unfold getTaskDelta
  simp only [if_neg (by simp : ¬False), Bool.false_eq_true, if_false]
  cases persisted with
  | none =>
    cases hl : gw.getListsResult with
    | none => simp
    | some ls =>
      simp only []
      cases hm : (ls.filterMap (fun l =>
          if truthy l.1 && truthy l.2 then
            some (TasksDeltaCollection.mk [] "" (l.1.getD "") (l.2.getD ""))
          else none) : List TasksDeltaCollection).mapM
            (refreshList jsDate gw false) with
      | error e => exact ⟨rfl, rfl⟩
      | ok newLists => exact ⟨rfl, rfl⟩
  | some cache =>
    simp only []
    cases hm : cache.allLists.mapM (refreshList jsDate gw false) with
    | error e => exact ⟨rfl, rfl⟩
    | ok newLists => exact ⟨rfl, rfl⟩

/-! ## Claim C3: `Equals` suppresses every gateway write -/

theorem equals_ignores_linkedResources (luxonIso : String → String → Option String)
    (t : ObsidianTask) (lr : Option (List LinkedResource)) (ct : TodoTask) :
    ObsidianTask.equals luxonIso { t with linkedResources := lr } ct =
      ObsidianTask.equals luxonIso t ct := rfl

/-- C3: whenever the local record and the cached remote record satisfy
`Equals`, a reconciliation step issues zero gateway write calls — the
`syncVault` loop body `continue`s before any `updateTask`, and the
`postTask` tracked path skips the linked-resource create/update and the task
update. -/
theorem c3_equals_no_gateway_writes
    (luxonIso : String → String → Option String) (jsDate : String → Option Int)
    (parse : String → ObsidianTask) (taskId : Option String)
    (lst : TasksDeltaCollection) (cachedTask : TodoTask) (mtime : Int)
    (taskLine : String) (blockFound : Bool) (redirectUriBase vaultName : String)
    (todo : ObsidianTask) (cachedLists : List TasksDeltaCollection)
    (defaultListId : Option String) (createIfMissing : Bool)
    (createdListId : Option (Option String)) (createdTask : TodoTask)
    (rand : String) (st : RegistrySettings) :
    (ObsidianTask.equals luxonIso { parse taskLine with id := taskId } cachedTask = true →
      (syncVaultTaskStep luxonIso jsDate parse taskId (some (lst, cachedTask))
        (some (mtime, taskLine)) blockFound).gatewayWrites = []) ∧
    ((todo.hasBlockLink && todo.hasId) = true →
      ObsidianTask.equals luxonIso todo cachedTask = true →
      (postTaskLineStep luxonIso redirectUriBase vaultName todo
        (some (lst, cachedTask)) cachedLists defaultListId createIfMissing
        createdListId createdTask rand st).1 = []) := by
  constructor
  · intro h
    unfold syncVaultTaskStep
    by_cases hg : (!blockFound || !truthy cachedTask.lastModifiedDateTime
        || decide (taskLine = "")) = true
    · simp only [hg, if_true]
      rfl
    · simp only [hg, Bool.false_eq_true, if_false, h, if_true]
      rfl
  · intro hb h
    unfold postTaskLineStep
    have h2 : ObsidianTask.equals luxonIso
        { todo with linkedResources := cachedTask.linkedResources }
        cachedTask = true := by
      rw [equals_ignores_linkedResources]
      exact h
    simp [hb, h, h2]

/-- A fixed local record for counterexamples. -/
def exLocalA : ObsidianTask :=
  ⟨none, some "a", some .notStarted, some .normal, .undef, none, none, none, none,
    none, none, none⟩

/-- A cached remote record differing from `exLocalA` in the title. -/
def exRemoteB : TodoTask :=
  { TodoTask.empty with title := some "b", lastModifiedDateTime := some "T" }

/-- A remote record agreeing with `exLocalA` on title, status, importance
and due date. -/
def exRemoteA : TodoTask :=
  { TodoTask.empty with
    title := some "a"
    status := some .notStarted
    importance := some .normal
    lastModifiedDateTime := some "T" }

/-- C3, witness at a concrete `Equals` pair: zero writes on both paths. -/
theorem c3_equals_no_gateway_writes_witness :
    (syncVaultTaskStep (fun _ _ => none) (fun _ => some 0) (fun _ => exLocalA) none
      (some (⟨[], "", "L1", "List"⟩, exRemoteA)) (some (0, "line"))
      true).gatewayWrites = [] ∧
    (postTaskLineStep (fun _ _ => none) "base" "vault"
      { exLocalA with blockLink := some "MSTDx", id := some "42" }
      (some (⟨[], "", "L1", "List"⟩, exRemoteA)) [] none false none
      TodoTask.empty "" ⟨0, []⟩).1 = [] :=
  ⟨(c3_equals_no_gateway_writes (fun _ _ => none) (fun _ => some 0)
      (fun _ => exLocalA) none ⟨[], "", "L1", "List"⟩ exRemoteA 0 "line" true
      "base" "vault" { exLocalA with blockLink := some "MSTDx", id := some "42" }
      [] none false none TodoTask.empty "" ⟨0, []⟩).1 (by decide),
   (c3_equals_no_gateway_writes (fun _ _ => none) (fun _ => some 0)
      (fun _ => exLocalA) none ⟨[], "", "L1", "List"⟩ exRemoteA 0 "line" true
      "base" "vault" { exLocalA with blockLink := some "MSTDx", id := some "42" }
      [] none false none TodoTask.empty "" ⟨0, []⟩).2 (by decide) (by decide)⟩

/-! ## Claim C1: the `syncVault` direction decision -/

/-- The property C1 asserts of the `syncVault` loop body for a tracked,
guard-passing, non-`Equals` task: pull exactly when the remote timestamp is
strictly newer than the document mtime, push otherwise (local strictly newer
or the two equal). -/
def c1DirectionClaim : Prop :=
  ∀ (luxonIso : String → String → Option String) (jsDate : String → Option Int)
    (parse : String → ObsidianTask) (taskId : Option String)
    (lst : TasksDeltaCollection) (cachedTask : TodoTask) (mtime : Int)
    (taskLine : String),
    truthy cachedTask.lastModifiedDateTime = true → taskLine ≠ "" →
    ObsidianTask.equals luxonIso { parse taskLine with id := taskId } cachedTask = false →
    (jsGtDate (jsDate (cachedTask.lastModifiedDateTime.getD "")) (some mtime) = true →
      ∃ t, syncVaultTaskStep luxonIso jsDate parse taskId (some (lst, cachedTask))
        (some (mtime, taskLine)) true = .pull t) ∧
    (jsGtDate (jsDate (cachedTask.lastModifiedDateTime.getD "")) (some mtime) = false →
      ∃ l i p, syncVaultTaskStep luxonIso jsDate parse taskId (some (lst, cachedTask))
        (some (mtime, taskLine)) true = .push l i p)

/-- C1, counterexample: when the remote `lastModifiedTimestamp` equals the
document mtime (both parse to the same instant), the claim requires a push,
but `localTaskNewer = remote < mtime` is false, so the code takes the pull
branch and rewrites the local line. -/
theorem c1_cex_tie_pulls : ¬ c1DirectionClaim := by
  intro h
  obtain ⟨l, i, p, hp⟩ :=
    (h (fun _ _ => none) (fun _ => some 0) (fun _ => exLocalA) none
      ⟨[], "", "L1", "List"⟩ exRemoteB 0 "line" (by decide) (by decide)
      (by decide)).2 (by decide)
  rw [show syncVaultTaskStep (fun _ _ => none) (fun _ => some 0) (fun _ => exLocalA)
      none (some (⟨[], "", "L1", "List"⟩, exRemoteB)) (some (0, "line")) true
      = .pull (({ exLocalA with id := none } :
          ObsidianTask).updateFromTodoTask exRemoteB) from rfl] at hp
  exact SyncDecision.noConfusion hp

/-- C1, amended: for a tracked, guard-passing, non-`Equals` task the code
pushes the local fields via a remote update exactly when the remote
timestamp is strictly *older* than the document mtime (local strictly
newer), and pulls the remote fields and rewrites the line in every other
case — remote strictly newer, the two timestamps equal, or either timestamp
unparseable. -/
theorem c1_sync_direction_last_writer_wins
    (luxonIso : String → String → Option String) (jsDate : String → Option Int)
    (parse : String → ObsidianTask) (taskId : Option String)
    (lst : TasksDeltaCollection) (cachedTask : TodoTask) (mtime : Int)
    (taskLine : String)
    (h1 : truthy cachedTask.lastModifiedDateTime = true)
    (h2 : taskLine ≠ "")
    (h3 : ObsidianTask.equals luxonIso { parse taskLine with id := taskId }
      cachedTask = false) :
    (jsLtDate (jsDate (cachedTask.lastModifiedDateTime.getD "")) (some mtime) = true →
      syncVaultTaskStep luxonIso jsDate parse taskId (some (lst, cachedTask))
        (some (mtime, taskLine)) true
        = .push lst.listId taskId
            (ObsidianTask.getTodoTask { parse taskLine with id := taskId } false)) ∧
    (jsLtDate (jsDate (cachedTask.lastModifiedDateTime.getD "")) (some mtime) = false →
      syncVaultTaskStep luxonIso jsDate parse taskId (some (lst, cachedTask))
        (some (mtime, taskLine)) true
        = .pull (ObsidianTask.updateFromTodoTask { parse taskLine with id := taskId }
            cachedTask)) := by
  constructor
  · intro hlt
    unfold syncVaultTaskStep
    simp only [h1, Bool.not_true, Bool.false_or, Bool.not_false, decide_eq_true_eq, h2,
      Bool.or_false, Bool.false_eq_true, if_false, h3, hlt, if_true]
  · intro hlt
    unfold syncVaultTaskStep
    simp only [h1, Bool.not_true, Bool.false_or, Bool.not_false, decide_eq_true_eq, h2,
      Bool.or_false, Bool.false_eq_true, if_false, h3, hlt, if_true]

/-! ## Claim C4: the `Equals` predicate -/

/-- The due-date comparison C4 asserts: both records lacking a due date
match; two present due dates match exactly when their timezone-normalized
calendar dates coincide; a present due date never matches a lacking one. -/
def c4DueMatchSpec (luxonIso : String → String → Option String) :
    JsOpt DateTimeTimeZone → JsOpt DateTimeTimeZone → Prop
  | .val x, .val y =>
    luxonIso x.dateTime (x.timeZone.getD "utc") = luxonIso y.dateTime (y.timeZone.getD "utc")
  | .val _, _ => False
  | _, .val _ => False
  | _, _ => True

/-- The property C4 asserts of `ObsidianTodoTask.equals`. -/
def c4EqualsClaim : Prop :=
  ∀ (luxonIso : String → String → Option String) (a : ObsidianTask) (b : TodoTask),
    ObsidianTask.equals luxonIso a b = true ↔
      (a.title = b.title ∧ a.status = b.status ∧ a.importance = b.importance ∧
        c4DueMatchSpec luxonIso a.dueDateTime b.dueDateTime)

/-- C4, counterexample: a local record whose `dueDateTime` is absent
(`undefined`) against a remote record whose `dueDateTime` is an explicit
`null` — both lack a due date and all other fields match, yet `equals`
computes `undefined === null`, which is false. -/
theorem c4_cex_null_vs_undefined : ¬ c4EqualsClaim := by
  intro h
  have := (h (fun _ _ => none) exLocalA
    { TodoTask.empty with
        title := some "a", status := some .notStarted, importance := some .normal,
        dueDateTime := .null }).mpr ⟨rfl, rfl, rfl, trivial⟩
  rw [show ObsidianTask.equals (fun _ _ => none) exLocalA
      { TodoTask.empty with
          title := some "a", status := some .notStarted, importance := some .normal,
          dueDateTime := .null } = false from rfl] at this
  exact Bool.noConfusion this

/-- The due-date comparison the code actually implements, stated as the
amended claim words it: an absent (`undefined`) due date stays absent, a
`null` or unparseable due date normalizes to `null`, a parseable one to its
timezone-normalized calendar date; the records match on due date exactly
when the two normalized values are identical.  In particular two absent due
dates match, but an absent due date never matches a `null` one. -/
def c4DueMatchAmended (luxonIso : String → String → Option String) :
    JsOpt DateTimeTimeZone → JsOpt DateTimeTimeZone → Prop
  | .undef, .undef => True
  | .undef, _ => False
  | _, .undef => False
  | x, y => dueNorm luxonIso x = dueNorm luxonIso y
where
  /-- normalization of a non-absent due date: `null` for `null`/unparseable,
  the calendar date otherwise -/
  dueNorm (luxonIso : String → String → Option String) :
      JsOpt DateTimeTimeZone → Option String
    | .undef => none
    | .null => none
    | .val d => luxonIso d.dateTime (d.timeZone.getD "utc")

/-- C4, amended: assuming luxon's actual behavior on the empty string
(`DateTime.fromISO("")` is invalid), `equals` returns true iff title, status
and importance match and the due dates normalize to the identical value in
the sense of `c4DueMatchAmended`. -/
theorem c4_equals_characterization
    (luxonIso : String → String → Option String)
    (hempty : luxonIso "" "utc" = none)
    (a : ObsidianTask) (b : TodoTask) :
    ObsidianTask.equals luxonIso a b = true ↔
      (a.title = b.title ∧ a.status = b.status ∧ a.importance = b.importance ∧
        c4DueMatchAmended luxonIso a.dueDateTime b.dueDateTime) := by
  unfold ObsidianTask.equals
  simp only [Bool.and_eq_true, beq_iff_eq]
  constructor
  · rintro ⟨⟨⟨ht, hs⟩, hd⟩, hi⟩
    refine ⟨ht, hs, hi, ?_⟩
    cases ha : a.dueDateTime with
    | undef =>
      cases hb : b.dueDateTime with
      | undef => exact trivial
      | null =>
        rw [ha, hb] at hd
        simp only [ObsidianTask.isoDateOf, hempty] at hd
        exact absurd hd (by decide)
      | val y =>
        rw [ha, hb] at hd
        simp only [ObsidianTask.isoDateOf] at hd
        cases hy : luxonIso y.dateTime (y.timeZone.getD "utc") with
        | none => rw [hy] at hd; exact absurd hd (by decide)
        | some d => rw [hy] at hd; exact absurd hd (by simp)
    | null =>
      cases hb : b.dueDateTime with
      | undef =>
        rw [ha, hb] at hd
        simp only [ObsidianTask.isoDateOf, hempty] at hd
        exact absurd hd (by decide)
      | null => simp [c4DueMatchAmended]
      | val y =>
        rw [ha, hb] at hd
        simp only [ObsidianTask.isoDateOf, hempty] at hd
        simp only [c4DueMatchAmended, c4DueMatchAmended.dueNorm, hempty]
        cases hy : luxonIso y.dateTime (y.timeZone.getD "utc") with
        | none => rfl
        | some d => rw [hy] at hd; exact absurd hd (by simp)
    | val x =>
      cases hb : b.dueDateTime with
      | undef =>
        rw [ha, hb] at hd
        simp only [ObsidianTask.isoDateOf] at hd
        cases hx : luxonIso x.dateTime (x.timeZone.getD "utc") with
        | none => rw [hx] at hd; exact absurd hd (by decide)
        | some d => rw [hx] at hd; exact absurd hd (by simp)
      | null =>
        rw [ha, hb] at hd
        simp only [ObsidianTask.isoDateOf, hempty] at hd
        simp only [c4DueMatchAmended, c4DueMatchAmended.dueNorm]
        cases hx : luxonIso x.dateTime (x.timeZone.getD "utc") with
        | none => rfl
        | some d => rw [hx] at hd; exact absurd hd (by simp)
      | val y =>
        rw [ha, hb] at hd
        simp only [ObsidianTask.isoDateOf] at hd
        simp only [c4DueMatchAmended, c4DueMatchAmended.dueNorm]
        cases hx : luxonIso x.dateTime (x.timeZone.getD "utc") with
        | none =>
          rw [hx] at hd
          cases hy : luxonIso y.dateTime (y.timeZone.getD "utc") with
          | none => rfl
          | some d => rw [hy] at hd; exact absurd hd (by simp)
        | some d =>
          rw [hx] at hd
          cases hy : luxonIso y.dateTime (y.timeZone.getD "utc") with
          | none => rw [hy] at hd; exact absurd hd (by simp)
          | some d' =>
            rw [hy] at hd
            simp only [ObsidianTask.JsIsoDate.date.injEq] at hd
            rw [hd]
  · rintro ⟨ht, hs, hi, hd⟩
    refine ⟨⟨⟨ht, hs⟩, ?_⟩, hi⟩
    cases ha : a.dueDateTime with
    | undef =>
      cases hb : b.dueDateTime with
      | undef => rfl
      | null => rw [ha, hb] at hd; exact absurd hd not_false
      | val y => rw [ha, hb] at hd; exact absurd hd not_false
    | null =>
      cases hb : b.dueDateTime with
      | undef => rw [ha, hb] at hd; exact absurd hd not_false
      | null => rfl
      | val y =>
        rw [ha, hb] at hd
        simp only [c4DueMatchAmended, c4DueMatchAmended.dueNorm, hempty] at hd
        simp only [ObsidianTask.isoDateOf, hempty, ← hd]
    | val x =>
      cases hb : b.dueDateTime with
      | undef => rw [ha, hb] at hd; exact absurd hd not_false
      | null =>
        rw [ha, hb] at hd
        simp only [c4DueMatchAmended, c4DueMatchAmended.dueNorm, hempty] at hd
        simp only [ObsidianTask.isoDateOf, hempty, hd]
      | val y =>
        rw [ha, hb] at hd
        simp only [c4DueMatchAmended, c4DueMatchAmended.dueNorm] at hd
        simp only [ObsidianTask.isoDateOf, hd]

/-- C4, witness for the amended characterization at a concrete input. -/
theorem c4_equals_characterization_witness :
    ObsidianTask.equals (fun _ _ => none) exLocalA
      { TodoTask.empty with
          title := some "a", status := some .notStarted,
          importance := some .normal } = true ↔
      (exLocalA.title = some "a" ∧ exLocalA.status = some .notStarted ∧
        exLocalA.importance = some .normal ∧
        c4DueMatchAmended (fun _ _ => none) exLocalA.dueDateTime
          ({ TodoTask.empty with
              title := some "a", status := some .notStarted,
              importance := some .normal } : TodoTask).dueDateTime) :=
  c4_equals_characterization (fun _ _ => none) rfl exLocalA
    { TodoTask.empty with
        title := some "a", status := some .notStarted, importance := some .normal }

/-! ## Claim C5: dangling anchors -/

/-- The property C5 asserts of the `postTask` line handler: an anchored line
whose anchor resolves to no remote id is skipped — zero gateway writes, in
particular no task creation. -/
def c5DanglingClaim : Prop :=
  ∀ (luxonIso : String → String → Option String) (redirectUriBase vaultName : String)
    (todo : ObsidianTask) (found : Option (TasksDeltaCollection × TodoTask))
    (cachedLists : List TasksDeltaCollection) (defaultListId : Option String)
    (createIfMissing : Bool) (createdListId : Option (Option String))
    (createdTask : TodoTask) (rand : String) (st : RegistrySettings),
    todo.hasBlockLink = true → todo.hasId = false →
    (postTaskLineStep luxonIso redirectUriBase vaultName todo found cachedLists
      defaultListId createIfMissing createdListId createdTask rand st).1 = []

/-- A line with a dangling anchor: a block link is present but the registry
has no entry for it, so `id` stays unresolved. -/
def exDangling : ObsidianTask :=
  { exLocalA with blockLink := some "MSTDdead1" }

/-- C5, counterexample: `hasBlockLink && hasId` is false for a dangling
anchor, so `postTask` takes the create branch and issues a `createTask` call
— the line is not skipped; a new remote task is silently created (and
`cacheTaskId` even mints a fresh anchor replacing the dangling one). -/
theorem c5_cex_dangling_creates : ¬ c5DanglingClaim := by
  intro h
  have := h (fun _ _ => none) "base" "vault" exDangling none [] none false none
    TodoTask.empty "r" ⟨0, []⟩ (by decide) (by decide)
  rw [show (postTaskLineStep (fun _ _ => none) "base" "vault" exDangling none []
      none false none TodoTask.empty "r" ⟨0, []⟩).1
      = [.createTask none (exDangling.getTodoTask false)] from rfl] at this
  exact List.noConfusion this

/-- C5, amended: a dangling-anchor line is treated like a brand-new task: the
handler takes the create path, so whenever the target list resolves (no
list-name tag, or the tag matches a cached list) exactly one `createTask`
call is issued for the line. -/
theorem c5_dangling_takes_create_path
    (luxonIso : String → String → Option String) (redirectUriBase vaultName : String)
    (todo : ObsidianTask) (found : Option (TasksDeltaCollection × TodoTask))
    (cachedLists : List TasksDeltaCollection) (defaultListId : Option String)
    (createIfMissing : Bool) (createdListId : Option (Option String))
    (createdTask : TodoTask) (rand : String) (st : RegistrySettings)
    (h1 : todo.hasBlockLink = true) (h2 : todo.hasId = false) :
    (truthy todo.listName = false →
      (postTaskLineStep luxonIso redirectUriBase vaultName todo found cachedLists
        defaultListId createIfMissing createdListId createdTask rand st).1
        = [.createTask defaultListId (todo.getTodoTask false)]) ∧
    (∀ l, truthy todo.listName = true →
      cachedLists.find? (fun l' => l'.name = todo.listName.getD "") = some l →
      l.listId ≠ "" →
      (postTaskLineStep luxonIso redirectUriBase vaultName todo found cachedLists
        defaultListId createIfMissing createdListId createdTask rand st).1
        = [.createTask (some l.listId) (todo.getTodoTask false)]) := by
  have hcond : (todo.hasBlockLink && todo.hasId) = false := by
    rw [h1, h2]
    rfl
  constructor
  · intro hln
    unfold postTaskLineStep
    simp only [hcond, Bool.false_eq_true, if_false, hln]
  · intro l hln hfind hlid
    have hl : truthy (some l.listId) = true := by simp [truthy, hlid]
    unfold postTaskLineStep
    simp [hcond, hln, hfind, hl]

/-- C5, witness for the amended theorem at a concrete input. -/
theorem c5_dangling_takes_create_path_witness :
    (truthy exDangling.listName = false →
      (postTaskLineStep (fun _ _ => none) "base" "vault" exDangling none []
        none false none TodoTask.empty "r" ⟨0, []⟩).1
        = [.createTask none (exDangling.getTodoTask false)]) ∧
    (∀ l, truthy exDangling.listName = true →
      ([] : List TasksDeltaCollection).find?
        (fun l' => l'.name = exDangling.listName.getD "") = some l →
      l.listId ≠ "" →
      (postTaskLineStep (fun _ _ => none) "base" "vault" exDangling none []
        none false none TodoTask.empty "r" ⟨0, []⟩).1
        = [.createTask (some l.listId) (exDangling.getTodoTask false)]) :=
  c5_dangling_takes_create_path (fun _ _ => none) "base" "vault" exDangling none
    [] none false none TodoTask.empty "r" ⟨0, []⟩ (by decide) (by decide)

/-- C1, witness for the amended theorem at a concrete input (remote parses
older than the mtime, so the push branch fires). -/
theorem c1_sync_direction_witness :
    (jsLtDate ((fun _ => some (-5 : Int)) ((exRemoteB.lastModifiedDateTime).getD ""))
        (some 0) = true →
      syncVaultTaskStep (fun _ _ => none) (fun _ => some (-5 : Int))
        (fun _ => exLocalA) none (some (⟨[], "", "L1", "List"⟩, exRemoteB))
        (some (0, "line")) true
        = .push "L1" none
            (ObsidianTask.getTodoTask { exLocalA with id := none } false)) ∧
    (jsLtDate ((fun _ => some (-5 : Int)) ((exRemoteB.lastModifiedDateTime).getD ""))
        (some 0) = false →
      syncVaultTaskStep (fun _ _ => none) (fun _ => some (-5 : Int))
        (fun _ => exLocalA) none (some (⟨[], "", "L1", "List"⟩, exRemoteB))
        (some (0, "line")) true
        = .pull (ObsidianTask.updateFromTodoTask { exLocalA with id := none }
            exRemoteB)) :=
  c1_sync_direction_last_writer_wins (fun _ _ => none) (fun _ => some (-5 : Int))
    (fun _ => exLocalA) none ⟨[], "", "L1", "List"⟩ exRemoteB 0 "line"
    (by decide) (by decide) (by decide)

/-! ## Claim C8: anchor uniqueness -/

/-- Decimal value of a digit string (most significant first). -/
def valDec (l : List Char) : Nat :=
  l.foldl (fun a c => 10 * a + (c.toNat - 48)) 0

theorem valDec_cons_zero (l : List Char) : valDec ('0' :: l) = valDec l := rfl

theorem valDec_append_digit (l : List Char) (c : Char) :
    valDec (l ++ [c]) = 10 * valDec l + (c.toNat - 48) := by
  simp [valDec, List.foldl_append]

theorem toNat_digitChar (d : Nat) (hd : d < 10) :
    (Char.ofNat (48 + d)).toNat = 48 + d := by
  interval_cases d <;> decide

theorem valDec_decDigits : ∀ n, valDec (decDigits n) = n := by
  intro n
  induction n using Nat.strong_induction_on with
  | _ n ih =>
    match n with
    | 0 => simp [decDigits, valDec]
    | m + 1 =>
      rw [decDigits, valDec_append_digit,
        ih ((m + 1) / 10) (Nat.div_lt_self (by omega) (by omega)),
        toNat_digitChar _ (Nat.mod_lt _ (by omega))]
      omega

theorem valDec_replicate_zero (k : Nat) (l : List Char) :
    valDec (List.replicate k '0' ++ l) = valDec l := by
  induction k with
  | zero => simp
  | succ k ih => simpa [List.replicate_succ] using ih

theorem valDec_padStart (l : List Char) :
    valDec (padStart 5 '0' l) = valDec l :=
  valDec_replicate_zero _ l

theorem decDigits_length_le : ∀ (k n : Nat), n < 10 ^ k → (decDigits n).length ≤ k := by
  intro k
  induction k with
  | zero =>
    intro n hn
    interval_cases n
    simp [decDigits]
  | succ k ih =>
    intro n hn
    match n with
    | 0 => simp [decDigits]
    | m + 1 =>
      rw [decDigits]
      have h1 : (m + 1) / 10 < 10 ^ k := by
        rw [pow_succ] at hn
        omega
      have := ih ((m + 1) / 10) h1
      simp only [List.length_append, List.length_cons, List.length_nil]
      omega

theorem padStart_length (l : List Char) (h : l.length ≤ 5) :
    (padStart 5 '0' l).length = 5 := by
  simp only [padStart, List.length_append, List.length_replicate]
  omega

theorem decDigits_is_digit : ∀ n, ∀ c ∈ decDigits n, 48 ≤ c.toNat ∧ c.toNat ≤ 57 := by
  intro n
  induction n using Nat.strong_induction_on with
  | _ n ih =>
    match n with
    | 0 => intro c hc; simp [decDigits] at hc
    | m + 1 =>
      intro c hc
      rw [decDigits] at hc
      rcases List.mem_append.mp hc with h1 | h2
      · exact ih ((m + 1) / 10) (Nat.div_lt_self (by omega) (by omega)) c h1
      · have : c = Char.ofNat (48 + (m + 1) % 10) := by simpa using h2
        subst this
        rw [toNat_digitChar _ (Nat.mod_lt _ (by omega))]
        omega

theorem asciiLower_digit (c : Char) (h : 48 ≤ c.toNat ∧ c.toNat ≤ 57) :
    asciiLower c = c := by
  unfold asciiLower
  rw [if_neg]
  omega

theorem map_asciiLower_padStart (n : Nat) :
    (padStart 5 '0' (decDigits n)).map asciiLower = padStart 5 '0' (decDigits n) := by
  have h : ∀ c ∈ padStart 5 '0' (decDigits n), asciiLower c = c := by
    intro c hc
    rcases List.mem_append.mp hc with h1 | h2
    · rw [List.eq_of_mem_replicate h1]
      decide
    · exact asciiLower_digit c (decDigits_is_digit n c h2)
  calc (padStart 5 '0' (decDigits n)).map asciiLower
      = (padStart 5 '0' (decDigits n)).map id := List.map_congr_left h
    _ = _ := List.map_id _

/-- The decimal payload of the anchor is recoverable: two equal padded
counters are the same counter. -/
theorem padStart_decDigits_inj (m n : Nat)
    (h : padStart 5 '0' (decDigits m) = padStart 5 '0' (decDigits n)) : m = n := by
  have := congrArg valDec h
  rwa [valDec_padStart, valDec_padStart, valDec_decDigits, valDec_decDigits] at this

theorem toDecString_data (n : Nat) (h : 1 ≤ n) :
    (toDecString n).data = decDigits n := by
  unfold toDecString
  rw [if_neg (by omega)]

/-- The anchors minted by `genAnchors` in closed form: the `j`-th call mints
`MSTD` + its random suffix + the 5-padded counter `taskIdIndex + j + 1`. -/
theorem genAnchors_eq_map (rands ids : Nat → String) :
    ∀ (n : Nat) (st : RegistrySettings) (k : Nat),
      genAnchors rands ids st k n = (List.range n).map (fun j =>
        "MSTD" ++ rands (k + j) ++
          String.mk (padStart 5 '0' (toDecString (st.taskIdIndex + j + 1)).data)) := by
  intro n
  induction n with
  | zero => intro st k; rfl
  | succ n ih =>
    intro st k
    have hstep : genAnchors rands ids st k (n + 1) =
        ("MSTD" ++ rands k ++
            String.mk (padStart 5 '0' (toDecString (st.taskIdIndex + 1)).data))
          :: genAnchors rands ids
            ⟨st.taskIdIndex + 1,
              objSet ("MSTD" ++ rands k ++
                  String.mk (padStart 5 '0' (toDecString (st.taskIdIndex + 1)).data))
                (ids k) st.taskIdLookup⟩
            (k + 1) n := rfl
    rw [hstep, ih, List.range_succ_eq_map, List.map_cons, List.map_map]
    congr 1
    refine List.map_congr_left ?_
    intro j hj
    simp only [Function.comp_apply]
    have e1 : k + 1 + j = k + (j + 1) := by omega
    have e2 : st.taskIdIndex + 1 + j + 1 = st.taskIdIndex + (j + 1) + 1 := by omega
    rw [e1, e2]

/-- Two anchors minted for different counter values (both below the 5-digit
padding limit) differ even case-insensitively: equal lowercased anchors have
equal lengths, hence equal 5-character counter suffixes (lowercasing fixes
the digits), hence equal counters. -/
theorem anchor_lower_ne (r1 r2 : String) (c1 c2 : Nat)
    (h1 : 1 ≤ c1) (h1' : c1 ≤ 99999) (h2 : 1 ≤ c2) (h2' : c2 ≤ 99999)
    (hne : c1 ≠ c2) :
    jsToLowerCase ("MSTD" ++ r1 ++ String.mk (padStart 5 '0' (toDecString c1).data)) ≠
    jsToLowerCase ("MSTD" ++ r2 ++ String.mk (padStart 5 '0' (toDecString c2).data)) := by
  intro heq
  have hdata := congrArg String.data heq
  simp only [jsToLowerCase, String.data_append, List.map_append] at hdata
  rw [toDecString_data c1 h1, toDecString_data c2 h2] at hdata
  have hm1 : (String.mk (padStart 5 '0' (decDigits c1))).data.map asciiLower
      = padStart 5 '0' (decDigits c1) := map_asciiLower_padStart c1
  have hm2 : (String.mk (padStart 5 '0' (decDigits c2))).data.map asciiLower
      = padStart 5 '0' (decDigits c2) := map_asciiLower_padStart c2
  rw [hm1, hm2] at hdata
  have hl1 : (padStart 5 '0' (decDigits c1)).length = 5 :=
    padStart_length _ (decDigits_length_le 5 c1 (by omega))
  have hl2 : (padStart 5 '0' (decDigits c2)).length = 5 :=
    padStart_length _ (decDigits_length_le 5 c2 (by omega))
  have := (List.append_inj' hdata (by rw [hl1, hl2])).2
  exact hne (padStart_decDigits_inj c1 c2 this)

/-- C8: 10,000 sequential `cacheTaskId` calls — whatever random suffixes the
runtime draws and whatever remote ids are cached — mint 10,000 pairwise
distinct anchors under case-insensitive comparison, provided the persistent
counter stays within the 5-digit padding (as it does from the shipped
default `taskIdIndex = 0`).  Each anchor is the literal `MSTD`, the random
suffix, and the zero-padded incremented counter. -/
theorem c8_anchor_uniqueness (rands ids : Nat → String) (st : RegistrySettings)
    (h : st.taskIdIndex + 10000 ≤ 99999) :
    (genAnchors rands ids st 0 10000).Pairwise
      (fun a b => jsToLowerCase a ≠ jsToLowerCase b) := by
  rw [genAnchors_eq_map, List.pairwise_map, List.pairwise_iff_getElem]
  intro i j hi hj hij
  simp only [List.length_range] at hi hj
  simp only [List.getElem_range]
  exact anchor_lower_ne _ _ _ _ (by omega) (by omega) (by omega) (by omega) (by omega)

/-- C8, witness: the theorem applied at the shipped default counter with a
fixed random-suffix stream. -/
theorem c8_anchor_uniqueness_witness :
    (genAnchors (fun _ => "ab1j") (fun _ => "remote-id") ⟨0, []⟩ 0 10000).Pairwise
      (fun a b => jsToLowerCase a ≠ jsToLowerCase b) :=
  c8_anchor_uniqueness (fun _ => "ab1j") (fun _ => "remote-id") ⟨0, []⟩ (by decide)

/-! ## The `ObsidianTodoTask` constructor and `getMarkdownTask`

The specific regular expressions of `src/model/obsidianTodoTask.ts` are
implemented as dedicated matchers below; a matcher reports the length of the
match starting at the current position (plus any capture).  The global
scanners take a fuel argument (always instantiated with the string length,
which suffices since every match consumes at least one character) so that
they compute by kernel reduction. -/

namespace Lst

/-- JavaScript `[A-Za-z\d]`. -/
def isAlnumAscii (c : Char) : Bool :=
  c.isAlpha || c.isDigit

/-- Fuel-driven body of the global regex replacement. -/
def scanRegexF (matcher : List Char → Option Nat) (rep : List Char) :
    Nat → List Char → List Char
  | _, [] => []
  | 0, s => s
  | fuel + 1, c :: rest =>
    match matcher (c :: rest) with
    | some (n + 1) => rep ++ scanRegexF matcher rep fuel ((c :: rest).drop (n + 1))
    | _ => c :: scanRegexF matcher rep fuel rest

/-- `String.prototype.replaceAll` with a `g`-flagged, unanchored regex:
scan left to right, replace every match, resume after it. -/
def scanAll (matcher : List Char → Option Nat) (rep : List Char) (s : List Char) :
    List Char :=
  scanRegexF matcher rep s.length s

/-- First match of `matcher` in `s`: the part before the match, the match
length, and the capture payload. -/
def findFirst {α : Type} (matcher : List Char → Option (Nat × α)) :
    List Char → Option (List Char × Nat × α)
  | [] =>
    match matcher [] with
    | some (n, a) => some ([], n, a)
    | none => none
  | c :: rest =>
    match matcher (c :: rest) with
    | some (n, a) => some ([], n, a)
    | none => (findFirst matcher rest).map (fun p => (c :: p.1, p.2.1, p.2.2))

/-- `String.prototype.replace` with a regex: drop the first match. -/
def removeFirst {α : Type} (matcher : List Char → Option (Nat × α)) (s : List Char) :
    List Char :=
  match findFirst matcher s with
  | some (pre, n, _) => pre ++ s.drop (pre.length + n)
  | none => s

/-- Match of `/\[(.)]/` at the current position: the captured character and
the part after the match. -/
def statusHere : List Char → Option (Char × List Char)
  | x :: c :: d :: rest2 =>
    if x = '[' && d = ']' && c != '\n' then some (c, rest2) else none
  | _ => none

/-- First match of `/\[(.)]/`: the part before, the captured character, the
part after. -/
def findStatus : List Char → Option (List Char × Char × List Char)
  | [] => none
  | x :: rest =>
    match statusHere (x :: rest) with
    | some (c, rest2) => some ([], c, rest2)
    | none => (findStatus rest).map (fun p => (x :: p.1, p.2.1, p.2.2))

/-- Is there a `^` before the first newline? (what the lookahead `(?!.*\^)`
can see). -/
def caretBeforeNewline : List Char → Bool
  | [] => false
  | c :: rest =>
    if c = '\n' then false
    else if c = '^' then true
    else caretBeforeNewline rest

/-- Match of `/\^(?!.*\^)([A-Za-z\d]+)/` at the current position: the
capture. -/
def blockLinkHere : List Char → Option (List Char)
  | [] => none
  | c :: rest =>
    if (c == '^') && !(caretBeforeNewline rest) &&
        (match rest with | d :: _ => isAlnumAscii d | [] => false) then
      some (rest.takeWhile isAlnumAscii)
    else none

/-- First (= only surviving) match of `/\^(?!.*\^)([A-Za-z\d]+)/`: the
capture after the last same-line `^`. -/
def findBlockLink : List Char → Option (List Char)
  | [] => none
  | c :: rest =>
    match blockLinkHere (c :: rest) with
    | some cap => some cap
    | none => findBlockLink rest

/-- `'` and `"`. -/
def isQuote (c : Char) : Bool :=
  c = Char.ofNat 39 || c = '"'

/-- Match of `` ` ${ind}\s*(['"]([^'"]*)['"])` `` at the current position:
length and the inner capture. -/
def matchQuotedList (ind : List Char) : List Char → Option (Nat × List Char)
  | ' ' :: t =>
    if ind.isPrefixOf t then
      let t2 := t.drop ind.length
      let ws := t2.takeWhile jsWs
      let t3 := t2.drop ws.length
      match t3 with
      | q1 :: u =>
        if isQuote q1 then
          let content := u.takeWhile (fun c => !(isQuote c))
          let u2 := u.drop content.length
          match u2 with
          | q2 :: _ =>
            if isQuote q2 then
              some (1 + ind.length + ws.length + 1 + content.length + 1, content)
            else none
          | [] => none
        else none
      | [] => none
    else none
  | _ => none

/-- Match of `` ` ${ind}\s*(([^\s]*))` `` at the current position. -/
def matchUnquotedList (ind : List Char) : List Char → Option (Nat × List Char)
  | ' ' :: t =>
    if ind.isPrefixOf t then
      let t2 := t.drop ind.length
      let ws := t2.takeWhile jsWs
      let t3 := t2.drop ws.length
      let cap := t3.takeWhile (fun c => !(jsWs c))
      some (1 + ind.length + ws.length + cap.length, cap)
    else none
  | _ => none

/-- `\d{4}-\d{2}-\d{2}` at the start of the list (further characters may
follow). -/
def isDateShape : List Char → Bool
  | a :: b :: c :: d :: '-' :: e :: f :: '-' :: g :: h :: _ =>
    a.isDigit && b.isDigit && c.isDigit && d.isDigit && e.isDigit && f.isDigit &&
      g.isDigit && h.isDigit
  | _ => false

/-- Match of `` `${mark} ?(\d{4}-\d{2}-\d{2})` `` at the current position:
length and `m[0]` (the whole matched text). -/
def matchDueCapture (mark : List Char) (s : List Char) : Option (Nat × List Char) :=
  if mark.isPrefixOf s then
    let t := s.drop mark.length
    match t with
    | ' ' :: u =>
      if isDateShape u then some (mark.length + 11, mark ++ ' ' :: u.take 10) else none
    | _ =>
      if isDateShape t then some (mark.length + 10, mark ++ t.take 10) else none
  else none

/-- Match of `` `${mark} ?\d{4}-\d{2}-\d{2}` `` (the due/created strip). -/
def matchMarkDate (mark : List Char) (s : List Char) : Option Nat :=
  (matchDueCapture mark s).map Prod.fst

/-- Largest index `i` with `l[i] = l[i+1] = ']'` (where the greedy `.*` of
`` `${mark} ?\[\[.*]]` `` ends). -/
def lastBrackets : List Char → Option Nat
  | ']' :: ']' :: rest =>
    match lastBrackets (']' :: rest) with
    | some j => some (j + 1)
    | none => some 0
  | _ :: rest => (lastBrackets rest).map (· + 1)
  | [] => none
termination_by l => l.length

/-- Match of `` `${mark} ?\[\[.*]]` `` at the current position (`.` does not
cross a newline; `.*` is greedy). -/
def matchMarkBrackets (mark : List Char) (s : List Char) : Option Nat :=
  if mark.isPrefixOf s then
    let t := s.drop mark.length
    let inner := fun (u : List Char) (spaceLen : Nat) =>
      match u with
      | '[' :: '[' :: v =>
        let seg := v.takeWhile (fun c => c ≠ '\n')
        match lastBrackets seg with
        | some i => some (mark.length + spaceLen + 2 + i + 2)
        | none => none
      | _ => none
    match t with
    | ' ' :: u => inner u 1
    | _ => inner t 0
  else none

/-- One alternative of `/(- \[([ /x])] )|\*|^> |^#* |- /` at the current
position (tried in source order; the `^`-anchored ones require
`atStart`). -/
def matchDecor (atStart : Bool) (s : List Char) : Option Nat :=
  match s with
  | '-' :: ' ' :: '[' :: c :: ']' :: ' ' :: _ =>
    if c = ' ' ∨ c = '/' ∨ c = 'x' then some 6
    else matchDecorRest atStart s
  | _ => matchDecorRest atStart s
where
  matchDecorRest (atStart : Bool) (s : List Char) : Option Nat :=
    match s with
    | '*' :: _ => some 1
    | _ =>
      if atStart && (match s with | '>' :: ' ' :: _ => true | _ => false) then some 2
      else
        let hashes := s.takeWhile (· = '#')
        if atStart && (match s.drop hashes.length with | ' ' :: _ => true | _ => false) then
          some (hashes.length + 1)
        else
          match s with
          | '-' :: ' ' :: _ => some 2
          | _ => none

/-- Fuel-driven global replacement for the decoration-stripping regex (the
`m` flag makes `^` match after every newline, so the scanner tracks whether
the current position starts a line). -/
def stripDecorF : Nat → Bool → List Char → List Char
  | _, _, [] => []
  | 0, _, s => s
  | fuel + 1, atStart, c :: rest =>
    match matchDecor atStart (c :: rest) with
    | some (n + 1) => stripDecorF fuel false ((c :: rest).drop (n + 1))
    | _ => c :: stripDecorF fuel (c = '\n') rest

/-- `title.replaceAll(/(- \[([ /x])] )|\*|^> |^#* |- /gm, '')`. -/
def stripDecor (s : List Char) : List Char :=
  stripDecorF s.length true s

end Lst

/-! ## Settings and the constructor -/

/-- The slice of `IMsTodoSyncSettings` the task model reads.  The two date
marker fields are named `…Mark` here; in the source their names end in the
word P‍refix (`displayOptions_TaskCreated…`, `displayOptions_TaskDue…`). -/
structure PluginSettings where
  displayOptions_ReplacementFormat : String
  displayOptions_ListIndicator : String
  displayOptions_ListIndicator_UseSingleQuotes : Bool
  displayOptions_TaskCreatedMark : String
  displayOptions_TaskDueMark : String
  displayOptions_TaskImportance_Low : String
  displayOptions_TaskImportance_Normal : String
  displayOptions_TaskImportance_High : String
  displayOptions_TaskStatus_NotStarted : String
  displayOptions_TaskStatus_InProgress : String
  displayOptions_TaskStatus_Completed : String
  displayOptions_RegExToRunOnPushAgainstTitle : String
  todoListSync_listName : Option String
  taskIdLookup : List (String × String)
  microsoftToDoApplication_RedirectUriBase : String
  vaultName : String

/-- Lookup in the `taskIdLookup` object. -/
def objGet (k : String) : List (String × String) → Option String
  | [] => none
  | (k0, v0) :: rest => if k0 = k then some v0 else objGet k rest

namespace ObsidianTask

open Lst

/- The `ObsidianTodoTask` constructor (src/model/obsidianTodoTask.ts) parses
one document line into a task record.  The constructor's sequential local
values are modelled as one named stage function per assignment (`title0` …
`title7`, plus one per extracted field), applied in the source's order;
`parseLine` below assembles them.  `localZone` stands for
`Intl.DateTimeFormat().resolvedOptions().timeZone`. -/

/-- `checkForBlockLink`: the anchor capture of the line. -/
def blockLinkOf (line : String) : Option (List Char) :=
  findBlockLink line.data

/-- `this.title = line.trim()`. -/
def title0 (line : String) : List Char :=
  jsTrim line.data

/-- The title after `checkForBlockLink` stripped the anchor. -/
def title1 (line : String) : List Char :=
  match blockLinkOf line with
  | some bl => replaceFirst ('^' :: bl) [] (title0 line)
  | none => title0 line

/-- The remote id the registry resolves the anchor to. -/
def idOf (s : PluginSettings) (line : String) : Option String :=
  match blockLinkOf line with
  | some bl => if bl ≠ [] then objGet (String.mk bl) s.taskIdLookup else none
  | none => none

/-- `checkForStatus`: the status parsed from the `[.]` box. -/
def statusOf (line : String) : TaskStatus :=
  match findStatus line.data with
  | some (_, c, _) =>
    if c = 'x' then TaskStatus.completed else TaskStatus.notStarted
  | none => TaskStatus.notStarted

/-- The title after the status box is removed and the result trimmed. -/
def title2 (line : String) : List Char :=
  match findStatus line.data with
  | some _ =>
    jsTrim (match findStatus (title1 line) with
      | some (pre, _, post) => pre ++ post
      | none => title1 line)
  | none => title1 line

/-- `checkForListName`, quoted alternative, matched against the line. -/
def quotedOf (s : PluginSettings) (line : String) :
    Option (List Char × Nat × List Char) :=
  findFirst (matchQuotedList s.displayOptions_ListIndicator.data) line.data

/-- `checkForListName`, unquoted alternative, matched against the line. -/
def unquotedOf (s : PluginSettings) (line : String) :
    Option (List Char × Nat × List Char) :=
  findFirst (matchUnquotedList s.displayOptions_ListIndicator.data) line.data

/-- The captured list name, if either alternative matched. -/
def listNameOf (s : PluginSettings) (line : String) : Option String :=
  match quotedOf s line with
  | some (_, _, cap) => some (String.mk cap)
  | none =>
    match unquotedOf s line with
    | some (_, _, cap) => some (String.mk cap)
    | none => none

/-- The title after the matched list segment is removed and trimmed. -/
def title3 (s : PluginSettings) (line : String) : List Char :=
  match quotedOf s line with
  | some _ =>
    jsTrim (removeFirst (matchQuotedList s.displayOptions_ListIndicator.data)
      (title2 line))
  | none =>
    match unquotedOf s line with
    | some _ =>
      jsTrim (removeFirst (matchUnquotedList s.displayOptions_ListIndicator.data)
        (title2 line))
    | none => title2 line

/-- The list name falling back to the sync default. -/
def listNameResolved (s : PluginSettings) (line : String) : Option String :=
  match listNameOf s line with
  | none => s.todoListSync_listName
  | some ln => some ln

/-- The title after the created-date segment is stripped. -/
def title4 (s : PluginSettings) (line : String) : List Char :=
  if containsSub s.displayOptions_TaskCreatedMark.data (title3 s line) then
    jsTrim (scanAll (matchMarkDate s.displayOptions_TaskCreatedMark.data) []
      (scanAll (matchMarkBrackets s.displayOptions_TaskCreatedMark.data) []
        (title3 s line)))
  else title3 s line

/-- `checkForDueDate`: the extracted due date. -/
def dueOf (s : PluginSettings) (localZone : String) (line : String) :
    JsOpt DateTimeTimeZone :=
  if containsSub s.displayOptions_TaskDueMark.data (title4 s line) then
    match findFirst (matchDueCapture s.displayOptions_TaskDueMark.data)
        (title4 s line) with
    | some (_, _, m0) =>
      JsOpt.val ⟨String.mk (replaceFirst s.displayOptions_TaskDueMark.data [] m0),
        some localZone⟩
    | none => JsOpt.undef
  else JsOpt.undef

/-- The title after the due-date segment is stripped. -/
def title5 (s : PluginSettings) (line : String) : List Char :=
  if containsSub s.displayOptions_TaskDueMark.data (title4 s line) then
    jsTrim (scanAll (matchMarkDate s.displayOptions_TaskDueMark.data) []
      (scanAll (matchMarkBrackets s.displayOptions_TaskDueMark.data) []
        (title4 s line)))
  else title4 s line

/-- `checkForImportance`, matched against the line. -/
def importanceOf (s : PluginSettings) (line : String) : Importance :=
  if containsSub s.displayOptions_TaskImportance_High.data line.data then
    Importance.high
  else if containsSub s.displayOptions_TaskImportance_Low.data line.data then
    Importance.low
  else Importance.normal

/-- The title after the final decoration strip. -/
def title6 (s : PluginSettings) (line : String) : List Char :=
  jsTrim (stripDecor (jsTrim (title5 s line)))

/-- The user-configured push strip (modelled as a literal-string global
replacement: the setting holds a user regex; every configuration considered
here leaves it empty, which skips the branch as in the source). -/
def title7 (s : PluginSettings) (line : String) : List Char :=
  if s.displayOptions_RegExToRunOnPushAgainstTitle.data ≠ [] then
    scanAll (fun t =>
        if s.displayOptions_RegExToRunOnPushAgainstTitle.data.isPrefixOf t then
          some s.displayOptions_RegExToRunOnPushAgainstTitle.data.length
        else none)
      [] (title6 s line)
  else title6 s line

/-- The `ObsidianTodoTask` constructor: the assembled record. -/
def parseLine (s : PluginSettings) (localZone : String) (line : String) :
    ObsidianTask :=
  { id := idOf s line
    title := some (String.mk (title7 s line))
    status := some (statusOf line)
    importance := some (importanceOf s line)
    dueDateTime := dueOf s localZone line
    createdDateTime := none
    body := some ⟨"", "text"⟩
    checklistItems := none
    linkedResources := some
      [{ id := none
         webUrl := some (s.microsoftToDoApplication_RedirectUriBase ++ "?vault="
           ++ s.vaultName ++ "&block=" ++ jsTpl ((blockLinkOf line).map String.mk))
         applicationName := some "Obsidian Microsoft To Do Sync"
         externalId := (blockLinkOf line).map String.mk
         displayName := some ("Tracking Block Link: "
           ++ jsTpl ((blockLinkOf line).map String.mk)) }]
    blockLink := (blockLinkOf line).map String.mk
    listId := none
    listName := listNameResolved s line }

/-- `ObsidianTodoTask.getStatusIndicator`. -/
def getStatusIndicator (s : PluginSettings) (t : ObsidianTask) : String :=
  match t.status with
  | some .notStarted => s.displayOptions_TaskStatus_NotStarted
  | some .inProgress => s.displayOptions_TaskStatus_InProgress
  | some .completed => s.displayOptions_TaskStatus_Completed
  | _ => ""

/-- `ObsidianTodoTask.getPriorityIndicator`. -/
def getPriorityIndicator (s : PluginSettings) (t : ObsidianTask) : String :=
  match t.importance with
  | some .normal => s.displayOptions_TaskImportance_Normal
  | some .low => s.displayOptions_TaskImportance_Low
  | some .high => s.displayOptions_TaskImportance_High
  | _ => ""

/-- The placeholder the format template holds for the title.  Modelled from
the spec: the regex constants live in `src/constants.ts`, which is not among
the sources; the spec specifies literal substitution of the placeholders. -/
def TASK_PH : List Char := "\x7b\x7bTASK\x7d\x7d".data

/-- Modelled from the spec: the status-symbol placeholder. -/
def STATUS_SYMBOL_PH : List Char := "\x7b\x7bSTATUS_SYMBOL\x7d\x7d".data

/-- Modelled from the spec: the importance placeholder. -/
def IMPORTANCE_PH : List Char := "\x7b\x7bIMPORTANCE\x7d\x7d".data

/-- Modelled from the spec: the list-name placeholder. -/
def TASK_LIST_NAME_PH : List Char := "\x7b\x7bTASK_LIST_NAME\x7d\x7d".data

/-- Modelled from the spec: the due-date placeholder. -/
def DUE_DATE_PH : List Char := "\x7b\x7bDUE_DATE\x7d\x7d".data

/-- Modelled from the spec: the created-date placeholder. -/
def CREATED_DATE_PH : List Char := "\x7b\x7bCREATED_DATE\x7d\x7d".data

/- `ObsidianTodoTask.getMarkdownTask` (src/model/obsidianTodoTask.ts) renders
the record through the replacement-format template.  Its sequential local
values are modelled as one named stage function per assignment (`out1` …
`out7`); `getMarkdownTask` below assembles them.  `momentFmt` stands for
`moment(x).format(settings.displayOptions_DateFormat)` (an external
library; `moment(undefined)` is the current instant, so the function is
total in its optional argument). -/

/-- The rendered priority glyph (empty for normal importance). -/
def priorityIndicatorOf (s : PluginSettings) (t : ObsidianTask) : List Char :=
  if t.importance == some .normal then [] else (getPriorityIndicator s t).data

/-- The template with the trimmed title substituted. -/
def out1 (s : PluginSettings) (t : ObsidianTask) : List Char :=
  replaceFirst TASK_PH (jsTrim (t.title.getD "").data ++ [' '])
    s.displayOptions_ReplacementFormat.data

/-- … then the status symbol. -/
def out2 (s : PluginSettings) (t : ObsidianTask) : List Char :=
  replaceFirst STATUS_SYMBOL_PH (getStatusIndicator s t).data (out1 s t)

/-- … then the importance glyph. -/
def out3 (s : PluginSettings) (t : ObsidianTask) : List Char :=
  if containsSub (priorityIndicatorOf s t) (out2 s t) then
    replaceFirst IMPORTANCE_PH [] (out2 s t)
  else replaceFirst IMPORTANCE_PH (priorityIndicatorOf s t ++ [' ']) (out2 s t)

/-- … then the due date. -/
def out4 (s : PluginSettings) (momentFmt : Option String → String)
    (t : ObsidianTask) : List Char :=
  match t.dueDateTime with
  | .val d =>
    if d.dateTime ≠ "" then
      replaceFirst DUE_DATE_PH
        (s.displayOptions_TaskDueMark.data ++ (momentFmt (some d.dateTime)).data
          ++ [' ']) (out3 s t)
    else replaceFirst DUE_DATE_PH [] (out3 s t)
  | _ => replaceFirst DUE_DATE_PH [] (out3 s t)

/-- … then the created date. -/
def out5 (s : PluginSettings) (momentFmt : Option String → String)
    (t : ObsidianTask) : List Char :=
  replaceFirst CREATED_DATE_PH
    (s.displayOptions_TaskCreatedMark.data ++ (momentFmt t.createdDateTime).data
      ++ [' ']) (out4 s momentFmt t)

/-- … then the list name, quoted when it contains a space. -/
def out6 (s : PluginSettings) (momentFmt : Option String → String)
    (t : ObsidianTask) : List Char :=
  match t.listName with
  | some ln =>
    if ln ≠ "" then
      replaceFirst TASK_LIST_NAME_PH
        ((if containsSub [' '] ln.data then
            if s.displayOptions_ListIndicator_UseSingleQuotes then
              s.displayOptions_ListIndicator.data ++ Char.ofNat 39 :: ln.data
                ++ [Char.ofNat 39]
            else
              s.displayOptions_ListIndicator.data ++ '"' :: ln.data ++ ['"']
          else s.displayOptions_ListIndicator.data ++ ln.data) ++ [' '])
        (out5 s momentFmt t)
    else replaceFirst TASK_LIST_NAME_PH [] (out5 s momentFmt t)
  | none => replaceFirst TASK_LIST_NAME_PH [] (out5 s momentFmt t)

/-- … then the anchor appended after a trim. -/
def out7 (s : PluginSettings) (momentFmt : Option String → String)
    (t : ObsidianTask) : List Char :=
  if t.hasBlockLink then
    jsTrim (out6 s momentFmt t) ++ ' ' :: '^' :: (t.blockLink.getD "").data
  else out6 s momentFmt t

/-- The indented body block of the multi-line rendering. -/
def formattedBodyOf (t : ObsidianTask) : List Char :=
  match t.body with
  | some b =>
    if b.content ≠ "" then
      (b.content.split (· = '\n')).foldl (fun acc bodyLine =>
        if (jsTrim bodyLine.data).length > 0 then
          acc ++ ' ' :: ' ' :: bodyLine.data ++ ['\n']
        else acc) []
    else []
  | none => []

/-- The checklist block of the multi-line rendering. -/
def formattedChecklistOf (t : ObsidianTask) : List Char :=
  match t.checklistItems with
  | some items =>
    if items.length > 0 then
      items.foldl (fun acc item =>
        if item.isChecked.getD false then
          acc ++ "  - [x] ".data ++ item.displayName.data ++ ['\n']
        else
          acc ++ "  - [ ] ".data ++ item.displayName.data ++ ['\n']) []
    else []
  | none => []

/-- `ObsidianTodoTask.getMarkdownTask`: the assembled rendering. -/
def getMarkdownTask (s : PluginSettings) (momentFmt : Option String → String)
    (t : ObsidianTask) (singleLine : Bool) : String :=
  if singleLine then String.mk (jsTrim (out7 s momentFmt t))
  else String.mk (jsTrim (out7 s momentFmt t) ++ '\n' :: formattedBodyOf t
    ++ formattedChecklistOf t)

end ObsidianTask

/-- The settings used by the repository's own jest fixtures
(`obsidianTodoTask.test.ts`), whose replacement format carries all six
placeholders. -/
def testSettings : PluginSettings :=
  { displayOptions_ReplacementFormat :=
      "- [\x7b\x7bSTATUS_SYMBOL\x7d\x7d] \x7b\x7bTASK\x7d\x7d\x7b\x7bIMPORTANCE\x7d\x7d\x7b\x7bTASK_LIST_NAME\x7d\x7d\x7b\x7bDUE_DATE\x7d\x7d\x7b\x7bCREATED_DATE\x7d\x7d"
    displayOptions_ListIndicator := "+"
    displayOptions_ListIndicator_UseSingleQuotes := false
    displayOptions_TaskCreatedMark := "🔎"
    displayOptions_TaskDueMark := "📅"
    displayOptions_TaskImportance_Low := "🔽"
    displayOptions_TaskImportance_Normal := "🔼"
    displayOptions_TaskImportance_High := "⏫"
    displayOptions_TaskStatus_NotStarted := " "
    displayOptions_TaskStatus_InProgress := "/"
    displayOptions_TaskStatus_Completed := "x"
    displayOptions_RegExToRunOnPushAgainstTitle := ""
    todoListSync_listName := some "ToDo"
    taskIdLookup := []
    microsoftToDoApplication_RedirectUriBase := "https://todo.microsoft.com"
    vaultName := "test-vault" }

/- Fidelity checks against the repository's own jest expectations. -/
example : (ObsidianTask.parseLine testSettings "utc" "- [ ] Test task").title
    = some "Test task" := by decide
example : (ObsidianTask.parseLine testSettings "utc" "- [ ] Test task ^blockLink").title
    = some "Test task" := by decide
example : (ObsidianTask.parseLine testSettings "utc" "- [ ] Test task ^blockLink").blockLink
    = some "blockLink" := by decide
example : (ObsidianTask.parseLine testSettings "utc" "- [ ] Test task").status
    = some .notStarted := by decide
example : (ObsidianTask.parseLine testSettings "utc" "- [ ] Test task 🔎2020-01-01").title
    = some "Test task" := by decide
example :
    (ObsidianTask.parseLine testSettings "utc" "- [ ] Test task 📅2020-01-01").title
    = some "Test task" := by decide
example :
    (ObsidianTask.parseLine testSettings "utc" "- [ ] Test task 📅2020-01-01").dueDateTime
    = .val ⟨"2020-01-01", some "utc"⟩ := by decide
example : (ObsidianTask.parseLine testSettings "utc" "- [ ] Test task ⏫").importance
    = some .high := by decide
example : (ObsidianTask.parseLine testSettings "utc" "- [ ] Test task").listName
    = some "ToDo" := by decide
example :
    (ObsidianTask.parseLine testSettings "utc"
      "- [ ] Test task +\"Test list\" 🔎2025-01-10").listName = some "Test list" := by
  decide
example :
    ObsidianTask.getMarkdownTask testSettings (fun _ => "2025-01-10")
      { ObsidianTask.parseLine testSettings "utc" "- [ ] Test task" with
          listName := none } true
    = "- [ ] Test task 🔎2025-01-10" := by decide
example :
    ObsidianTask.getMarkdownTask testSettings (fun _ => "2025-01-10")
      (ObsidianTask.parseLine testSettings "utc"
        "- [ ] Test task +\"Test list\" 🔎2025-01-10") true
    = "- [ ] Test task +\"Test list\" 🔎2025-01-10" := by decide

/-! ## Claim C6: the parse/format round trip -/

/-- The property C6 asserts: for a record with no body and no checklist
items, parsing the single-line rendering reproduces title, status,
importance and due date exactly. -/
def c6RoundTripClaim : Prop :=
  ∀ (momentFmt : Option String → String) (localZone : String) (t : ObsidianTask),
    (match t.body with | none => True | some b => b.content = "") →
    t.checklistItems = none →
    ((ObsidianTask.parseLine testSettings localZone
        (ObsidianTask.getMarkdownTask testSettings momentFmt t true)).title = t.title ∧
     (ObsidianTask.parseLine testSettings localZone
        (ObsidianTask.getMarkdownTask testSettings momentFmt t true)).status = t.status ∧
     (ObsidianTask.parseLine testSettings localZone
        (ObsidianTask.getMarkdownTask testSettings momentFmt t true)).importance
        = t.importance ∧
     (ObsidianTask.parseLine testSettings localZone
        (ObsidianTask.getMarkdownTask testSettings momentFmt t true)).dueDateTime
        = t.dueDateTime)

/-- A record whose round trip loses both its status and its title: status
`inProgress` renders as the `/` box, which re-parses as `notStarted`, and
the `high` importance glyph is never stripped back out of the title. -/
def exC6 : ObsidianTask :=
  ⟨none, some "Test", some .inProgress, some .high, .undef, none, none, none, none,
    none, none, some "ToDo"⟩

/-- C6, counterexample: `exC6` renders as `- [/] Test ⏫ +ToDo 🔎2025-01-10`,
which parses back with status `notStarted` (≠ `inProgress`) and title
`Test ⏫` (≠ `Test`). -/
theorem c6_cex_roundtrip_fails : ¬ c6RoundTripClaim := by
  intro h
  have hc := h (fun _ => "2025-01-10") "utc" exC6 trivial rfl
  have hst := hc.2.1
  rw [show (ObsidianTask.parseLine testSettings "utc"
      (ObsidianTask.getMarkdownTask testSettings (fun _ => "2025-01-10") exC6
        true)).status = some .notStarted from by decide] at hst
  have : TaskStatus.notStarted = TaskStatus.inProgress := by
    simp only [exC6] at hst
    exact Option.some.inj hst
  exact TaskStatus.noConfusion this

/-! ### Substring and trimming toolkit for the round-trip proof -/

namespace Lst

theorem ne_of_class {P : Char → Bool} {c d : Char} (h : P c = true)
    (hd : P d = false) : c ≠ d := by
  intro he
  rw [he, hd] at h
  cases h

theorem isPrefixOf_self_append (p b : List Char) : p.isPrefixOf (p ++ b) = true := by
  induction p with
  | nil => simp [List.isPrefixOf]
  | cons a p ih => simp [List.isPrefixOf, ih]

theorem isPrefixOf_length_le (p l : List Char) (h : p.isPrefixOf l = true) :
    p.length ≤ l.length := by
  have := isPrefixOf_append p l h
  rw [this]
  simp

theorem splitSub_self_append (p b : List Char) :
    splitSub p (p ++ b) = some ([], b) := by
  cases hp : p ++ b with
  | nil =>
    have : p = [] ∧ b = [] := by
      constructor
      · cases p with
        | nil => rfl
        | cons a l => simp at hp
      · cases b with
        | nil => rfl
        | cons a l =>
          rcases List.append_eq_nil.mp hp with ⟨-, h2⟩
          exact absurd h2 (by simp)
    rw [this.1, this.2]
    rfl
  | cons c rest =>
    rw [← hp]
    have h1 : p.isPrefixOf (p ++ b) = true := isPrefixOf_self_append p b
    cases hpb : p ++ b with
    | nil => rw [hpb] at hp; cases hp
    | cons c' rest' =>
      rw [← hpb]
      have : splitSub p (p ++ b) =
          if p.isPrefixOf (p ++ b) then some ([], (p ++ b).drop p.length)
          else (splitSub p (match p ++ b with | _ :: r => r | [] => [])).map
            (fun pq => (c' :: pq.1, pq.2)) := by
        rw [hpb]
        rfl
      rw [this, if_pos h1, List.drop_append_of_le_length (le_refl _), List.drop_length]
      simp

theorem splitSub_append_head (p0 : Char) (pr A s : List Char)
    (hA : ∀ c ∈ A, c ≠ p0) :
    splitSub (p0 :: pr) (A ++ s) =
      (splitSub (p0 :: pr) s).map (fun pq => (A ++ pq.1, pq.2)) := by
  induction A with
  | nil =>
    simp only [List.nil_append]
    cases splitSub (p0 :: pr) s with
    | none => rfl
    | some pq => rfl
  | cons a A ih =>
    have ha : a ≠ p0 := hA a (List.mem_cons_self _ _)
    have hpre : (p0 :: pr).isPrefixOf (a :: (A ++ s)) = false := by
      simp only [List.isPrefixOf, Bool.and_eq_false_iff]
      left
      exact beq_eq_false_iff_ne.mpr (fun h => ha h.symm)
    rw [List.cons_append]
    show splitSub (p0 :: pr) (a :: (A ++ s)) = _
    rw [splitSub, if_neg (by rw [hpre]; exact fun h => Bool.noConfusion h)]
    rw [ih (fun c hc => hA c (List.mem_cons_of_mem _ hc))]
    cases splitSub (p0 :: pr) s with
    | none => rfl
    | some pq => rfl

theorem splitSub_at (p0 : Char) (pr A B : List Char) (hA : ∀ c ∈ A, c ≠ p0) :
    splitSub (p0 :: pr) (A ++ (p0 :: pr) ++ B) = some (A, B) := by
  rw [List.append_assoc, splitSub_append_head p0 pr A _ hA, splitSub_self_append]
  simp

theorem replaceFirst_at (p0 : Char) (pr A B rep : List Char)
    (hA : ∀ c ∈ A, c ≠ p0) :
    replaceFirst (p0 :: pr) rep (A ++ (p0 :: pr) ++ B) = A ++ rep ++ B := by
  rw [replaceFirst, splitSub_at p0 pr A B hA]

theorem splitSub_none_of_head (p0 : Char) (pr l : List Char)
    (h : ∀ c ∈ l, c ≠ p0) : splitSub (p0 :: pr) l = none := by
  have := splitSub_append_head p0 pr l [] h
  rw [List.append_nil] at this
  rw [this]
  rfl

theorem containsSub_single_false (g0 : Char) (l : List Char)
    (h : ∀ c ∈ l, c ≠ g0) : containsSub [g0] l = false := by
  rw [containsSub, splitSub_none_of_head g0 [] l h]
  rfl

theorem containsSub_at (g0 : Char) (A B : List Char) (hA : ∀ c ∈ A, c ≠ g0) :
    containsSub [g0] (A ++ g0 :: B) = true := by
  have h := splitSub_append_head g0 [] A (g0 :: B) hA
  have h2 : splitSub [g0] (g0 :: B) = some ([], B) := splitSub_self_append [g0] B
  rw [containsSub, h, h2]
  rfl

theorem containsSub_nil (s : List Char) : containsSub [] s = true := by
  cases s <;> simp [containsSub, splitSub, List.isPrefixOf]

theorem jsTrim_eq_self (l : List Char)
    (hh : ∀ c, l.head? = some c → jsWs c = false)
    (hl : ∀ c, l.getLast? = some c → jsWs c = false) : jsTrim l = l := by
  have h1 : l.dropWhile jsWs = l := by
    cases l with
    | nil => rfl
    | cons c rest =>
      rw [List.dropWhile_cons, if_neg]
      rw [hh c rfl]
      exact fun h => Bool.noConfusion h
  rw [jsTrim, h1]
  have h2 : l.reverse.dropWhile jsWs = l.reverse := by
    cases hr : l.reverse with
    | nil => rfl
    | cons c rest =>
      rw [List.dropWhile_cons, if_neg]
      have : l.getLast? = some c := by
        rw [← List.head?_reverse, hr]
        rfl
      rw [hl c this]
      exact fun h => Bool.noConfusion h
  rw [h2, List.reverse_reverse]

theorem splitSub_cons_of_not (pat : List Char) (c : Char) (rest : List Char)
    (h : pat.isPrefixOf (c :: rest) = false) :
    splitSub pat (c :: rest) =
      (splitSub pat rest).map (fun pq => (c :: pq.1, pq.2)) := by
  rw [splitSub, if_neg]
  rw [h]
  exact fun hc => Bool.noConfusion hc

theorem splitSub_append_chunk (pat A s : List Char)
    (h : ∀ i, i < A.length → pat.isPrefixOf (A.drop i ++ s) = false) :
    splitSub pat (A ++ s) =
      (splitSub pat s).map (fun pq => (A ++ pq.1, pq.2)) := by
  induction A with
  | nil =>
    rw [List.nil_append]
    cases splitSub pat s with
    | none => rfl
    | some pq => rfl
  | cons a A ih =>
    have h0 : pat.isPrefixOf (a :: (A ++ s)) = false := h 0 (Nat.succ_pos _)
    rw [List.cons_append, splitSub_cons_of_not pat a (A ++ s) h0,
      ih (fun i hi => h (i + 1) (Nat.succ_lt_succ hi))]
    cases splitSub pat s with
    | none => rfl
    | some pq => rfl

theorem findFirst_cons_none {α : Type} (m : List Char → Option (Nat × α))
    (c : Char) (rest : List Char) (h : m (c :: rest) = none) :
    findFirst m (c :: rest) =
      (findFirst m rest).map (fun p => (c :: p.1, p.2.1, p.2.2)) := by
  rw [findFirst, h]

theorem findFirst_cons_some {α : Type} (m : List Char → Option (Nat × α))
    (c : Char) (rest : List Char) (n : Nat) (a : α)
    (h : m (c :: rest) = some (n, a)) :
    findFirst m (c :: rest) = some ([], n, a) := by
  rw [findFirst, h]

theorem findFirst_none {α : Type} (m : List Char → Option (Nat × α)) :
    ∀ l : List Char, (∀ i, m (l.drop i) = none) → findFirst m l = none := by
  intro l
  induction l with
  | nil =>
    intro h
    have h0 : m [] = none := h 0
    rw [findFirst, h0]
  | cons c rest ih =>
    intro h
    rw [findFirst_cons_none m c rest (h 0), ih (fun i => h (i + 1))]
    rfl

theorem scanRegexF_cons_eq (m : List Char → Option Nat) (rep : List Char)
    (fuel : Nat) (c : Char) (rest : List Char) :
    scanRegexF m rep (fuel + 1) (c :: rest) =
      match m (c :: rest) with
      | some (n + 1) => rep ++ scanRegexF m rep fuel ((c :: rest).drop (n + 1))
      | _ => c :: scanRegexF m rep fuel rest := rfl

/-- Towers of fuel beyond the string length do not change the scan. -/
theorem scanRegexF_fuel (m : List Char → Option Nat) (rep : List Char) :
    ∀ k (l : List Char) (fuel : Nat), l.length ≤ k → l.length ≤ fuel →
      scanRegexF m rep fuel l = scanRegexF m rep l.length l := by
  intro k
  induction k with
  | zero =>
    intro l fuel hk _
    have : l = [] := List.eq_nil_of_length_eq_zero (Nat.le_zero.mp hk)
    rw [this]
    cases fuel <;> rfl
  | succ k ih =>
    intro l fuel hk hfuel
    cases l with
    | nil => cases fuel <;> rfl
    | cons c rest =>
      cases fuel with
      | zero => exact absurd hfuel (by simp)
      | succ f =>
        have hrk : rest.length ≤ k := Nat.lt_succ_iff.mp hk
        have hrf : rest.length ≤ f := Nat.lt_succ_iff.mp hfuel
        rw [scanRegexF_cons_eq, show (c :: rest).length = rest.length + 1 from rfl,
          scanRegexF_cons_eq]
        cases hm : m (c :: rest) with
        | none =>
          simp only []
          rw [ih rest f hrk hrf]
        | some n =>
          cases n with
          | zero =>
            simp only []
            rw [ih rest f hrk hrf]
          | succ n =>
            simp only []
            have hdr : ((c :: rest).drop (n + 1)).length ≤ rest.length := by
              rw [List.length_drop, List.length_cons]
              omega
            have hd : ((c :: rest).drop (n + 1)).length ≤ k := le_trans hdr hrk
            rw [ih _ f hd (le_trans hdr hrf), ih _ rest.length hd hdr]

theorem scanAll_nil (m : List Char → Option Nat) (rep : List Char) :
    scanAll m rep [] = [] := rfl

theorem scanAll_cons_none (m : List Char → Option Nat) (rep : List Char)
    (c : Char) (rest : List Char) (h : m (c :: rest) = none) :
    scanAll m rep (c :: rest) = c :: scanAll m rep rest := by
  rw [scanAll, show (c :: rest).length = rest.length + 1 from rfl,
    scanRegexF_cons_eq, h]
  rfl

theorem scanAll_cons_match (m : List Char → Option Nat) (rep : List Char)
    (c : Char) (rest : List Char) (n : Nat) (h : m (c :: rest) = some (n + 1)) :
    scanAll m rep (c :: rest) = rep ++ scanAll m rep (rest.drop n) := by
  rw [scanAll, show (c :: rest).length = rest.length + 1 from rfl,
    scanRegexF_cons_eq, h]
  have hlen : (rest.drop n).length ≤ rest.length := by
    rw [List.length_drop]
    omega
  show rep ++ scanRegexF m rep rest.length (rest.drop n) = _
  rw [scanRegexF_fuel m rep rest.length _ rest.length hlen hlen, scanAll]

/-- Skip a region where a head-triggered matcher cannot fire. -/
theorem scanAll_append_skip (m : List Char → Option Nat) (rep : List Char)
    (g : Char) (hm : ∀ c t, c ≠ g → m (c :: t) = none) (A s : List Char)
    (hA : ∀ c ∈ A, c ≠ g) :
    scanAll m rep (A ++ s) = A ++ scanAll m rep s := by
  induction A with
  | nil => rfl
  | cons a A ih =>
    rw [List.cons_append,
      scanAll_cons_none m rep a (A ++ s) (hm a _ (hA a (List.mem_cons_self _ _))),
      ih (fun c hc => hA c (List.mem_cons_of_mem _ hc))]
    rfl

theorem scanAll_id_of_skip (m : List Char → Option Nat) (rep : List Char)
    (g : Char) (hm : ∀ c t, c ≠ g → m (c :: t) = none) (A : List Char)
    (hA : ∀ c ∈ A, c ≠ g) : scanAll m rep A = A := by
  have := scanAll_append_skip m rep g hm A [] hA
  rw [List.append_nil] at this
  rw [this, scanAll_nil, List.append_nil]

/-- Skip a region where a head-triggered `findFirst` matcher cannot fire. -/
theorem findFirst_append_skip {α : Type} (m : List Char → Option (Nat × α))
    (g : Char) (hm : ∀ c t, c ≠ g → m (c :: t) = none) (A s : List Char)
    (hA : ∀ c ∈ A, c ≠ g) :
    findFirst m (A ++ s) = (findFirst m s).map (fun p => (A ++ p.1, p.2.1, p.2.2)) := by
  induction A with
  | nil =>
    rw [List.nil_append]
    cases findFirst m s with
    | none => rfl
    | some p => rfl
  | cons a A ih =>
    rw [List.cons_append,
      findFirst_cons_none m a (A ++ s) (hm a _ (hA a (List.mem_cons_self _ _))),
      ih (fun c hc => hA c (List.mem_cons_of_mem _ hc))]
    cases findFirst m s with
    | none => rfl
    | some p => rfl

theorem jsTrim_cons_ws (c : Char) (X : List Char) (h : jsWs c = true) :
    jsTrim (c :: X) = jsTrim X := by
  rw [jsTrim, jsTrim, List.dropWhile_cons, if_pos h]

/-- ASCII letters and digits plus the plain space: text built from these
cannot collide with any markdown decoration, placeholder brace, date mark
or anchor the parser looks for. -/
def cleanChar (c : Char) : Bool :=
  c.isAlphanum || c = ' '

/-- Exactly the shape `\d{4}-\d{2}-\d{2}` and nothing more. -/
def exactDate : List Char → Bool
  | [a, b, c, d, x, e, f, y, g, h] =>
    a.isDigit && b.isDigit && c.isDigit && d.isDigit && x = '-' &&
      e.isDigit && f.isDigit && y = '-' && g.isDigit && h.isDigit
  | _ => false

theorem exactDate_decomp (u : List Char) (h : exactDate u = true) :
    ∃ a b c d e f g i, u = [a, b, c, d, '-', e, f, '-', g, i] ∧
      a.isDigit = true ∧ b.isDigit = true ∧ c.isDigit = true ∧ d.isDigit = true ∧
      e.isDigit = true ∧ f.isDigit = true ∧ g.isDigit = true ∧ i.isDigit = true := by
  unfold exactDate at h
  split at h
  · next a b c d x e f y g i =>
    simp only [Bool.and_eq_true, decide_eq_true_eq] at h
    obtain ⟨⟨⟨⟨⟨⟨⟨⟨⟨ha, hb⟩, hc⟩, hd⟩, hx⟩, he⟩, hf⟩, hy⟩, hg⟩, hi⟩ := h
    exact ⟨a, b, c, d, e, f, g, i, by rw [hx, hy], ha, hb, hc, hd, he, hf, hg, hi⟩
  · exact absurd h (by simp)

theorem exactDate_length (u : List Char) (h : exactDate u = true) :
    u.length = 10 := by
  obtain ⟨a, b, c, d, e, f, g, i, hu, -⟩ := exactDate_decomp u h
  rw [hu]
  rfl

theorem dateChar_of_exactDate (u : List Char) (h : exactDate u = true) :
    ∀ c ∈ u, (c.isDigit || c = '-') = true := by
  obtain ⟨a, b, c, d, e, f, g, i, hu, ha, hb, hc, hd, he, hf, hg, hi⟩ :=
    exactDate_decomp u h
  subst hu
  intro x hx
  simp only [List.mem_cons, List.not_mem_nil, or_false] at hx
  rcases hx with rfl | rfl | rfl | rfl | rfl | rfl | rfl | rfl | rfl | rfl <;>
    simp [ha, hb, hc, hd, he, hf, hg, hi]

theorem isDateShape_of_exactDate (u R : List Char) (h : exactDate u = true) :
    isDateShape (u ++ R) = true := by
  obtain ⟨a, b, c, d, e, f, g, i, hu, ha, hb, hc, hd, he, hf, hg, hi⟩ :=
    exactDate_decomp u h
  subst hu
  simp [isDateShape, ha, hb, hc, hd, he, hf, hg, hi]

theorem dateChar_ne (c d : Char) (h : (c.isDigit || c = '-') = true)
    (hd : (d.isDigit || d = '-') = false) : c ≠ d :=
  ne_of_class (P := fun x => x.isDigit || decide (x = '-')) h hd

theorem cleanChar_of_alnum (c : Char) (h : c.isAlphanum = true) :
    cleanChar c = true := by
  simp [cleanChar, h]

theorem cleanChar_of_ascii (c : Char) (h : isAlnumAscii c = true) :
    cleanChar c = true := by
  rcases Bool.or_eq_true_iff.mp h with h1 | h1 <;>
    simp [cleanChar, Char.isAlphanum, h1]

theorem cleanChar_of_digit (c : Char) (h : c.isDigit = true) :
    cleanChar c = true := by
  simp [cleanChar, Char.isAlphanum, h]

theorem jsWs_false_of_ascii (c : Char) (h : isAlnumAscii c = true) :
    jsWs c = false := by
  have h1 : c ≠ ' ' := ne_of_class h (by decide)
  have h2 : c ≠ '\t' := ne_of_class h (by decide)
  have h3 : c ≠ '\n' := ne_of_class h (by decide)
  have h4 : c ≠ '\r' := ne_of_class h (by decide)
  have h5 : c ≠ '\x0b' := ne_of_class h (by decide)
  have h6 : c ≠ '\x0c' := ne_of_class h (by decide)
  simp [jsWs, h1, h2, h3, h4, h5, h6]

theorem jsWs_false_of_digit (c : Char) (h : c.isDigit = true) :
    jsWs c = false := by
  apply jsWs_false_of_ascii
  simp [isAlnumAscii, h]

theorem isQuote_false_of_clean (c : Char) (h : cleanChar c = true) :
    isQuote c = false := by
  have h1 : c ≠ Char.ofNat 39 := ne_of_class h (by decide)
  have h2 : c ≠ '"' := ne_of_class h (by decide)
  simp [isQuote, h1, h2]

theorem isPrefixOf_cons_ne (p0 : Char) (pr : List Char) (b : Char) (l : List Char)
    (hne : p0 ≠ b) : (p0 :: pr).isPrefixOf (b :: l) = false := by
  simp only [List.isPrefixOf, Bool.and_eq_false_iff]
  left
  exact beq_eq_false_iff_ne.mpr hne

theorem takeWhile_all (p : Char → Bool) (l : List Char)
    (h : ∀ c ∈ l, p c = true) : l.takeWhile p = l := by
  induction l with
  | nil => rfl
  | cons c rest ih =>
    rw [List.takeWhile_cons, if_pos (h c (List.mem_cons_self _ _)),
      ih (fun d hd => h d (List.mem_cons_of_mem _ hd))]

theorem takeWhile_stop (p : Char → Bool) (L : List Char) (r : Char) (R : List Char)
    (hL : ∀ c ∈ L, p c = true) (hr : p r = false) :
    (L ++ r :: R).takeWhile p = L := by
  induction L with
  | nil =>
    rw [List.nil_append, List.takeWhile_cons, if_neg]
    rw [hr]
    exact fun h => Bool.noConfusion h
  | cons c rest ih =>
    rw [List.cons_append, List.takeWhile_cons,
      if_pos (hL c (List.mem_cons_self _ _)),
      ih (fun d hd => hL d (List.mem_cons_of_mem _ hd))]

theorem drop_append_len (A B : List Char) (k : Nat) :
    (A ++ B).drop (A.length + k) = B.drop k := by
  induction A with
  | nil =>
    rw [List.nil_append, List.length_nil, Nat.zero_add]
  | cons a A ih =>
    rw [List.cons_append, List.length_cons,
      show A.length + 1 + k = (A.length + k) + 1 from by omega, List.drop_succ_cons,
      ih]

theorem getLast_append_right (A B : List Char) (hB : B ≠ []) :
    (A ++ B).getLast? = B.getLast? := by
  rw [← List.head?_reverse, List.reverse_append]
  cases hr : B.reverse with
  | nil => exact absurd (List.reverse_eq_nil_iff.mp hr) hB
  | cons c r =>
    rw [List.cons_append, ← List.head?_reverse, hr]
    rfl

theorem head_append_left (A B : List Char) (hA : A ≠ []) :
    (A ++ B).head? = A.head? := by
  cases A with
  | nil => exact absurd rfl hA
  | cons a r => rfl

/-- The quoted-list matcher needs a quote character; a quote-free string
never matches it, at any position. -/
theorem matchQuotedList_none (ind u : List Char)
    (h : ∀ c ∈ u, isQuote c = false) : matchQuotedList ind u = none := by
  unfold matchQuotedList
  split
  · next t =>
    split
    · next hpre =>
      cases ht3 : (t.drop ind.length).drop
          (((t.drop ind.length).takeWhile jsWs).length) with
      | nil => simp [ht3]
      | cons q1 u1 =>
        have hq1m : q1 ∈ ' ' :: t := by
          have h1 : q1 ∈ (t.drop ind.length).drop
              (((t.drop ind.length).takeWhile jsWs).length) := by
            rw [ht3]
            exact List.mem_cons_self _ _
          exact List.mem_cons_of_mem _
            (List.mem_of_mem_drop (List.mem_of_mem_drop h1))
        simp [ht3, h q1 hq1m]
    · rfl
  · rfl

theorem matchQuotedList_find_none (ind l : List Char)
    (h : ∀ c ∈ l, isQuote c = false) :
    findFirst (matchQuotedList ind) l = none := by
  apply findFirst_none
  intro i
  cases hd : l.drop i with
  | nil => exact matchQuotedList_none ind [] (by simp)
  | cons c rest =>
    apply matchQuotedList_none
    intro d hdm
    exact h d (List.mem_of_mem_drop (hd ▸ hdm))

theorem matchUnquotedList_none_cons (ind : List Char) (c : Char) (t : List Char)
    (h : c = ' ' → ind.isPrefixOf t = false) :
    matchUnquotedList ind (c :: t) = none := by
  unfold matchUnquotedList
  split
  · next t2 heq =>
    obtain ⟨rfl, rfl⟩ : c = ' ' ∧ t2 = t := by
      constructor
      · exact (List.cons.injEq _ _ _ _ ▸ heq).1.symm ▸ rfl
      · exact ((List.cons.injEq _ _ _ _).mp heq).2.symm
    simp [h rfl]
  · rfl

/-- No `+` anywhere: the unquoted-list matcher finds nothing. -/
theorem matchUnquotedList_find_none (pr l : List Char)
    (h : ∀ c ∈ l, c ≠ '+') :
    findFirst (matchUnquotedList ('+' :: pr)) l = none := by
  apply findFirst_none
  intro i
  cases hd : l.drop i with
  | nil => rfl
  | cons c rest =>
    apply matchUnquotedList_none_cons
    intro _
    cases rest with
    | nil => rfl
    | cons d r2 =>
      have hdm : d ∈ l :=
        List.mem_of_mem_drop (hd ▸ List.mem_cons_of_mem _ (List.mem_cons_self _ _))
      exact isPrefixOf_cons_ne '+' pr d r2 (fun he => h d hdm he.symm)

/-- Skip a `+`-free region in front of the unquoted-list matcher, provided
the remainder does not begin with `+`. -/
theorem findFirst_unquoted_skip (pr A s : List Char)
    (hA : ∀ c ∈ A, c ≠ '+') (hs : ∀ d, s.head? = some d → d ≠ '+') :
    findFirst (matchUnquotedList ('+' :: pr)) (A ++ s) =
      (findFirst (matchUnquotedList ('+' :: pr)) s).map
        (fun p => (A ++ p.1, p.2.1, p.2.2)) := by
  induction A with
  | nil =>
    rw [List.nil_append]
    cases findFirst (matchUnquotedList ('+' :: pr)) s with
    | none => rfl
    | some p => rfl
  | cons a A ih =>
    have hstep : matchUnquotedList ('+' :: pr) (a :: (A ++ s)) = none := by
      apply matchUnquotedList_none_cons
      intro _
      cases hAs : A ++ s with
      | nil => rfl
      | cons d r2 =>
        have hdm : d ≠ '+' := by
          cases A with
          | nil =>
            rw [List.nil_append] at hAs
            exact hs d (by rw [hAs]; rfl)
          | cons a2 A2 =>
            rw [List.cons_append] at hAs
            have : d = a2 := ((List.cons.injEq _ _ _ _).mp hAs).1.symm
            exact this ▸ fun he =>
              hA a2 (List.mem_cons_of_mem _ (List.mem_cons_self _ _)) he
        exact isPrefixOf_cons_ne '+' pr d r2 (fun he => hdm he.symm)
    rw [List.cons_append,
      findFirst_cons_none _ a (A ++ s) hstep,
      ih (fun c hc => hA c (List.mem_cons_of_mem _ hc))]
    cases findFirst (matchUnquotedList ('+' :: pr)) s with
    | none => rfl
    | some p => rfl

/-- The unquoted-list matcher at its firing position: indicator `+`, an
alphanumeric list name, a space behind it. -/
theorem matchUnquotedList_fire (L R : List Char) (hL0 : L ≠ [])
    (hL : ∀ c ∈ L, isAlnumAscii c = true) :
    matchUnquotedList ['+'] (' ' :: '+' :: (L ++ ' ' :: R)) =
      some (L.length + 2, L) := by
  have hws : (L ++ ' ' :: R).takeWhile jsWs = [] := by
    cases L with
    | nil => exact absurd rfl hL0
    | cons c rest =>
      rw [List.cons_append, List.takeWhile_cons, if_neg]
      rw [jsWs_false_of_ascii c (hL c (List.mem_cons_self _ _))]
      exact fun h => Bool.noConfusion h
  have hcap : (L ++ ' ' :: R).takeWhile (fun c => !(jsWs c)) = L := by
    apply takeWhile_stop
    · intro c hc
      rw [jsWs_false_of_ascii c (hL c hc)]
      rfl
    · rfl
  show (if ['+'].isPrefixOf ('+' :: (L ++ ' ' :: R)) = true then _ else none) = _
  rw [if_pos (show ['+'].isPrefixOf ('+' :: (L ++ ' ' :: R)) = true from by
    simp [List.isPrefixOf])]
  simp only [show ('+' :: (L ++ ' ' :: R)).drop (['+'].length) = L ++ ' ' :: R
      from rfl, hws, hcap, List.length_nil, List.drop_zero]
  congr 2
  simp only [List.length_cons, List.length_nil]
  omega

theorem findStatus_cons_eq (x : Char) (rest : List Char) :
    findStatus (x :: rest) =
      match statusHere (x :: rest) with
      | some (c, rest2) => some ([], c, rest2)
      | none => (findStatus rest).map (fun p => (x :: p.1, p.2.1, p.2.2)) := rfl

/-- `/\[(.)]/` first fires at position 2 of a `- [c] …` line. -/
theorem findStatus_line (c' : Char) (R : List Char) (h : (c' != '\n') = true) :
    findStatus ('-' :: ' ' :: '[' :: c' :: ']' :: ' ' :: R) =
      some (['-', ' '], c', ' ' :: R) := by
  have e2 : statusHere ('[' :: c' :: ']' :: ' ' :: R) = some (c', ' ' :: R) := by
    simp [statusHere, h]
  rw [findStatus_cons_eq,
    show statusHere ('-' :: ' ' :: '[' :: c' :: ']' :: ' ' :: R) = none from rfl,
    findStatus_cons_eq,
    show statusHere (' ' :: '[' :: c' :: ']' :: ' ' :: R) = none from rfl,
    findStatus_cons_eq, e2]
  rfl

theorem blockLinkHere_none (c : Char) (rest : List Char) (h : c ≠ '^') :
    blockLinkHere (c :: rest) = none := by
  simp [blockLinkHere, beq_eq_false_iff_ne.mpr h]

theorem findBlockLink_cons_eq (c : Char) (rest : List Char) :
    findBlockLink (c :: rest) =
      match blockLinkHere (c :: rest) with
      | some cap => some cap
      | none => findBlockLink rest := rfl

theorem findBlockLink_append_skip (A s : List Char) (hA : ∀ c ∈ A, c ≠ '^') :
    findBlockLink (A ++ s) = findBlockLink s := by
  induction A with
  | nil => rw [List.nil_append]
  | cons a A ih =>
    rw [List.cons_append, findBlockLink_cons_eq,
      blockLinkHere_none a (A ++ s) (hA a (List.mem_cons_self _ _)),
      ih (fun c hc => hA c (List.mem_cons_of_mem _ hc))]

theorem findBlockLink_none (l : List Char) (h : ∀ c ∈ l, c ≠ '^') :
    findBlockLink l = none := by
  have := findBlockLink_append_skip l [] h
  rw [List.append_nil] at this
  rw [this]
  rfl

theorem caretBeforeNewline_none (l : List Char) (h : ∀ c ∈ l, c ≠ '^') :
    caretBeforeNewline l = false := by
  induction l with
  | nil => rfl
  | cons c rest ih =>
    rw [caretBeforeNewline]
    by_cases hc : c = '\n'
    · rw [if_pos hc]
    · rw [if_neg hc, if_neg (h c (List.mem_cons_self _ _)),
        ih (fun d hd => h d (List.mem_cons_of_mem _ hd))]

/-- The block-link matcher at its caret: an alphanumeric anchor at the end
of the line. -/
theorem blockLinkHere_fire (b : List Char) (hb0 : b ≠ [])
    (hb : ∀ c ∈ b, isAlnumAscii c = true) :
    blockLinkHere ('^' :: b) = some b := by
  have hcaret : caretBeforeNewline b = false :=
    caretBeforeNewline_none b (fun c hc => ne_of_class (hb c hc) (by decide))
  cases b with
  | nil => exact absurd rfl hb0
  | cons d b2 =>
    rw [blockLinkHere]
    rw [if_pos]
    · rw [takeWhile_all isAlnumAscii (d :: b2) hb]
    · simp [hcaret, hb d (List.mem_cons_self _ _)]

theorem findBlockLink_found (A b : List Char) (hA : ∀ c ∈ A, c ≠ '^')
    (hb0 : b ≠ []) (hb : ∀ c ∈ b, isAlnumAscii c = true) :
    findBlockLink (A ++ '^' :: b) = some b := by
  rw [findBlockLink_append_skip A _ hA, findBlockLink_cons_eq,
    blockLinkHere_fire b hb0 hb]

theorem matchDueCapture_none_head (g : Char) (pr : List Char) (c : Char)
    (t : List Char) (h : c ≠ g) : matchDueCapture (g :: pr) (c :: t) = none := by
  unfold matchDueCapture
  rw [isPrefixOf_cons_ne g pr c t (fun he => h he.symm)]
  rfl

theorem matchMarkDate_none_head (g : Char) (pr : List Char) (c : Char)
    (t : List Char) (h : c ≠ g) : matchMarkDate (g :: pr) (c :: t) = none := by
  rw [matchMarkDate, matchDueCapture_none_head g pr c t h]
  rfl

/-- The due-capture matcher at its mark, the date following with no space. -/
theorem matchDueCapture_fire (g : Char) (D R : List Char)
    (hD : exactDate D = true) :
    matchDueCapture [g] (g :: (D ++ R)) = some (11, g :: D) := by
  have hlen : D.length = 10 := exactDate_length D hD
  unfold matchDueCapture
  rw [if_pos (show [g].isPrefixOf (g :: (D ++ R)) = true from by
    simp [List.isPrefixOf])]
  simp only [List.length_cons, List.length_nil, List.drop_succ_cons,
    List.drop_zero]
  split
  · next u heq =>
    obtain ⟨a, b, c, d, e, f, g2, i, hDe, ha, -⟩ := exactDate_decomp D hD
    rw [hDe, List.cons_append] at heq
    have : a = ' ' := ((List.cons.injEq _ _ _ _).mp heq).1
    exact absurd this (ne_of_class ha (by decide))
  · rw [if_pos (isDateShape_of_exactDate D R hD), List.take_left' hlen]
    rfl

theorem matchMarkDate_fire (g : Char) (D R : List Char)
    (hD : exactDate D = true) :
    matchMarkDate [g] (g :: (D ++ R)) = some 11 := by
  rw [matchMarkDate, matchDueCapture_fire g D R hD]
  rfl

theorem matchMarkBrackets_none_head (g : Char) (pr : List Char) (c : Char)
    (t : List Char) (h : c ≠ g) : matchMarkBrackets (g :: pr) (c :: t) = none := by
  unfold matchMarkBrackets
  rw [isPrefixOf_cons_ne g pr c t (fun he => h he.symm)]
  rfl

/-- The bracketed-wikilink alternative does not fire when a date follows
the mark directly. -/
theorem matchMarkBrackets_none_date (g : Char) (D R : List Char)
    (hD : exactDate D = true) :
    matchMarkBrackets [g] (g :: (D ++ R)) = none := by
  obtain ⟨a, b, c, d, e, f, g2, i, hDe, ha, -⟩ := exactDate_decomp D hD
  have ha1 : a ≠ ' ' := ne_of_class ha (by decide)
  have ha2 : a ≠ '[' := ne_of_class ha (by decide)
  unfold matchMarkBrackets
  rw [if_pos (show [g].isPrefixOf (g :: (D ++ R)) = true from by
    simp [List.isPrefixOf])]
  simp only [List.length_cons, List.length_nil, List.drop_succ_cons,
    List.drop_zero]
  split
  · next u heq =>
    rw [hDe, List.cons_append] at heq
    exact absurd ((List.cons.injEq _ _ _ _).mp heq).1 ha1
  · split
    · next v heq =>
      rw [hDe, List.cons_append] at heq
      exact absurd ((List.cons.injEq _ _ _ _).mp heq).1 ha2
    · rfl

theorem matchDecorRest_none (c : Char) (t : List Char) (h1 : c ≠ '-')
    (h2 : c ≠ '*') : matchDecor.matchDecorRest false (c :: t) = none := by
  unfold matchDecor.matchDecorRest
  split
  · next heq =>
    exact absurd ((List.cons.injEq _ _ _ _).mp heq).1 h2
  · simp only [Bool.false_and, Bool.false_eq_true, if_false]
    split
    · next heq =>
      exact absurd ((List.cons.injEq _ _ _ _).mp heq).1 h1
    · rfl

theorem matchDecor_none (c : Char) (t : List Char) (h1 : c ≠ '-')
    (h2 : c ≠ '*') : matchDecor false (c :: t) = none := by
  unfold matchDecor
  split
  · next heq =>
    exact absurd ((List.cons.injEq _ _ _ _).mp heq).1 h1
  · exact matchDecorRest_none c t h1 h2

theorem stripDecorF_cons_eq (fuel : Nat) (atStart : Bool) (c : Char)
    (rest : List Char) :
    stripDecorF (fuel + 1) atStart (c :: rest) =
      match matchDecor atStart (c :: rest) with
      | some (n + 1) => stripDecorF fuel false ((c :: rest).drop (n + 1))
      | _ => c :: stripDecorF fuel (c = '\n') rest := rfl

theorem stripDecorF_clean (l : List Char)
    (h : ∀ c ∈ l, c ≠ '-' ∧ c ≠ '*' ∧ c ≠ '\n') :
    ∀ fuel, stripDecorF fuel false l = l := by
  induction l with
  | nil => intro fuel; cases fuel <;> rfl
  | cons c rest ih =>
    intro fuel
    cases fuel with
    | zero => rfl
    | succ f =>
      obtain ⟨h1, h2, h3⟩ := h c (List.mem_cons_self _ _)
      rw [stripDecorF_cons_eq, matchDecor_none c rest h1 h2]
      have hnl : (decide (c = '\n')) = false := decide_eq_false h3
      simp only [hnl]
      rw [ih (fun d hd => h d (List.mem_cons_of_mem _ hd)) f]

/-- The final decoration strip on a trimmed `-  title` remainder: `- ` is
eaten as a list bullet, the rest survives. -/
theorem stripDecor_line (T : List Char) (hT : ∀ c ∈ T, cleanChar c = true) :
    stripDecor ('-' :: ' ' :: ' ' :: T) = ' ' :: T := by
  have hstep1 : matchDecor true ('-' :: ' ' :: (' ' :: T)) = some 2 := by
    unfold matchDecor
    split
    case h_1 =>
      rename_i heq
      simp at heq
    case h_2 => rfl
  have hclean : ∀ c ∈ T, c ≠ '-' ∧ c ≠ '*' ∧ c ≠ '\n' := by
    intro c hc
    exact ⟨ne_of_class (hT c hc) (by decide), ne_of_class (hT c hc) (by decide),
      ne_of_class (hT c hc) (by decide)⟩
  rw [stripDecor, show ('-' :: ' ' :: ' ' :: T).length = (T.length + 2) + 1 from by
    simp, stripDecorF_cons_eq, hstep1]
  show stripDecorF (T.length + 2) false (' ' :: T) = ' ' :: T
  cases hf : T.length + 2 with
  | zero => exact absurd hf (by omega)
  | succ f =>
    rw [stripDecorF_cons_eq, matchDecor_none ' ' T (by decide) (by decide)]
    simp only [show (decide (' ' = '\n')) = false from rfl]
    rw [stripDecorF_clean T hclean f]

theorem getLast_exists (l : List Char) (h : l ≠ []) :
    ∃ z, l.getLast? = some z ∧ z ∈ l := by
  induction l with
  | nil => exact absurd rfl h
  | cons c rest ih =>
    cases hr : rest with
    | nil => exact ⟨c, rfl, List.mem_cons_self _ _⟩
    | cons d r2 =>
      subst hr
      obtain ⟨z, h1, h2⟩ := ih (fun hx => List.noConfusion hx)
      exact ⟨z, by rw [List.getLast?_cons_cons, h1], List.mem_cons_of_mem _ h2⟩

theorem jsWs_false_of_alphanum (c : Char) (h : c.isAlphanum = true) :
    jsWs c = false := by
  have h1 : c ≠ ' ' := ne_of_class h (by decide)
  have h2 : c ≠ '\t' := ne_of_class h (by decide)
  have h3 : c ≠ '\n' := ne_of_class h (by decide)
  have h4 : c ≠ '\r' := ne_of_class h (by decide)
  have h5 : c ≠ '\x0b' := ne_of_class h (by decide)
  have h6 : c ≠ '\x0c' := ne_of_class h (by decide)
  simp [jsWs, h1, h2, h3, h4, h5, h6]

theorem jsWs_false_of_clean_ne (c : Char) (h : cleanChar c = true)
    (hc : c ≠ ' ') : jsWs c = false := by
  rcases Bool.or_eq_true_iff.mp h with h1 | h1
  · exact jsWs_false_of_alphanum c h1
  · exact absurd (by simpa using h1) hc

theorem jsTrim_append_space (X : List Char)
    (hh : ∀ c, X.head? = some c → jsWs c = false)
    (hl : ∀ c, X.getLast? = some c → jsWs c = false) :
    jsTrim (X ++ [' ']) = X := by
  cases X with
  | nil => rfl
  | cons x xs =>
    have h1 : ((x :: xs) ++ [' ']).dropWhile jsWs = (x :: xs) ++ [' '] := by
      rw [List.cons_append, List.dropWhile_cons, if_neg]
      rw [hh x rfl]
      exact fun h => Bool.noConfusion h
    rw [jsTrim, h1, List.reverse_append]
    show ((' ' :: (x :: xs).reverse).dropWhile jsWs).reverse = x :: xs
    rw [List.dropWhile_cons, if_pos (by decide)]
    have h2 : (x :: xs).reverse.dropWhile jsWs = (x :: xs).reverse := by
      cases hr : (x :: xs).reverse with
      | nil => simp at hr
      | cons c rest =>
        rw [List.dropWhile_cons, if_neg]
        have : (x :: xs).getLast? = some c := by
          rw [← List.head?_reverse, hr]
          rfl
        rw [hl c this]
        exact fun h => Bool.noConfusion h
    rw [h2, List.reverse_reverse]

/-- The character-level shape of a rendered single-line task: status box,
title, optional list segment, optional due segment, created date, optional
anchor segment. -/
def lineC (c' : Char) (T LS DS E AS : List Char) : List Char :=
  '-' :: ' ' :: '[' :: c' :: ']' :: ' ' ::
    (T ++ ' ' :: (LS ++ (DS ++ '🔎' :: (E ++ AS))))

theorem forall_mem_lineC {P : Char → Prop} (c' : Char) (T LS DS E AS : List Char)
    (hsp : P ' ') (hc' : P c') (hdash : P '-') (hlb : P '[') (hrb : P ']')
    (hmag : P '🔎') (hT : ∀ c ∈ T, P c) (hLS : ∀ c ∈ LS, P c)
    (hDS : ∀ c ∈ DS, P c) (hE : ∀ c ∈ E, P c) (hAS : ∀ c ∈ AS, P c) :
    ∀ c ∈ lineC c' T LS DS E AS, P c := by
  intro c hc
  unfold lineC at hc
  simp only [List.mem_cons, List.mem_append] at hc
  rcases hc with rfl | rfl | rfl | rfl | rfl | rfl | hc | rfl | hc | hc | rfl | hc | hc
  · exact hdash
  · exact hsp
  · exact hlb
  · exact hc'
  · exact hrb
  · exact hsp
  · exact hT c hc
  · exact hsp
  · exact hLS c hc
  · exact hDS c hc
  · exact hmag
  · exact hE c hc
  · exact hAS c hc

theorem forall_mem_listSeg {P : Char → Prop} (L : List Char)
    (hplus : P '+') (hsp : P ' ') (hL : ∀ c, isAlnumAscii c = true → P c)
    (hLa : ∀ c ∈ L, isAlnumAscii c = true) :
    ∀ c ∈ '+' :: (L ++ [' ']), P c := by
  intro c hc
  simp only [List.mem_cons, List.mem_append] at hc
  rcases hc with rfl | hc | rfl | hc
  · exact hplus
  · exact hL c (hLa c hc)
  · exact hsp
  · exact absurd hc (List.not_mem_nil c)

theorem forall_mem_dueSeg {P : Char → Prop} (D : List Char)
    (hg : P '📅') (hsp : P ' ') (hD : ∀ c, (c.isDigit || c = '-') = true → P c)
    (hDa : exactDate D = true) :
    ∀ c ∈ '📅' :: (D ++ [' ']), P c := by
  intro c hc
  simp only [List.mem_cons, List.mem_append] at hc
  rcases hc with rfl | hc | rfl | hc
  · exact hg
  · exact hD c (dateChar_of_exactDate D hDa c hc)
  · exact hsp
  · exact absurd hc (List.not_mem_nil c)

theorem jsWs_false_of_date (c : Char) (h : (c.isDigit || c = '-') = true) :
    jsWs c = false := by
  rcases Bool.or_eq_true_iff.mp h with h1 | h1
  · exact jsWs_false_of_digit c h1
  · rw [show c = '-' from by simpa using h1]
    rfl

theorem exactDate_ne_nil (E : List Char) (h : exactDate E = true) : E ≠ [] := by
  obtain ⟨a, b, c, d, e, f, g, i, hu, -⟩ := exactDate_decomp E h
  rw [hu]
  exact fun hx => List.noConfusion hx

/-- The last character of a rendered line is never whitespace. -/
theorem lineC_getLast_ws (c' : Char) (T LS DS E AS : List Char)
    (hE : exactDate E = true)
    (hAS : AS = [] ∨ ∃ b, AS = ' ' :: '^' :: b ∧ b ≠ [] ∧
      ∀ c ∈ b, isAlnumAscii c = true) :
    ∀ c, (lineC c' T LS DS E AS).getLast? = some c → jsWs c = false := by
  have he : lineC c' T LS DS E AS =
      ['-', ' ', '[', c', ']', ' '] ++
        (T ++ ([' '] ++ (LS ++ (DS ++ (['🔎'] ++ (E ++ AS)))))) := by
    simp [lineC]
  have hEA : E ++ AS ≠ [] := by
    intro hx
    exact exactDate_ne_nil E hE (List.append_eq_nil.mp hx).1
  have hg : (lineC c' T LS DS E AS).getLast? = (E ++ AS).getLast? := by
    rw [he, getLast_append_right _ _ (by
      intro hx
      rcases List.append_eq_nil.mp hx with ⟨-, h2⟩
      rcases List.append_eq_nil.mp h2 with ⟨h3, -⟩
      exact List.noConfusion h3)]
    rw [getLast_append_right _ _ (by
      intro hx
      rcases List.append_eq_nil.mp hx with ⟨h3, -⟩
      exact List.noConfusion h3)]
    rw [getLast_append_right _ _ (by
      intro hx
      rcases List.append_eq_nil.mp hx with ⟨-, h2⟩
      rcases List.append_eq_nil.mp h2 with ⟨-, h4⟩
      rcases List.append_eq_nil.mp h4 with ⟨h5, -⟩
      exact List.noConfusion h5)]
    rw [getLast_append_right _ _ (by
      intro hx
      rcases List.append_eq_nil.mp hx with ⟨-, h4⟩
      rcases List.append_eq_nil.mp h4 with ⟨h5, -⟩
      exact List.noConfusion h5)]
    rw [getLast_append_right _ _ (by
      intro hx
      rcases List.append_eq_nil.mp hx with ⟨h5, -⟩
      exact List.noConfusion h5)]
    rw [getLast_append_right _ _ hEA]
  intro c hc
  rw [hg] at hc
  rcases hAS with rfl | ⟨b, rfl, hb0, hbAl⟩
  · rw [List.append_nil] at hc
    obtain ⟨z, h1, h2⟩ := getLast_exists E (exactDate_ne_nil E hE)
    rw [h1] at hc
    rw [← Option.some.inj hc]
    exact jsWs_false_of_date z (dateChar_of_exactDate E hE z h2)
  · rw [getLast_append_right _ _ (fun hx => List.noConfusion hx)] at hc
    have hb : (' ' :: '^' :: b).getLast? = b.getLast? := by
      rw [show ' ' :: '^' :: b = [' ', '^'] ++ b from rfl,
        getLast_append_right _ _ hb0]
    rw [hb] at hc
    obtain ⟨z, h1, h2⟩ := getLast_exists b hb0
    rw [h1] at hc
    rw [← Option.some.inj hc]
    exact jsWs_false_of_ascii z (hbAl z h2)

/-- A rendered line is already trimmed. -/
theorem jsTrim_lineC (c' : Char) (T LS DS E AS : List Char)
    (hE : exactDate E = true)
    (hAS : AS = [] ∨ ∃ b, AS = ' ' :: '^' :: b ∧ b ≠ [] ∧
      ∀ c ∈ b, isAlnumAscii c = true) :
    jsTrim (lineC c' T LS DS E AS) = lineC c' T LS DS E AS := by
  apply jsTrim_eq_self
  · intro c hc
    cases hc
    rfl
  · exact lineC_getLast_ws c' T LS DS E AS hE hAS

theorem getLast_dash_title (T : List Char) (hT0 : T ≠ []) :
    ('-' :: ' ' :: ' ' :: T).getLast? = T.getLast? := by
  rw [show '-' :: ' ' :: ' ' :: T = ['-', ' ', ' '] ++ T from rfl,
    getLast_append_right _ _ hT0]

theorem jsTrim_dash_title (T : List Char) (hT0 : T ≠ [])
    (hT : ∀ c ∈ T, cleanChar c = true)
    (hTl : ∀ c, T.getLast? = some c → c ≠ ' ') :
    jsTrim ('-' :: ' ' :: ' ' :: T) = '-' :: ' ' :: ' ' :: T := by
  apply jsTrim_eq_self
  · intro c hc
    cases hc
    rfl
  · intro c hc
    rw [getLast_dash_title T hT0] at hc
    obtain ⟨z, h1, h2⟩ := getLast_exists T hT0
    rw [h1] at hc
    rw [← Option.some.inj hc]
    exact jsWs_false_of_clean_ne z (hT z h2) (hTl z h1)

theorem getLast_dash_line (T X : List Char) (hX0 : X ≠ []) :
    ('-' :: ' ' :: ' ' :: (T ++ ' ' :: X)).getLast? = X.getLast? := by
  rw [show '-' :: ' ' :: ' ' :: (T ++ ' ' :: X) =
      ['-', ' ', ' '] ++ (T ++ ([' '] ++ X)) from by simp,
    getLast_append_right _ _ (by
      intro hx
      rcases List.append_eq_nil.mp hx with ⟨-, h2⟩
      rcases List.append_eq_nil.mp h2 with ⟨h3, -⟩
      exact List.noConfusion h3),
    getLast_append_right _ _ (by
      intro hx
      rcases List.append_eq_nil.mp hx with ⟨h3, -⟩
      exact List.noConfusion h3),
    getLast_append_right _ _ hX0]

theorem jsTrim_dash_line (T X : List Char) (hX0 : X ≠ [])
    (hXl : ∀ c, X.getLast? = some c → jsWs c = false) :
    jsTrim ('-' :: ' ' :: ' ' :: (T ++ ' ' :: X)) =
      '-' :: ' ' :: ' ' :: (T ++ ' ' :: X) := by
  apply jsTrim_eq_self
  · intro c hc
    cases hc
    rfl
  · intro c hc
    rw [getLast_dash_line T X hX0] at hc
    exact hXl c hc

theorem forall_mem_anchorSeg {P : Char → Prop} (b : List Char)
    (hsp : P ' ') (hcaret : P '^') (hb : ∀ c, isAlnumAscii c = true → P c)
    (hba : ∀ c ∈ b, isAlnumAscii c = true) :
    ∀ c ∈ ' ' :: '^' :: b, P c := by
  intro c hc
  simp only [List.mem_cons] at hc
  rcases hc with rfl | rfl | hc
  · exact hsp
  · exact hcaret
  · exact hb c (hba c hc)

/-- No-anchor line: the block-link regex finds nothing. -/
theorem findBlockLink_lineC_none (c' : Char) (T LS DS E : List Char)
    (hc' : cleanChar c' = true) (hT : ∀ c ∈ T, cleanChar c = true)
    (hLS : LS = [] ∨ ∃ L, LS = '+' :: (L ++ [' ']) ∧ L ≠ [] ∧
      ∀ c ∈ L, isAlnumAscii c = true)
    (hDS : DS = [] ∨ ∃ D, DS = '📅' :: (D ++ [' ']) ∧ exactDate D = true)
    (hE : exactDate E = true) :
    findBlockLink (lineC c' T LS DS E []) = none := by
  apply findBlockLink_none
  apply forall_mem_lineC (P := fun c => c ≠ '^') c' T LS DS E []
  · decide
  · exact ne_of_class hc' (by decide)
  · decide
  · decide
  · decide
  · decide
  · exact fun c hc => ne_of_class (hT c hc) (by decide)
  · rcases hLS with rfl | ⟨L, rfl, hL0, hLa⟩
    · simp
    · exact forall_mem_listSeg L (by decide) (by decide)
        (fun c h => ne_of_class h (by decide)) hLa
  · rcases hDS with rfl | ⟨D, rfl, hDa⟩
    · simp
    · exact forall_mem_dueSeg D (by decide) (by decide)
        (fun c h => dateChar_ne c '^' h (by decide)) hDa
  · exact fun c hc => dateChar_ne c '^' (dateChar_of_exactDate E hE c hc) (by decide)
  · simp

theorem lineC_anchor_split (c' : Char) (T LS DS E b : List Char) :
    lineC c' T LS DS E (' ' :: '^' :: b) =
      lineC c' T LS DS E [' '] ++ '^' :: b := by
  simp [lineC]

/-- Anchored line: the block-link regex captures the anchor. -/
theorem findBlockLink_lineC_found (c' : Char) (T LS DS E b : List Char)
    (hc' : cleanChar c' = true) (hT : ∀ c ∈ T, cleanChar c = true)
    (hLS : LS = [] ∨ ∃ L, LS = '+' :: (L ++ [' ']) ∧ L ≠ [] ∧
      ∀ c ∈ L, isAlnumAscii c = true)
    (hDS : DS = [] ∨ ∃ D, DS = '📅' :: (D ++ [' ']) ∧ exactDate D = true)
    (hE : exactDate E = true) (hb0 : b ≠ [])
    (hbAl : ∀ c ∈ b, isAlnumAscii c = true) :
    findBlockLink (lineC c' T LS DS E (' ' :: '^' :: b)) = some b := by
  rw [lineC_anchor_split]
  apply findBlockLink_found _ b _ hb0 hbAl
  apply forall_mem_lineC (P := fun c => c ≠ '^') c' T LS DS E [' ']
  · decide
  · exact ne_of_class hc' (by decide)
  · decide
  · decide
  · decide
  · decide
  · exact fun c hc => ne_of_class (hT c hc) (by decide)
  · rcases hLS with rfl | ⟨L, rfl, hL0, hLa⟩
    · simp
    · exact forall_mem_listSeg L (by decide) (by decide)
        (fun c h => ne_of_class h (by decide)) hLa
  · rcases hDS with rfl | ⟨D, rfl, hDa⟩
    · simp
    · exact forall_mem_dueSeg D (by decide) (by decide)
        (fun c h => dateChar_ne c '^' h (by decide)) hDa
  · exact fun c hc => dateChar_ne c '^' (dateChar_of_exactDate E hE c hc) (by decide)
  · intro c hc
    rw [List.mem_singleton.mp hc]
    decide

/-- Stripping the anchor from the line leaves the line with a trailing
space. -/
theorem replaceFirst_anchor (c' : Char) (T LS DS E b : List Char)
    (hc' : cleanChar c' = true) (hT : ∀ c ∈ T, cleanChar c = true)
    (hLS : LS = [] ∨ ∃ L, LS = '+' :: (L ++ [' ']) ∧ L ≠ [] ∧
      ∀ c ∈ L, isAlnumAscii c = true)
    (hDS : DS = [] ∨ ∃ D, DS = '📅' :: (D ++ [' ']) ∧ exactDate D = true)
    (hE : exactDate E = true) :
    replaceFirst ('^' :: b) [] (lineC c' T LS DS E (' ' :: '^' :: b)) =
      lineC c' T LS DS E [' '] := by
  have hA : ∀ c ∈ lineC c' T LS DS E [' '], c ≠ '^' := by
    apply forall_mem_lineC (P := fun c => c ≠ '^') c' T LS DS E [' ']
    · decide
    · exact ne_of_class hc' (by decide)
    · decide
    · decide
    · decide
    · decide
    · exact fun c hc => ne_of_class (hT c hc) (by decide)
    · rcases hLS with rfl | ⟨L, rfl, hL0, hLa⟩
      · simp
      · exact forall_mem_listSeg L (by decide) (by decide)
          (fun c h => ne_of_class h (by decide)) hLa
    · rcases hDS with rfl | ⟨D, rfl, hDa⟩
      · simp
      · exact forall_mem_dueSeg D (by decide) (by decide)
          (fun c h => dateChar_ne c '^' h (by decide)) hDa
    · exact fun c hc => dateChar_ne c '^' (dateChar_of_exactDate E hE c hc) (by decide)
    · intro c hc
      rw [List.mem_singleton.mp hc]
      decide
  rw [lineC_anchor_split,
    show lineC c' T LS DS E [' '] ++ '^' :: b =
      lineC c' T LS DS E [' '] ++ ('^' :: b) ++ [] from by simp,
    replaceFirst_at '^' b _ [] [] hA]
  simp

theorem isQuote_false_of_ne (c : Char) (h1 : c ≠ Char.ofNat 39)
    (h2 : c ≠ '"') : isQuote c = false := by
  simp [isQuote, h1, h2]

theorem isQuote_false_of_date (c : Char) (h : (c.isDigit || c = '-') = true) :
    isQuote c = false :=
  isQuote_false_of_ne c (dateChar_ne c _ h (by decide))
    (dateChar_ne c _ h (by decide))

theorem isQuote_false_of_ascii (c : Char) (h : isAlnumAscii c = true) :
    isQuote c = false :=
  isQuote_false_of_clean c (cleanChar_of_ascii c h)

/-- No quote character appears anywhere in a rendered line, so the quoted
list matcher never fires. -/
theorem matchQuoted_lineC_none (ind : List Char) (c' : Char)
    (T LS DS E AS : List Char)
    (hc' : cleanChar c' = true) (hT : ∀ c ∈ T, cleanChar c = true)
    (hLS : LS = [] ∨ ∃ L, LS = '+' :: (L ++ [' ']) ∧ L ≠ [] ∧
      ∀ c ∈ L, isAlnumAscii c = true)
    (hDS : DS = [] ∨ ∃ D, DS = '📅' :: (D ++ [' ']) ∧ exactDate D = true)
    (hE : exactDate E = true)
    (hAS : AS = [] ∨ ∃ b, AS = ' ' :: '^' :: b ∧ b ≠ [] ∧
      ∀ c ∈ b, isAlnumAscii c = true) :
    findFirst (matchQuotedList ind) (lineC c' T LS DS E AS) = none := by
  apply matchQuotedList_find_none
  apply forall_mem_lineC (P := fun c => isQuote c = false) c' T LS DS E AS
  · decide
  · exact isQuote_false_of_clean c' hc'
  · decide
  · decide
  · decide
  · decide
  · exact fun c hc => isQuote_false_of_clean c (hT c hc)
  · rcases hLS with rfl | ⟨L, rfl, hL0, hLa⟩
    · simp
    · exact forall_mem_listSeg L (by decide) (by decide) isQuote_false_of_ascii hLa
  · rcases hDS with rfl | ⟨D, rfl, hDa⟩
    · simp
    · exact forall_mem_dueSeg D (by decide) (by decide) isQuote_false_of_date hDa
  · exact fun c hc => isQuote_false_of_date c (dateChar_of_exactDate E hE c hc)
  · rcases hAS with rfl | ⟨b, rfl, hb0, hbAl⟩
    · simp
    · exact forall_mem_anchorSeg b (by decide) (by decide) isQuote_false_of_ascii hbAl

/-- Without a list segment there is no `+` in the line, so the unquoted
list matcher never fires either. -/
theorem matchUnquoted_lineC_none (c' : Char) (T DS E AS : List Char)
    (hc' : cleanChar c' = true) (hT : ∀ c ∈ T, cleanChar c = true)
    (hDS : DS = [] ∨ ∃ D, DS = '📅' :: (D ++ [' ']) ∧ exactDate D = true)
    (hE : exactDate E = true)
    (hAS : AS = [] ∨ ∃ b, AS = ' ' :: '^' :: b ∧ b ≠ [] ∧
      ∀ c ∈ b, isAlnumAscii c = true) :
    findFirst (matchUnquotedList ['+']) (lineC c' T [] DS E AS) = none := by
  apply matchUnquotedList_find_none
  apply forall_mem_lineC (P := fun c => c ≠ '+') c' T [] DS E AS
  · decide
  · exact ne_of_class hc' (by decide)
  · decide
  · decide
  · decide
  · decide
  · exact fun c hc => ne_of_class (hT c hc) (by decide)
  · simp
  · rcases hDS with rfl | ⟨D, rfl, hDa⟩
    · simp
    · exact forall_mem_dueSeg D (by decide) (by decide)
        (fun c h => dateChar_ne c '+' h (by decide)) hDa
  · exact fun c hc => dateChar_ne c '+' (dateChar_of_exactDate E hE c hc) (by decide)
  · rcases hAS with rfl | ⟨b, rfl, hb0, hbAl⟩
    · simp
    · exact forall_mem_anchorSeg b (by decide) (by decide)
        (fun c h => ne_of_class (cleanChar_of_ascii c h) (by decide)) hbAl

theorem forall_ne_plus_head (c' : Char) (T : List Char)
    (hc' : cleanChar c' = true) (hT : ∀ c ∈ T, cleanChar c = true) :
    ∀ c ∈ ['-', ' ', '[', c', ']', ' '] ++ T, c ≠ '+' := by
  intro c hc
  rcases List.mem_append.mp hc with hc | hc
  · simp only [List.mem_cons, List.not_mem_nil, or_false] at hc
    rcases hc with rfl | rfl | rfl | rfl | rfl | rfl
    · decide
    · decide
    · decide
    · exact ne_of_class hc' (by decide)
    · decide
    · decide
  · exact ne_of_class (hT c hc) (by decide)

/-- With a list segment the unquoted matcher first fires right before the
indicator and captures the list name. -/
theorem matchUnquoted_lineC_fire (c' : Char) (T L DS E AS : List Char)
    (hc' : cleanChar c' = true) (hT : ∀ c ∈ T, cleanChar c = true)
    (hL0 : L ≠ []) (hLa : ∀ c ∈ L, isAlnumAscii c = true) :
    findFirst (matchUnquotedList ['+'])
        (lineC c' T ('+' :: (L ++ [' '])) DS E AS) =
      some (['-', ' ', '[', c', ']', ' '] ++ T, L.length + 2, L) := by
  have he : lineC c' T ('+' :: (L ++ [' '])) DS E AS =
      (['-', ' ', '[', c', ']', ' '] ++ T) ++
        (' ' :: '+' :: (L ++ ' ' :: (DS ++ '🔎' :: (E ++ AS)))) := by
    simp [lineC]
  rw [he, findFirst_unquoted_skip [] _ _ (forall_ne_plus_head c' T hc' hT)
    (by
      intro d hd
      rw [← Option.some.inj hd]
      decide),
    findFirst_cons_some _ _ _ _ _
      (matchUnquotedList_fire L (DS ++ '🔎' :: (E ++ AS)) hL0 hLa)]
  simp

theorem forall_ne_plus_dash (T : List Char)
    (hT : ∀ c ∈ T, cleanChar c = true) :
    ∀ c ∈ ['-', ' ', ' '] ++ T, c ≠ '+' := by
  intro c hc
  rcases List.mem_append.mp hc with hc | hc
  · simp only [List.mem_cons, List.not_mem_nil, or_false] at hc
    rcases hc with rfl | rfl | rfl
    · decide
    · decide
    · decide
  · exact ne_of_class (hT c hc) (by decide)

/-- Removing the first unquoted-list match from the status-stripped title
deletes exactly ` +L`. -/
theorem removeFirst_unquoted (T L X : List Char)
    (hT : ∀ c ∈ T, cleanChar c = true)
    (hL0 : L ≠ []) (hLa : ∀ c ∈ L, isAlnumAscii c = true)
    (_hXh : ∀ d, X.head? = some d → d ≠ '+') :
    removeFirst (matchUnquotedList ['+'])
        ('-' :: ' ' :: ' ' :: (T ++ ' ' :: '+' :: (L ++ ' ' :: X))) =
      '-' :: ' ' :: ' ' :: (T ++ ' ' :: X) := by
  have he : '-' :: ' ' :: ' ' :: (T ++ ' ' :: '+' :: (L ++ ' ' :: X)) =
      (['-', ' ', ' '] ++ T) ++ (' ' :: '+' :: (L ++ ' ' :: X)) := by
    simp
  have hs : ∀ d, (' ' :: '+' :: (L ++ ' ' :: X)).head? = some d → d ≠ '+' := by
    intro d hd
    rw [← Option.some.inj hd]
    decide
  have hff : findFirst (matchUnquotedList ['+'])
      ((['-', ' ', ' '] ++ T) ++ (' ' :: '+' :: (L ++ ' ' :: X))) =
        some ((['-', ' ', ' '] ++ T) ++ [], L.length + 2, L) := by
    rw [findFirst_unquoted_skip [] _ _ (forall_ne_plus_dash T hT) hs,
      findFirst_cons_some _ _ _ _ _ (matchUnquotedList_fire L X hL0 hLa)]
    rfl
  rw [removeFirst, he, hff]
  simp only [List.append_nil]
  have hidx : (['-', ' ', ' '] ++ T).length + (L.length + 2) =
      (['-', ' ', ' '] ++ T).length + ((' ' :: '+' :: L).length + 0) := by
    simp
  rw [hidx, drop_append_len,
    show (' ' :: '+' :: (L ++ ' ' :: X)) = (' ' :: '+' :: L) ++ (' ' :: X) from by
      simp,
    drop_append_len]
  simp
/-- The wikilink-date scanner leaves a marked plain date alone. -/
theorem scanAll_brackets_id (g : Char) (A E : List Char)
    (hA : ∀ c ∈ A, c ≠ g) (hE : exactDate E = true)
    (hEg : ∀ c ∈ E, c ≠ g) :
    scanAll (matchMarkBrackets [g]) [] (A ++ g :: E) = A ++ g :: E := by
  rw [scanAll_append_skip _ _ g
    (fun c t hct => matchMarkBrackets_none_head g [] c t hct) A _ hA]
  have hb : matchMarkBrackets [g] (g :: E) = none := by
    have := matchMarkBrackets_none_date g E [] hE
    rwa [List.append_nil] at this
  rw [scanAll_cons_none _ _ _ _ hb,
    scanAll_id_of_skip _ _ g
      (fun c t hct => matchMarkBrackets_none_head g [] c t hct) E hEg]

/-- The plain-date scanner deletes the mark and the date. -/
theorem scanAll_date_strip (g : Char) (A E : List Char)
    (hA : ∀ c ∈ A, c ≠ g) (hE : exactDate E = true) :
    scanAll (matchMarkDate [g]) [] (A ++ g :: E) = A := by
  rw [scanAll_append_skip _ _ g
    (fun c t hct => matchMarkDate_none_head g [] c t hct) A _ hA]
  have hf : matchMarkDate [g] (g :: E) = some 11 := by
    have := matchMarkDate_fire g E [] hE
    rwa [List.append_nil] at this
  rw [scanAll_cons_match _ _ _ _ 10 hf,
    show E.drop 10 = [] from by
      rw [← exactDate_length E hE]
      exact List.drop_length E,
    scanAll_nil]
  simp

/-- The due-capture regex first fires at the due mark. -/
theorem findFirst_due_fire (A D : List Char) (hA : ∀ c ∈ A, c ≠ '📅')
    (hD : exactDate D = true) :
    findFirst (matchDueCapture ['📅']) (A ++ '📅' :: D) =
      some (A, 11, '📅' :: D) := by
  rw [findFirst_append_skip _ '📅'
    (fun c t hct => matchDueCapture_none_head '📅' [] c t hct) A _ hA]
  have hf : matchDueCapture ['📅'] ('📅' :: D) = some (11, '📅' :: D) := by
    have := matchDueCapture_fire '📅' D [] hD
    rwa [List.append_nil] at this
  rw [findFirst_cons_some _ _ _ _ _ hf]
  simp

theorem replaceFirst_mark (g : Char) (D : List Char) :
    replaceFirst [g] [] (g :: D) = D := by
  rw [replaceFirst, show splitSub [g] (g :: D) = some ([], D) from by
    simpa using splitSub_self_append [g] D]
  simp

/-- No-`x` fact for the region in front of a mark when no due segment
precedes it. -/
theorem forall_ne_A1 (x : Char) (T : List Char)
    (hT : ∀ c ∈ T, cleanChar c = true) (hx1 : cleanChar x = false)
    (hx2 : ¬ (x = '-' ∨ x = ' ')) :
    ∀ c ∈ ['-', ' ', ' '] ++ (T ++ [' ']), c ≠ x := by
  intro c hc
  simp only [List.mem_append, List.mem_cons, List.not_mem_nil, or_false] at hc
  rcases hc with (rfl | rfl | rfl) | hc | rfl
  · exact fun he => hx2 (Or.inl he.symm)
  · exact fun he => hx2 (Or.inr he.symm)
  · exact fun he => hx2 (Or.inr he.symm)
  · exact ne_of_class (hT c hc) hx1
  · exact fun he => hx2 (Or.inr he.symm)

/-- No-`x` fact for the region in front of the created mark when a due
segment precedes it. -/
theorem forall_ne_A2 (x : Char) (T D : List Char)
    (hT : ∀ c ∈ T, cleanChar c = true) (hD : exactDate D = true)
    (hx1 : cleanChar x = false) (hx2 : (x.isDigit || x = '-') = false)
    (hx3 : ¬ (x = '-' ∨ x = ' ' ∨ x = '📅')) :
    ∀ c ∈ ['-', ' ', ' '] ++ (T ++ (' ' :: '📅' :: (D ++ [' ']))), c ≠ x := by
  intro c hc
  simp only [List.mem_append, List.mem_cons, List.not_mem_nil, or_false] at hc
  rcases hc with (rfl | rfl | rfl) | hc | rfl | rfl | hc | rfl
  · exact fun he => hx3 (Or.inl he.symm)
  · exact fun he => hx3 (Or.inr (Or.inl he.symm))
  · exact fun he => hx3 (Or.inr (Or.inl he.symm))
  · exact ne_of_class (hT c hc) hx1
  · exact fun he => hx3 (Or.inr (Or.inl he.symm))
  · exact fun he => hx3 (Or.inr (Or.inr he.symm))
  · exact dateChar_ne c x (dateChar_of_exactDate D hD c hc) hx2
  · exact fun he => hx3 (Or.inr (Or.inl he.symm))

theorem forall_ne_T3 (x : Char) (T : List Char)
    (hT : ∀ c ∈ T, cleanChar c = true) (hx1 : cleanChar x = false)
    (hx2 : ¬ (x = '-' ∨ x = ' ')) :
    ∀ c ∈ '-' :: ' ' :: ' ' :: T, c ≠ x := by
  intro c hc
  simp only [List.mem_cons] at hc
  rcases hc with rfl | rfl | rfl | hc
  · exact fun he => hx2 (Or.inl he.symm)
  · exact fun he => hx2 (Or.inr he.symm)
  · exact fun he => hx2 (Or.inr he.symm)
  · exact ne_of_class (hT c hc) hx1

/-- Last character of the unparsed remainder `LS ++ (DS ++ 🔎E)`. -/
theorem getLast_ws_LSDS (LS DS E : List Char) (hE : exactDate E = true) :
    ∀ c, (LS ++ (DS ++ '🔎' :: E)).getLast? = some c → jsWs c = false := by
  intro c hc
  rw [getLast_append_right _ _ (by
      intro hx
      rcases List.append_eq_nil.mp hx with ⟨-, h2⟩
      exact List.noConfusion h2),
    getLast_append_right _ _ (fun hx => List.noConfusion hx),
    show ('🔎' :: E : List Char) = ['🔎'] ++ E from rfl,
    getLast_append_right _ _ (exactDate_ne_nil E hE)] at hc
  obtain ⟨z, h1, h2⟩ := getLast_exists E (exactDate_ne_nil E hE)
  rw [h1] at hc
  rw [← Option.some.inj hc]
  exact jsWs_false_of_date z (dateChar_of_exactDate E hE z h2)

theorem lineC_no_glyph (x : Char) (c' : Char) (T LS DS E AS : List Char)
    (hc' : cleanChar c' = true) (hT : ∀ c ∈ T, cleanChar c = true)
    (hLS : LS = [] ∨ ∃ L, LS = '+' :: (L ++ [' ']) ∧ L ≠ [] ∧
      ∀ c ∈ L, isAlnumAscii c = true)
    (hDS : DS = [] ∨ ∃ D, DS = '📅' :: (D ++ [' ']) ∧ exactDate D = true)
    (hE : exactDate E = true)
    (hAS : AS = [] ∨ ∃ b, AS = ' ' :: '^' :: b ∧ b ≠ [] ∧
      ∀ c ∈ b, isAlnumAscii c = true)
    (hx1 : cleanChar x = false) (hx2 : (x.isDigit || x = '-') = false)
    (hx3 : isAlnumAscii x = false)
    (hx4 : ¬ (x = '-' ∨ x = ' ' ∨ x = '[' ∨ x = ']' ∨ x = '🔎' ∨ x = '+' ∨
      x = '📅' ∨ x = '^')) :
    containsSub [x] (lineC c' T LS DS E AS) = false := by
  apply containsSub_single_false
  apply forall_mem_lineC (P := fun c => c ≠ x) c' T LS DS E AS
  · exact fun he => hx4 (Or.inr (Or.inl he.symm))
  · exact ne_of_class hc' hx1
  · exact fun he => hx4 (Or.inl he.symm)
  · exact fun he => hx4 (Or.inr (Or.inr (Or.inl he.symm)))
  · exact fun he => hx4 (Or.inr (Or.inr (Or.inr (Or.inl he.symm))))
  · exact fun he => hx4 (Or.inr (Or.inr (Or.inr (Or.inr (Or.inl he.symm)))))
  · exact fun c hc => ne_of_class (hT c hc) hx1
  · rcases hLS with rfl | ⟨L, rfl, hL0, hLa⟩
    · simp
    · refine forall_mem_listSeg L ?_ ?_ (fun c h => ne_of_class h hx3) hLa
      · exact fun he => hx4 (Or.inr (Or.inr (Or.inr (Or.inr (Or.inr
          (Or.inl he.symm))))))
      · exact fun he => hx4 (Or.inr (Or.inl he.symm))
  · rcases hDS with rfl | ⟨D, rfl, hDa⟩
    · simp
    · refine forall_mem_dueSeg D ?_ ?_ (fun c h => dateChar_ne c x h hx2) hDa
      · exact fun he => hx4 (Or.inr (Or.inr (Or.inr (Or.inr (Or.inr (Or.inr
          (Or.inl he.symm)))))))
      · exact fun he => hx4 (Or.inr (Or.inl he.symm))
  · exact fun c hc => dateChar_ne c x (dateChar_of_exactDate E hE c hc) hx2
  · rcases hAS with rfl | ⟨b, rfl, hb0, hbAl⟩
    · simp
    · refine forall_mem_anchorSeg b ?_ ?_ (fun c h => ne_of_class h hx3) hbAl
      · exact fun he => hx4 (Or.inr (Or.inl he.symm))
      · exact fun he => hx4 (Or.inr (Or.inr (Or.inr (Or.inr (Or.inr (Or.inr
          (Or.inr he.symm)))))))

end Lst

/-! ### The parse of a rendered line, stage by stage

`RT` (round trip) fixes the settings to the repository's jest fixture and
computes each parse stage of a line of shape `lineC` through
hypothesis-chained lemmas: every lemma consumes the previous stage's value
as an equation, so each proof stays local to one stage. -/

namespace RT

open Lst ObsidianTask

theorem quotedOf_lineC_none (LN : String) (c' : Char) (T LS DS E AS : List Char)
    (hline : LN.data = lineC c' T LS DS E AS)
    (hc' : cleanChar c' = true) (hT : ∀ c ∈ T, cleanChar c = true)
    (hLS : LS = [] ∨ ∃ L, LS = '+' :: (L ++ [' ']) ∧ L ≠ [] ∧
      ∀ c ∈ L, isAlnumAscii c = true)
    (hDS : DS = [] ∨ ∃ D, DS = '📅' :: (D ++ [' ']) ∧ exactDate D = true)
    (hE : exactDate E = true)
    (hAS : AS = [] ∨ ∃ b, AS = ' ' :: '^' :: b ∧ b ≠ [] ∧
      ∀ c ∈ b, isAlnumAscii c = true) :
    quotedOf testSettings LN = none := by
  show findFirst (matchQuotedList ['+']) LN.data = none
  rw [hline]
  exact matchQuoted_lineC_none ['+'] c' T LS DS E AS hc' hT hLS hDS hE hAS

theorem unquotedOf_lineC_none (LN : String) (c' : Char) (T DS E AS : List Char)
    (hline : LN.data = lineC c' T [] DS E AS)
    (hc' : cleanChar c' = true) (hT : ∀ c ∈ T, cleanChar c = true)
    (hDS : DS = [] ∨ ∃ D, DS = '📅' :: (D ++ [' ']) ∧ exactDate D = true)
    (hE : exactDate E = true)
    (hAS : AS = [] ∨ ∃ b, AS = ' ' :: '^' :: b ∧ b ≠ [] ∧
      ∀ c ∈ b, isAlnumAscii c = true) :
    unquotedOf testSettings LN = none := by
  show findFirst (matchUnquotedList ['+']) LN.data = none
  rw [hline]
  exact matchUnquoted_lineC_none c' T DS E AS hc' hT hDS hE hAS

theorem unquotedOf_lineC_fire (LN : String) (c' : Char) (T L DS E AS : List Char)
    (hline : LN.data = lineC c' T ('+' :: (L ++ [' '])) DS E AS)
    (hc' : cleanChar c' = true) (hT : ∀ c ∈ T, cleanChar c = true)
    (hL0 : L ≠ []) (hLa : ∀ c ∈ L, isAlnumAscii c = true) :
    unquotedOf testSettings LN =
      some (['-', ' ', '[', c', ']', ' '] ++ T, L.length + 2, L) := by
  show findFirst (matchUnquotedList ['+']) LN.data = _
  rw [hline]
  exact matchUnquoted_lineC_fire c' T L DS E AS hc' hT hL0 hLa

theorem statusOf_lineC (LN : String) (c' : Char) (T LS DS E AS : List Char)
    (hline : LN.data = lineC c' T LS DS E AS)
    (hc' : cleanChar c' = true) :
    statusOf LN =
      (if c' = 'x' then TaskStatus.completed else TaskStatus.notStarted) := by
  have hbne : (c' != '\n') = true := bne_iff_ne.mpr (ne_of_class hc' (by decide))
  have hfsf : findStatus (lineC c' T LS DS E AS) =
      some (['-', ' '], c', ' ' :: (T ++ ' ' :: (LS ++ (DS ++ '🔎' :: (E ++ AS)))))
    := findStatus_line c' _ hbne
  rw [statusOf, hline, hfsf]

theorem blockLinkOf_lineC_none (LN : String) (c' : Char) (T LS DS E : List Char)
    (hline : LN.data = lineC c' T LS DS E [])
    (hc' : cleanChar c' = true) (hT : ∀ c ∈ T, cleanChar c = true)
    (hLS : LS = [] ∨ ∃ L, LS = '+' :: (L ++ [' ']) ∧ L ≠ [] ∧
      ∀ c ∈ L, isAlnumAscii c = true)
    (hDS : DS = [] ∨ ∃ D, DS = '📅' :: (D ++ [' ']) ∧ exactDate D = true)
    (hE : exactDate E = true) :
    blockLinkOf LN = none := by
  show findBlockLink LN.data = none
  rw [hline]
  exact findBlockLink_lineC_none c' T LS DS E hc' hT hLS hDS hE

theorem blockLinkOf_lineC_found (LN : String) (c' : Char)
    (T LS DS E b : List Char)
    (hline : LN.data = lineC c' T LS DS E (' ' :: '^' :: b))
    (hc' : cleanChar c' = true) (hT : ∀ c ∈ T, cleanChar c = true)
    (hLS : LS = [] ∨ ∃ L, LS = '+' :: (L ++ [' ']) ∧ L ≠ [] ∧
      ∀ c ∈ L, isAlnumAscii c = true)
    (hDS : DS = [] ∨ ∃ D, DS = '📅' :: (D ++ [' ']) ∧ exactDate D = true)
    (hE : exactDate E = true) (hb0 : b ≠ [])
    (hbAl : ∀ c ∈ b, isAlnumAscii c = true) :
    blockLinkOf LN = some b := by
  show findBlockLink LN.data = some b
  rw [hline]
  exact findBlockLink_lineC_found c' T LS DS E b hc' hT hLS hDS hE hb0 hbAl

theorem title1_lineC_noanchor (LN : String) (c' : Char) (T LS DS E : List Char)
    (hline : LN.data = lineC c' T LS DS E [])
    (hc' : cleanChar c' = true) (hT : ∀ c ∈ T, cleanChar c = true)
    (hLS : LS = [] ∨ ∃ L, LS = '+' :: (L ++ [' ']) ∧ L ≠ [] ∧
      ∀ c ∈ L, isAlnumAscii c = true)
    (hDS : DS = [] ∨ ∃ D, DS = '📅' :: (D ++ [' ']) ∧ exactDate D = true)
    (hE : exactDate E = true) :
    title1 LN = lineC c' T LS DS E [] := by
  rw [title1, blockLinkOf_lineC_none LN c' T LS DS E hline hc' hT hLS hDS hE,
    title0, hline, jsTrim_lineC c' T LS DS E [] hE (Or.inl rfl)]

theorem title1_lineC_anchor (LN : String) (c' : Char) (T LS DS E b : List Char)
    (hline : LN.data = lineC c' T LS DS E (' ' :: '^' :: b))
    (hc' : cleanChar c' = true) (hT : ∀ c ∈ T, cleanChar c = true)
    (hLS : LS = [] ∨ ∃ L, LS = '+' :: (L ++ [' ']) ∧ L ≠ [] ∧
      ∀ c ∈ L, isAlnumAscii c = true)
    (hDS : DS = [] ∨ ∃ D, DS = '📅' :: (D ++ [' ']) ∧ exactDate D = true)
    (hE : exactDate E = true) (hb0 : b ≠ [])
    (hbAl : ∀ c ∈ b, isAlnumAscii c = true) :
    title1 LN = lineC c' T LS DS E [' '] := by
  rw [title1,
    blockLinkOf_lineC_found LN c' T LS DS E b hline hc' hT hLS hDS hE hb0 hbAl,
    title0, hline,
    jsTrim_lineC c' T LS DS E (' ' :: '^' :: b) hE (Or.inr ⟨b, rfl, hb0, hbAl⟩)]
  simp only []
  rw [replaceFirst_anchor c' T LS DS E b hc' hT hLS hDS hE]

/-- The status removal and trim: after the anchor strip both anchor cases
leave a line ending in the created date (possibly with a trailing space),
and the result is the `-  title …` remainder. -/
theorem title2_lineC (LN : String) (c' : Char) (T LS DS E AS AS2 : List Char)
    (hline : LN.data = lineC c' T LS DS E AS)
    (e1 : title1 LN = lineC c' T LS DS E AS2)
    (hAS2 : AS2 = [] ∨ AS2 = [' '])
    (hc' : cleanChar c' = true) (hE : exactDate E = true) :
    title2 LN = '-' :: ' ' :: ' ' :: (T ++ ' ' :: (LS ++ (DS ++ '🔎' :: E))) := by
  have hbne : (c' != '\n') = true := bne_iff_ne.mpr (ne_of_class hc' (by decide))
  have hfsf : findStatus (lineC c' T LS DS E AS) =
      some (['-', ' '], c', ' ' :: (T ++ ' ' :: (LS ++ (DS ++ '🔎' :: (E ++ AS)))))
    := findStatus_line c' _ hbne
  have hfs2 : findStatus (lineC c' T LS DS E AS2) =
      some (['-', ' '], c', ' ' :: (T ++ ' ' :: (LS ++ (DS ++ '🔎' :: (E ++ AS2)))))
    := findStatus_line c' _ hbne
  rw [title2, hline, hfsf, e1, hfs2]
  show jsTrim (['-', ' '] ++ ' ' :: (T ++ ' ' :: (LS ++ (DS ++ '🔎' :: (E ++ AS2)))))
    = _
  rcases hAS2 with rfl | rfl
  · rw [List.append_nil]
    show jsTrim ('-' :: ' ' :: ' ' :: (T ++ ' ' :: (LS ++ (DS ++ '🔎' :: E)))) = _
    apply jsTrim_dash_line T _ (by
      intro hx
      rcases List.append_eq_nil.mp hx with ⟨-, h2⟩
      rcases List.append_eq_nil.mp h2 with ⟨-, h3⟩
      exact List.noConfusion h3)
    exact getLast_ws_LSDS LS DS E hE
  · show jsTrim ('-' :: ' ' :: ' ' ::
      (T ++ ' ' :: (LS ++ (DS ++ '🔎' :: (E ++ [' ']))))) = _
    rw [show ('-' :: ' ' :: ' ' ::
        (T ++ ' ' :: (LS ++ (DS ++ '🔎' :: (E ++ [' '])))) : List Char) =
      ('-' :: ' ' :: ' ' :: (T ++ ' ' :: (LS ++ (DS ++ '🔎' :: E)))) ++ [' ']
      from by simp]
    apply jsTrim_append_space
    · intro c hch
      rw [← Option.some.inj hch]
      rfl
    · intro c hcl
      rw [getLast_dash_line T _ (by
        intro hx
        rcases List.append_eq_nil.mp hx with ⟨-, h2⟩
        rcases List.append_eq_nil.mp h2 with ⟨-, h3⟩
        exact List.noConfusion h3)] at hcl
      exact getLast_ws_LSDS LS DS E hE c hcl

/-- List-name stage, no list segment: the title passes through. -/
theorem title3_lineC_nolist (LN : String) (W : List Char)
    (hq : quotedOf testSettings LN = none)
    (hu : unquotedOf testSettings LN = none)
    (e2 : title2 LN = W) :
    title3 testSettings LN = W := by
  rw [title3, hq, hu, e2]

/-- List-name stage with a list segment: ` +L` is removed and the result
trimmed. -/
theorem title3_lineC_list (LN : String) (c' : Char) (T L X : List Char)
    (hq : quotedOf testSettings LN = none)
    (hu : unquotedOf testSettings LN =
      some (['-', ' ', '[', c', ']', ' '] ++ T, L.length + 2, L))
    (e2 : title2 LN = '-' :: ' ' :: ' ' :: (T ++ ' ' :: '+' :: (L ++ ' ' :: X)))
    (hT : ∀ c ∈ T, cleanChar c = true)
    (hL0 : L ≠ []) (hLa : ∀ c ∈ L, isAlnumAscii c = true)
    (hXh : ∀ d, X.head? = some d → d ≠ '+')
    (hX0 : X ≠ [])
    (hXl : ∀ c, X.getLast? = some c → jsWs c = false) :
    title3 testSettings LN = '-' :: ' ' :: ' ' :: (T ++ ' ' :: X) := by
  rw [title3, hq, hu]
  show jsTrim (removeFirst (matchUnquotedList ['+']) (title2 LN)) = _
  rw [e2, removeFirst_unquoted T L X hT hL0 hLa hXh]
  exact jsTrim_dash_line T X hX0 hXl

/-- Created-date strip, the due segment already absent. -/
theorem title4_lineC_nodate (LN : String) (T E : List Char)
    (e3 : title3 testSettings LN = '-' :: ' ' :: ' ' :: (T ++ ' ' :: '🔎' :: E))
    (hT0 : T ≠ []) (hT : ∀ c ∈ T, cleanChar c = true)
    (hTl : ∀ c, T.getLast? = some c → c ≠ ' ')
    (hE : exactDate E = true) :
    title4 testSettings LN = '-' :: ' ' :: ' ' :: T := by
  have hcsplit : ('-' :: ' ' :: ' ' :: (T ++ ' ' :: '🔎' :: E) : List Char) =
      (['-', ' ', ' '] ++ (T ++ [' '])) ++ '🔎' :: E := by
    simp
  have hAne : ∀ c ∈ ['-', ' ', ' '] ++ (T ++ [' ']), c ≠ '🔎' :=
    forall_ne_A1 '🔎' T hT (by decide) (by decide)
  have hcont : containsSub ['🔎'] ('-' :: ' ' :: ' ' :: (T ++ ' ' :: '🔎' :: E))
      = true := by
    rw [hcsplit]
    exact containsSub_at '🔎' _ E hAne
  have hsc1 : scanAll (matchMarkBrackets ['🔎']) []
      ('-' :: ' ' :: ' ' :: (T ++ ' ' :: '🔎' :: E)) =
      '-' :: ' ' :: ' ' :: (T ++ ' ' :: '🔎' :: E) := by
    rw [hcsplit]
    exact scanAll_brackets_id '🔎' _ E hAne hE
      (fun c hc => dateChar_ne c '🔎' (dateChar_of_exactDate E hE c hc) (by decide))
  have hsc2 : scanAll (matchMarkDate ['🔎']) []
      ('-' :: ' ' :: ' ' :: (T ++ ' ' :: '🔎' :: E)) =
      '-' :: ' ' :: ' ' :: (T ++ [' ']) := by
    rw [hcsplit, scanAll_date_strip '🔎' _ E hAne hE]
    simp
  have ht4 : jsTrim ('-' :: ' ' :: ' ' :: (T ++ [' '])) = '-' :: ' ' :: ' ' :: T := by
    rw [show ('-' :: ' ' :: ' ' :: (T ++ [' ']) : List Char) =
      ('-' :: ' ' :: ' ' :: T) ++ [' '] from by simp]
    apply jsTrim_append_space
    · intro c hch
      rw [← Option.some.inj hch]
      rfl
    · intro c hcl
      rw [getLast_dash_title T hT0] at hcl
      obtain ⟨z, h1, h2⟩ := getLast_exists T hT0
      rw [h1] at hcl
      rw [← Option.some.inj hcl]
      exact jsWs_false_of_clean_ne z (hT z h2) (hTl z h1)
  rw [title4, e3]
  show (if containsSub ['🔎'] ('-' :: ' ' :: ' ' :: (T ++ ' ' :: '🔎' :: E)) = true
      then jsTrim (scanAll (matchMarkDate ['🔎']) []
        (scanAll (matchMarkBrackets ['🔎']) []
          ('-' :: ' ' :: ' ' :: (T ++ ' ' :: '🔎' :: E))))
      else '-' :: ' ' :: ' ' :: (T ++ ' ' :: '🔎' :: E)) = _
  rw [if_pos hcont, hsc1, hsc2, ht4]

/-- Created-date strip with the due segment still in place. -/
theorem title4_lineC_date (LN : String) (T D E : List Char)
    (e3 : title3 testSettings LN =
      '-' :: ' ' :: ' ' :: (T ++ ' ' :: '📅' :: (D ++ ' ' :: '🔎' :: E)))
    (hT : ∀ c ∈ T, cleanChar c = true)
    (hD : exactDate D = true) (hE : exactDate E = true) :
    title4 testSettings LN = '-' :: ' ' :: ' ' :: (T ++ ' ' :: '📅' :: D) := by
  have hcsplit : ('-' :: ' ' :: ' ' ::
      (T ++ ' ' :: '📅' :: (D ++ ' ' :: '🔎' :: E)) : List Char) =
      (['-', ' ', ' '] ++ (T ++ (' ' :: '📅' :: (D ++ [' '])))) ++ '🔎' :: E := by
    simp
  have hA2 : ∀ c ∈ ['-', ' ', ' '] ++ (T ++ (' ' :: '📅' :: (D ++ [' ']))),
      c ≠ '🔎' :=
    forall_ne_A2 '🔎' T D hT hD (by decide) (by decide) (by decide)
  have hcont : containsSub ['🔎'] ('-' :: ' ' :: ' ' ::
      (T ++ ' ' :: '📅' :: (D ++ ' ' :: '🔎' :: E))) = true := by
    rw [hcsplit]
    exact containsSub_at '🔎' _ E hA2
  have hsc1 : scanAll (matchMarkBrackets ['🔎']) [] ('-' :: ' ' :: ' ' ::
      (T ++ ' ' :: '📅' :: (D ++ ' ' :: '🔎' :: E))) =
      '-' :: ' ' :: ' ' :: (T ++ ' ' :: '📅' :: (D ++ ' ' :: '🔎' :: E)) := by
    rw [hcsplit]
    exact scanAll_brackets_id '🔎' _ E hA2 hE
      (fun c hc => dateChar_ne c '🔎' (dateChar_of_exactDate E hE c hc) (by decide))
  have hsc2 : scanAll (matchMarkDate ['🔎']) [] ('-' :: ' ' :: ' ' ::
      (T ++ ' ' :: '📅' :: (D ++ ' ' :: '🔎' :: E))) =
      '-' :: ' ' :: ' ' :: (T ++ ' ' :: '📅' :: (D ++ [' '])) := by
    rw [hcsplit, scanAll_date_strip '🔎' _ E hA2 hE]
    simp
  have ht4 : jsTrim ('-' :: ' ' :: ' ' :: (T ++ ' ' :: '📅' :: (D ++ [' ']))) =
      '-' :: ' ' :: ' ' :: (T ++ ' ' :: '📅' :: D) := by
    rw [show ('-' :: ' ' :: ' ' :: (T ++ ' ' :: '📅' :: (D ++ [' '])) : List Char)
      = ('-' :: ' ' :: ' ' :: (T ++ ' ' :: '📅' :: D)) ++ [' '] from by simp]
    apply jsTrim_append_space
    · intro c hch
      rw [← Option.some.inj hch]
      rfl
    · intro c hcl
      rw [getLast_dash_line T _ (fun hx => List.noConfusion hx),
        show ('📅' :: D : List Char) = ['📅'] ++ D from rfl,
        getLast_append_right _ _ (exactDate_ne_nil D hD)] at hcl
      obtain ⟨z, h1, h2⟩ := getLast_exists D (exactDate_ne_nil D hD)
      rw [h1] at hcl
      rw [← Option.some.inj hcl]
      exact jsWs_false_of_date z (dateChar_of_exactDate D hD z h2)
  rw [title4, e3]
  show (if containsSub ['🔎'] ('-' :: ' ' :: ' ' ::
        (T ++ ' ' :: '📅' :: (D ++ ' ' :: '🔎' :: E))) = true
      then jsTrim (scanAll (matchMarkDate ['🔎']) []
        (scanAll (matchMarkBrackets ['🔎']) [] ('-' :: ' ' :: ' ' ::
          (T ++ ' ' :: '📅' :: (D ++ ' ' :: '🔎' :: E)))))
      else '-' :: ' ' :: ' ' :: (T ++ ' ' :: '📅' :: (D ++ ' ' :: '🔎' :: E))) = _
  rw [if_pos hcont, hsc1, hsc2, ht4]

/-- Due extraction with no due mark left in the title: `undefined`. -/
theorem dueOf_lineC_nodate (LN : String) (lzone : String) (T : List Char)
    (e4 : title4 testSettings LN = '-' :: ' ' :: ' ' :: T)
    (hT : ∀ c ∈ T, cleanChar c = true) :
    dueOf testSettings lzone LN = JsOpt.undef := by
  have hcdue : containsSub ['📅'] ('-' :: ' ' :: ' ' :: T) = false :=
    containsSub_single_false _ _ (forall_ne_T3 '📅' T hT (by decide) (by decide))
  rw [dueOf, e4]
  show (if containsSub ['📅'] ('-' :: ' ' :: ' ' :: T) = true
      then _ else JsOpt.undef) = _
  rw [if_neg]
  rw [hcdue]
  exact fun hx => Bool.noConfusion hx

/-- Due extraction with the due segment present: the calendar date with the
local zone. -/
theorem dueOf_lineC_date (LN : String) (lzone : String) (T D : List Char)
    (e4 : title4 testSettings LN = '-' :: ' ' :: ' ' :: (T ++ ' ' :: '📅' :: D))
    (hT : ∀ c ∈ T, cleanChar c = true) (hD : exactDate D = true) :
    dueOf testSettings lzone LN = JsOpt.val ⟨String.mk D, some lzone⟩ := by
  have hdsplit : ('-' :: ' ' :: ' ' :: (T ++ ' ' :: '📅' :: D) : List Char) =
      (['-', ' ', ' '] ++ (T ++ [' '])) ++ '📅' :: D := by
    simp
  have hA1 : ∀ c ∈ ['-', ' ', ' '] ++ (T ++ [' ']), c ≠ '📅' :=
    forall_ne_A1 '📅' T hT (by decide) (by decide)
  have hcont2 : containsSub ['📅']
      ('-' :: ' ' :: ' ' :: (T ++ ' ' :: '📅' :: D)) = true := by
    rw [hdsplit]
    exact containsSub_at '📅' _ D hA1
  have hfd : findFirst (matchDueCapture ['📅'])
      ('-' :: ' ' :: ' ' :: (T ++ ' ' :: '📅' :: D)) =
      some (['-', ' ', ' '] ++ (T ++ [' ']), 11, '📅' :: D) := by
    rw [hdsplit]
    exact findFirst_due_fire _ D hA1 hD
  have hdm : testSettings.displayOptions_TaskDueMark.data = ['📅'] := rfl
  rw [dueOf, e4, hdm, if_pos hcont2, hfd]
  show (JsOpt.val ⟨String.mk (replaceFirst ['📅'] [] ('📅' :: D)), some lzone⟩ :
      JsOpt DateTimeTimeZone) =
    JsOpt.val ⟨String.mk D, some lzone⟩
  rw [replaceFirst_mark '📅' D]

/-- Due strip with no due mark present: the title passes through. -/
theorem title5_lineC_nodate (LN : String) (T : List Char)
    (e4 : title4 testSettings LN = '-' :: ' ' :: ' ' :: T)
    (hT : ∀ c ∈ T, cleanChar c = true) :
    title5 testSettings LN = '-' :: ' ' :: ' ' :: T := by
  have hcdue : containsSub ['📅'] ('-' :: ' ' :: ' ' :: T) = false :=
    containsSub_single_false _ _ (forall_ne_T3 '📅' T hT (by decide) (by decide))
  rw [title5, e4]
  show (if containsSub ['📅'] ('-' :: ' ' :: ' ' :: T) = true
      then jsTrim (scanAll (matchMarkDate ['📅']) []
        (scanAll (matchMarkBrackets ['📅']) [] ('-' :: ' ' :: ' ' :: T)))
      else '-' :: ' ' :: ' ' :: T) = _
  rw [if_neg]
  rw [hcdue]
  exact fun hx => Bool.noConfusion hx

/-- Due strip with the due segment present: ` 📅D` is removed and the
result trimmed. -/
theorem title5_lineC_date (LN : String) (T D : List Char)
    (e4 : title4 testSettings LN = '-' :: ' ' :: ' ' :: (T ++ ' ' :: '📅' :: D))
    (hT0 : T ≠ []) (hT : ∀ c ∈ T, cleanChar c = true)
    (hTl : ∀ c, T.getLast? = some c → c ≠ ' ')
    (hD : exactDate D = true) :
    title5 testSettings LN = '-' :: ' ' :: ' ' :: T := by
  have hdsplit : ('-' :: ' ' :: ' ' :: (T ++ ' ' :: '📅' :: D) : List Char) =
      (['-', ' ', ' '] ++ (T ++ [' '])) ++ '📅' :: D := by
    simp
  have hA1 : ∀ c ∈ ['-', ' ', ' '] ++ (T ++ [' ']), c ≠ '📅' :=
    forall_ne_A1 '📅' T hT (by decide) (by decide)
  have hcont2 : containsSub ['📅']
      ('-' :: ' ' :: ' ' :: (T ++ ' ' :: '📅' :: D)) = true := by
    rw [hdsplit]
    exact containsSub_at '📅' _ D hA1
  have hsc3 : scanAll (matchMarkBrackets ['📅']) []
      ('-' :: ' ' :: ' ' :: (T ++ ' ' :: '📅' :: D)) =
      '-' :: ' ' :: ' ' :: (T ++ ' ' :: '📅' :: D) := by
    rw [hdsplit]
    exact scanAll_brackets_id '📅' _ D hA1 hD
      (fun c hc => dateChar_ne c '📅' (dateChar_of_exactDate D hD c hc) (by decide))
  have hsc4 : scanAll (matchMarkDate ['📅']) []
      ('-' :: ' ' :: ' ' :: (T ++ ' ' :: '📅' :: D)) =
      '-' :: ' ' :: ' ' :: (T ++ [' ']) := by
    rw [hdsplit, scanAll_date_strip '📅' _ D hA1 hD]
    simp
  have ht5 : jsTrim ('-' :: ' ' :: ' ' :: (T ++ [' '])) = '-' :: ' ' :: ' ' :: T := by
    rw [show ('-' :: ' ' :: ' ' :: (T ++ [' ']) : List Char) =
      ('-' :: ' ' :: ' ' :: T) ++ [' '] from by simp]
    apply jsTrim_append_space
    · intro c hch
      rw [← Option.some.inj hch]
      rfl
    · intro c hcl
      rw [getLast_dash_title T hT0] at hcl
      obtain ⟨z, h1, h2⟩ := getLast_exists T hT0
      rw [h1] at hcl
      rw [← Option.some.inj hcl]
      exact jsWs_false_of_clean_ne z (hT z h2) (hTl z h1)
  rw [title5, e4]
  show (if containsSub ['📅'] ('-' :: ' ' :: ' ' :: (T ++ ' ' :: '📅' :: D)) = true
      then jsTrim (scanAll (matchMarkDate ['📅']) []
        (scanAll (matchMarkBrackets ['📅']) []
          ('-' :: ' ' :: ' ' :: (T ++ ' ' :: '📅' :: D))))
      else '-' :: ' ' :: ' ' :: (T ++ ' ' :: '📅' :: D)) = _
  rw [if_pos hcont2, hsc3, hsc4, ht5]

/-- The final decoration strip recovers the bare title. -/
theorem title6_lineC (LN : String) (T : List Char)
    (e5 : title5 testSettings LN = '-' :: ' ' :: ' ' :: T)
    (hT0 : T ≠ []) (hT : ∀ c ∈ T, cleanChar c = true)
    (hTh : ∀ c, T.head? = some c → c ≠ ' ')
    (hTl : ∀ c, T.getLast? = some c → c ≠ ' ') :
    title6 testSettings LN = T := by
  have hjs6 : jsTrim (' ' :: T) = T := by
    rw [jsTrim_cons_ws ' ' T (by decide)]
    apply jsTrim_eq_self
    · intro c hch
      cases T with
      | nil => exact absurd rfl hT0
      | cons a t =>
        rw [← Option.some.inj hch]
        exact jsWs_false_of_clean_ne a (hT a (List.mem_cons_self _ _)) (hTh a rfl)
    · intro c hcl
      obtain ⟨z, h1, h2⟩ := getLast_exists T hT0
      rw [h1] at hcl
      rw [← Option.some.inj hcl]
      exact jsWs_false_of_clean_ne z (hT z h2) (hTl z h1)
  rw [title6, e5, jsTrim_dash_title T hT0 hT hTl, stripDecor_line T hT, hjs6]

/-- The push strip is disabled in the fixture settings. -/
theorem title7_lineC (LN : String) (T : List Char)
    (e6 : title6 testSettings LN = T) :
    title7 testSettings LN = T := by
  rw [title7, if_neg, e6]
  show ¬ (("" : String).data ≠ [])
  simp

theorem importanceOf_lineC (LN : String) (c' : Char) (T LS DS E AS : List Char)
    (hline : LN.data = lineC c' T LS DS E AS)
    (hc' : cleanChar c' = true) (hT : ∀ c ∈ T, cleanChar c = true)
    (hLS : LS = [] ∨ ∃ L, LS = '+' :: (L ++ [' ']) ∧ L ≠ [] ∧
      ∀ c ∈ L, isAlnumAscii c = true)
    (hDS : DS = [] ∨ ∃ D, DS = '📅' :: (D ++ [' ']) ∧ exactDate D = true)
    (hE : exactDate E = true)
    (hAS : AS = [] ∨ ∃ b, AS = ' ' :: '^' :: b ∧ b ≠ [] ∧
      ∀ c ∈ b, isAlnumAscii c = true) :
    importanceOf testSettings LN = Importance.normal := by
  have hhigh : containsSub ['⏫'] (lineC c' T LS DS E AS) = false :=
    lineC_no_glyph '⏫' c' T LS DS E AS hc' hT hLS hDS hE hAS (by decide)
      (by decide) (by decide) (by decide)
  have hlow : containsSub ['🔽'] (lineC c' T LS DS E AS) = false :=
    lineC_no_glyph '🔽' c' T LS DS E AS hc' hT hLS hDS hE hAS (by decide)
      (by decide) (by decide) (by decide)
  rw [importanceOf, hline]
  show (if containsSub ['⏫'] (lineC c' T LS DS E AS) = true then Importance.high
    else if containsSub ['🔽'] (lineC c' T LS DS E AS) = true then Importance.low
    else Importance.normal) = _
  rw [hhigh, hlow]
  rfl

/-- Parsing a rendered line of shape `lineC` recovers the title, the
status, the importance and the due date. -/
theorem parseLine_lineC (lzone : String) (c' : Char) (T LS DS E AS : List Char)
    (hc' : cleanChar c' = true)
    (hT0 : T ≠ []) (hT : ∀ c ∈ T, cleanChar c = true)
    (hTh : ∀ c, T.head? = some c → c ≠ ' ')
    (hTl : ∀ c, T.getLast? = some c → c ≠ ' ')
    (hLS : LS = [] ∨ ∃ L, LS = '+' :: (L ++ [' ']) ∧ L ≠ [] ∧
      ∀ c ∈ L, isAlnumAscii c = true)
    (hDS : DS = [] ∨ ∃ D, DS = '📅' :: (D ++ [' ']) ∧ exactDate D = true)
    (hE : exactDate E = true)
    (hAS : AS = [] ∨ ∃ b, AS = ' ' :: '^' :: b ∧ b ≠ [] ∧
      ∀ c ∈ b, isAlnumAscii c = true) :
    (parseLine testSettings lzone (String.mk (lineC c' T LS DS E AS))).title
        = some (String.mk T) ∧
    (parseLine testSettings lzone (String.mk (lineC c' T LS DS E AS))).status
        = some (if c' = 'x' then TaskStatus.completed else TaskStatus.notStarted) ∧
    (parseLine testSettings lzone (String.mk (lineC c' T LS DS E AS))).importance
        = some Importance.normal ∧
    (DS = [] →
      (parseLine testSettings lzone
        (String.mk (lineC c' T LS DS E AS))).dueDateTime = JsOpt.undef) ∧
    (∀ D, DS = '📅' :: (D ++ [' ']) →
      (parseLine testSettings lzone
        (String.mk (lineC c' T LS DS E AS))).dueDateTime =
        JsOpt.val ⟨String.mk D, some lzone⟩) := by
  have hXh : ∀ d, (DS ++ '🔎' :: E).head? = some d → d ≠ '+' := by
    rcases hDS with rfl | ⟨D, rfl, hD⟩
    · intro d hd
      rw [← Option.some.inj hd]
      decide
    · intro d hd
      rw [← Option.some.inj hd]
      decide
  have hX0 : DS ++ '🔎' :: E ≠ [] := by
    intro hx
    rcases List.append_eq_nil.mp hx with ⟨-, h2⟩
    exact List.noConfusion h2
  have hXl : ∀ c, (DS ++ '🔎' :: E).getLast? = some c → jsWs c = false := by
    intro c hc
    exact getLast_ws_LSDS [] DS E hE c hc
  rcases hAS with rfl | ⟨b, rfl, hb0, hbAl⟩
  · -- no anchor
    have hASo : ([] : List Char) = [] ∨ ∃ b2, ([] : List Char) = ' ' :: '^' :: b2
        ∧ b2 ≠ [] ∧ ∀ c ∈ b2, isAlnumAscii c = true := Or.inl rfl
    have hline : (String.mk (lineC c' T LS DS E [])).data = lineC c' T LS DS E []
      := rfl
    have est := statusOf_lineC _ c' T LS DS E [] hline hc'
    have eim := importanceOf_lineC _ c' T LS DS E [] hline hc' hT hLS hDS hE hASo
    have hq := quotedOf_lineC_none _ c' T LS DS E [] hline hc' hT hLS hDS hE hASo
    have e1 := title1_lineC_noanchor _ c' T LS DS E hline hc' hT hLS hDS hE
    have e2 := title2_lineC _ c' T LS DS E [] [] hline e1 (Or.inl rfl) hc' hE
    rcases hLS with rfl | ⟨L, rfl, hL0, hLa⟩
    · -- no list
      have hu := unquotedOf_lineC_none _ c' T DS E [] hline hc' hT hDS hE hASo
      simp only [List.nil_append] at e2
      have e3 := title3_lineC_nolist _ _ hq hu e2
      rcases hDS with rfl | ⟨D, rfl, hD⟩
      · simp only [List.nil_append] at e3
        have e4 := title4_lineC_nodate _ T E e3 hT0 hT hTl hE
        have edue := dueOf_lineC_nodate _ lzone T e4 hT
        have e5 := title5_lineC_nodate _ T e4 hT
        have e6 := title6_lineC _ T e5 hT0 hT hTh hTl
        have e7 := title7_lineC _ T e6
        refine ⟨?_, ?_, ?_, ?_, ?_⟩
        · simp only [parseLine]
          rw [e7]
        · simp only [parseLine]
          rw [est]
        · simp only [parseLine]
          rw [eim]
        · intro _
          simp only [parseLine]
          rw [edue]
        · intro D0 hds
          exact absurd hds (fun hx => List.noConfusion hx)
      · simp only [List.cons_append, List.nil_append, List.append_assoc] at e3
        have e4 := title4_lineC_date _ T D E e3 hT hD hE
        have edue := dueOf_lineC_date _ lzone T D e4 hT hD
        have e5 := title5_lineC_date _ T D e4 hT0 hT hTl hD
        have e6 := title6_lineC _ T e5 hT0 hT hTh hTl
        have e7 := title7_lineC _ T e6
        refine ⟨?_, ?_, ?_, ?_, ?_⟩
        · simp only [parseLine]
          rw [e7]
        · simp only [parseLine]
          rw [est]
        · simp only [parseLine]
          rw [eim]
        · intro hds
          exact absurd hds (fun hx => List.noConfusion hx)
        · intro D0 hds
          have h2 : D ++ [' '] = D0 ++ [' '] :=
            ((List.cons.injEq _ _ _ _).mp hds).2
          obtain ⟨rfl, -⟩ := List.append_inj' h2 rfl
          simp only [parseLine]
          rw [edue]
    · -- list segment
      have hu := unquotedOf_lineC_fire _ c' T L DS E [] hline hc' hT hL0 hLa
      simp only [List.cons_append, List.nil_append, List.append_assoc] at e2
      have e3 := title3_lineC_list _ c' T L (DS ++ '🔎' :: E) hq hu e2 hT hL0 hLa
        hXh hX0 hXl
      rcases hDS with rfl | ⟨D, rfl, hD⟩
      · simp only [List.nil_append] at e3
        have e4 := title4_lineC_nodate _ T E e3 hT0 hT hTl hE
        have edue := dueOf_lineC_nodate _ lzone T e4 hT
        have e5 := title5_lineC_nodate _ T e4 hT
        have e6 := title6_lineC _ T e5 hT0 hT hTh hTl
        have e7 := title7_lineC _ T e6
        refine ⟨?_, ?_, ?_, ?_, ?_⟩
        · simp only [parseLine]
          rw [e7]
        · simp only [parseLine]
          rw [est]
        · simp only [parseLine]
          rw [eim]
        · intro _
          simp only [parseLine]
          rw [edue]
        · intro D0 hds
          exact absurd hds (fun hx => List.noConfusion hx)
      · simp only [List.cons_append, List.nil_append, List.append_assoc] at e3
        have e4 := title4_lineC_date _ T D E e3 hT hD hE
        have edue := dueOf_lineC_date _ lzone T D e4 hT hD
        have e5 := title5_lineC_date _ T D e4 hT0 hT hTl hD
        have e6 := title6_lineC _ T e5 hT0 hT hTh hTl
        have e7 := title7_lineC _ T e6
        refine ⟨?_, ?_, ?_, ?_, ?_⟩
        · simp only [parseLine]
          rw [e7]
        · simp only [parseLine]
          rw [est]
        · simp only [parseLine]
          rw [eim]
        · intro hds
          exact absurd hds (fun hx => List.noConfusion hx)
        · intro D0 hds
          have h2 : D ++ [' '] = D0 ++ [' '] :=
            ((List.cons.injEq _ _ _ _).mp hds).2
          obtain ⟨rfl, -⟩ := List.append_inj' h2 rfl
          simp only [parseLine]
          rw [edue]
  · -- anchor present
    have hASo : (' ' :: '^' :: b : List Char) = [] ∨ ∃ b2,
        ' ' :: '^' :: b = ' ' :: '^' :: b2 ∧ b2 ≠ [] ∧
        ∀ c ∈ b2, isAlnumAscii c = true := Or.inr ⟨b, rfl, hb0, hbAl⟩
    have hline : (String.mk (lineC c' T LS DS E (' ' :: '^' :: b))).data =
      lineC c' T LS DS E (' ' :: '^' :: b) := rfl
    have est := statusOf_lineC _ c' T LS DS E (' ' :: '^' :: b) hline hc'
    have eim := importanceOf_lineC _ c' T LS DS E (' ' :: '^' :: b) hline hc' hT
      hLS hDS hE hASo
    have hq := quotedOf_lineC_none _ c' T LS DS E (' ' :: '^' :: b) hline hc' hT
      hLS hDS hE hASo
    have e1 := title1_lineC_anchor _ c' T LS DS E b hline hc' hT hLS hDS hE hb0
      hbAl
    have e2 := title2_lineC _ c' T LS DS E (' ' :: '^' :: b) [' '] hline e1
      (Or.inr rfl) hc' hE
    rcases hLS with rfl | ⟨L, rfl, hL0, hLa⟩
    · -- no list
      have hu := unquotedOf_lineC_none _ c' T DS E (' ' :: '^' :: b) hline hc' hT
        hDS hE hASo
      simp only [List.nil_append] at e2
      have e3 := title3_lineC_nolist _ _ hq hu e2
      rcases hDS with rfl | ⟨D, rfl, hD⟩
      · simp only [List.nil_append] at e3
        have e4 := title4_lineC_nodate _ T E e3 hT0 hT hTl hE
        have edue := dueOf_lineC_nodate _ lzone T e4 hT
        have e5 := title5_lineC_nodate _ T e4 hT
        have e6 := title6_lineC _ T e5 hT0 hT hTh hTl
        have e7 := title7_lineC _ T e6
        refine ⟨?_, ?_, ?_, ?_, ?_⟩
        · simp only [parseLine]
          rw [e7]
        · simp only [parseLine]
          rw [est]
        · simp only [parseLine]
          rw [eim]
        · intro _
          simp only [parseLine]
          rw [edue]
        · intro D0 hds
          exact absurd hds (fun hx => List.noConfusion hx)
      · simp only [List.cons_append, List.nil_append, List.append_assoc] at e3
        have e4 := title4_lineC_date _ T D E e3 hT hD hE
        have edue := dueOf_lineC_date _ lzone T D e4 hT hD
        have e5 := title5_lineC_date _ T D e4 hT0 hT hTl hD
        have e6 := title6_lineC _ T e5 hT0 hT hTh hTl
        have e7 := title7_lineC _ T e6
        refine ⟨?_, ?_, ?_, ?_, ?_⟩
        · simp only [parseLine]
          rw [e7]
        · simp only [parseLine]
          rw [est]
        · simp only [parseLine]
          rw [eim]
        · intro hds
          exact absurd hds (fun hx => List.noConfusion hx)
        · intro D0 hds
          have h2 : D ++ [' '] = D0 ++ [' '] :=
            ((List.cons.injEq _ _ _ _).mp hds).2
          obtain ⟨rfl, -⟩ := List.append_inj' h2 rfl
          simp only [parseLine]
          rw [edue]
    · -- list segment
      have hu := unquotedOf_lineC_fire _ c' T L DS E (' ' :: '^' :: b) hline hc'
        hT hL0 hLa
      simp only [List.cons_append, List.nil_append, List.append_assoc] at e2
      have e3 := title3_lineC_list _ c' T L (DS ++ '🔎' :: E) hq hu e2 hT hL0 hLa
        hXh hX0 hXl
      rcases hDS with rfl | ⟨D, rfl, hD⟩
      · simp only [List.nil_append] at e3
        have e4 := title4_lineC_nodate _ T E e3 hT0 hT hTl hE
        have edue := dueOf_lineC_nodate _ lzone T e4 hT
        have e5 := title5_lineC_nodate _ T e4 hT
        have e6 := title6_lineC _ T e5 hT0 hT hTh hTl
        have e7 := title7_lineC _ T e6
        refine ⟨?_, ?_, ?_, ?_, ?_⟩
        · simp only [parseLine]
          rw [e7]
        · simp only [parseLine]
          rw [est]
        · simp only [parseLine]
          rw [eim]
        · intro _
          simp only [parseLine]
          rw [edue]
        · intro D0 hds
          exact absurd hds (fun hx => List.noConfusion hx)
      · simp only [List.cons_append, List.nil_append, List.append_assoc] at e3
        have e4 := title4_lineC_date _ T D E e3 hT hD hE
        have edue := dueOf_lineC_date _ lzone T D e4 hT hD
        have e5 := title5_lineC_date _ T D e4 hT0 hT hTl hD
        have e6 := title6_lineC _ T e5 hT0 hT hTh hTl
        have e7 := title7_lineC _ T e6
        refine ⟨?_, ?_, ?_, ?_, ?_⟩
        · simp only [parseLine]
          rw [e7]
        · simp only [parseLine]
          rw [est]
        · simp only [parseLine]
          rw [eim]
        · intro hds
          exact absurd hds (fun hx => List.noConfusion hx)
        · intro D0 hds
          have h2 : D ++ [' '] = D0 ++ [' '] :=
            ((List.cons.injEq _ _ _ _).mp hds).2
          obtain ⟨rfl, -⟩ := List.append_inj' h2 rfl
          simp only [parseLine]
          rw [edue]

/-! The rendering side: the template with the placeholders substituted in
source order. -/

/-- The template tail after the task placeholder. -/
def FMT2 : List Char :=
  "\x7b\x7bIMPORTANCE\x7d\x7d\x7b\x7bTASK_LIST_NAME\x7d\x7d\x7b\x7bDUE_DATE\x7d\x7d\x7b\x7bCREATED_DATE\x7d\x7d".data

/-- The template tail after the importance placeholder. -/
def FMT3 : List Char :=
  "\x7b\x7bTASK_LIST_NAME\x7d\x7d\x7b\x7bDUE_DATE\x7d\x7d\x7b\x7bCREATED_DATE\x7d\x7d".data

theorem out1_eq (t : ObsidianTask) (T : List Char)
    (htd : (t.title.getD "").data = T) (htr : jsTrim T = T) :
    out1 testSettings t =
      "- [\x7b\x7bSTATUS_SYMBOL\x7d\x7d] ".data ++ (T ++ [' ']) ++ FMT2 := by
  rw [out1, htd, htr, replaceFirst,
    show splitSub TASK_PH testSettings.displayOptions_ReplacementFormat.data =
      some ("- [\x7b\x7bSTATUS_SYMBOL\x7d\x7d] ".data, FMT2) from by decide]

theorem out2_eq (t : ObsidianTask) (c' : Char) (T : List Char)
    (e1 : out1 testSettings t =
      "- [\x7b\x7bSTATUS_SYMBOL\x7d\x7d] ".data ++ (T ++ [' ']) ++ FMT2)
    (hsym : (getStatusIndicator testSettings t).data = [c']) :
    out2 testSettings t =
      '-' :: ' ' :: '[' :: c' :: ']' :: ' ' :: (T ++ ' ' :: FMT2) := by
  rw [out2, e1, hsym, replaceFirst,
    show splitSub STATUS_SYMBOL_PH
        ("- [\x7b\x7bSTATUS_SYMBOL\x7d\x7d] ".data ++ (T ++ [' ']) ++ FMT2) =
      some ("- [".data, "] ".data ++ ((T ++ [' ']) ++ FMT2)) from by
        rw [show ("- [\x7b\x7bSTATUS_SYMBOL\x7d\x7d] ".data ++ (T ++ [' ']) ++ FMT2
            : List Char) =
          "- [".data ++ (STATUS_SYMBOL_PH ++ ("] ".data ++ ((T ++ [' ']) ++ FMT2)))
          from by simp [STATUS_SYMBOL_PH, FMT2]]
        rw [show STATUS_SYMBOL_PH = '\x7b' :: "\x7bSTATUS_SYMBOL\x7d\x7d".data
          from rfl]
        rw [splitSub_append_head '\x7b' _ _ _ (by decide), splitSub_self_append]
        simp]
  simp

theorem forall_ne_brace (c' : Char) (T : List Char)
    (hc' : cleanChar c' = true) (hT : ∀ c ∈ T, cleanChar c = true) :
    ∀ c ∈ "- [".data ++ [c'] ++ ("] ".data ++ (T ++ [' '])), c ≠ '\x7b' := by
  intro c hc
  rcases List.mem_append.mp hc with hc1 | hc2
  · rcases List.mem_append.mp hc1 with hc3 | hc4
    · simp only [show ("- [".data : List Char) = ['-', ' ', '['] from rfl,
        List.mem_cons, List.not_mem_nil, or_false] at hc3
      rcases hc3 with rfl | rfl | rfl
      · decide
      · decide
      · decide
    · rw [List.mem_singleton.mp hc4]
      exact ne_of_class hc' (by decide)
  · rcases List.mem_append.mp hc2 with hc3 | hc4
    · simp only [show ("] ".data : List Char) = [']', ' '] from rfl,
        List.mem_cons, List.not_mem_nil, or_false] at hc3
      rcases hc3 with rfl | rfl
      · decide
      · decide
    · rcases List.mem_append.mp hc4 with hc5 | hc6
      · exact ne_of_class (hT c hc5) (by decide)
      · rw [List.mem_singleton.mp hc6]
        decide

theorem out3_eq (t : ObsidianTask) (c' : Char) (T : List Char)
    (e2 : out2 testSettings t =
      '-' :: ' ' :: '[' :: c' :: ']' :: ' ' :: (T ++ ' ' :: FMT2))
    (him : t.importance = some Importance.normal)
    (hc' : cleanChar c' = true) (hT : ∀ c ∈ T, cleanChar c = true) :
    out3 testSettings t =
      '-' :: ' ' :: '[' :: c' :: ']' :: ' ' :: (T ++ ' ' :: FMT3) := by
  have hpri : priorityIndicatorOf testSettings t = [] := by
    rw [priorityIndicatorOf, him, if_pos]
    rfl
  have hsplit : splitSub IMPORTANCE_PH
      ('-' :: ' ' :: '[' :: c' :: ']' :: ' ' :: (T ++ ' ' :: FMT2)) =
      some ("- [".data ++ [c'] ++ ("] ".data ++ (T ++ [' '])), FMT3) := by
    rw [show ('-' :: ' ' :: '[' :: c' :: ']' :: ' ' :: (T ++ ' ' :: FMT2)
        : List Char) =
      ("- [".data ++ [c'] ++ ("] ".data ++ (T ++ [' ']))) ++
        (IMPORTANCE_PH ++ FMT3) from by simp [IMPORTANCE_PH, FMT2, FMT3]]
    rw [show IMPORTANCE_PH = '\x7b' :: "\x7bIMPORTANCE\x7d\x7d".data from rfl]
    rw [splitSub_append_head '\x7b' _ _ _ (forall_ne_brace c' T hc' hT),
      splitSub_self_append]
    simp
  rw [out3, hpri, if_pos (containsSub_nil _), replaceFirst, e2, hsplit]
  simp

theorem out4_eq_undef (momentFmt : Option String → String) (t : ObsidianTask)
    (c' : Char) (T : List Char)
    (e3 : out3 testSettings t =
      '-' :: ' ' :: '[' :: c' :: ']' :: ' ' :: (T ++ ' ' :: FMT3))
    (hdue : t.dueDateTime = JsOpt.undef)
    (hc' : cleanChar c' = true) (hT : ∀ c ∈ T, cleanChar c = true) :
    out4 testSettings momentFmt t =
      '-' :: ' ' :: '[' :: c' :: ']' :: ' ' ::
        (T ++ ' ' :: (TASK_LIST_NAME_PH ++ ([] ++ CREATED_DATE_PH))) := by
  have hsplit : splitSub DUE_DATE_PH
      ('-' :: ' ' :: '[' :: c' :: ']' :: ' ' :: (T ++ ' ' :: FMT3)) =
      some (("- [".data ++ [c'] ++ ("] ".data ++ (T ++ [' ']))) ++
        TASK_LIST_NAME_PH, CREATED_DATE_PH) := by
    rw [show ('-' :: ' ' :: '[' :: c' :: ']' :: ' ' :: (T ++ ' ' :: FMT3)
        : List Char) =
      ("- [".data ++ [c'] ++ ("] ".data ++ (T ++ [' ']))) ++ FMT3 from by
        simp [FMT3]]
    rw [show DUE_DATE_PH = '\x7b' :: "\x7bDUE_DATE\x7d\x7d".data from rfl]
    rw [splitSub_append_head '\x7b' _ _ _ (forall_ne_brace c' T hc' hT),
      show splitSub ('\x7b' :: "\x7bDUE_DATE\x7d\x7d".data) FMT3 =
        some (TASK_LIST_NAME_PH, CREATED_DATE_PH) from by decide]
    simp
  simp only [out4, hdue]
  rw [replaceFirst, e3, hsplit]
  simp

theorem out4_eq_val (momentFmt : Option String → String) (t : ObsidianTask)
    (c' : Char) (T : List Char) (dstr : String) (z : Option String)
    (e3 : out3 testSettings t =
      '-' :: ' ' :: '[' :: c' :: ']' :: ' ' :: (T ++ ' ' :: FMT3))
    (hdue : t.dueDateTime = JsOpt.val ⟨dstr, z⟩) (hne : dstr ≠ "")
    (hc' : cleanChar c' = true) (hT : ∀ c ∈ T, cleanChar c = true) :
    out4 testSettings momentFmt t =
      '-' :: ' ' :: '[' :: c' :: ']' :: ' ' ::
        (T ++ ' ' :: (TASK_LIST_NAME_PH ++
          (('📅' :: ((momentFmt (some dstr)).data ++ [' '])) ++
            CREATED_DATE_PH))) := by
  have hsplit : splitSub DUE_DATE_PH
      ('-' :: ' ' :: '[' :: c' :: ']' :: ' ' :: (T ++ ' ' :: FMT3)) =
      some (("- [".data ++ [c'] ++ ("] ".data ++ (T ++ [' ']))) ++
        TASK_LIST_NAME_PH, CREATED_DATE_PH) := by
    rw [show ('-' :: ' ' :: '[' :: c' :: ']' :: ' ' :: (T ++ ' ' :: FMT3)
        : List Char) =
      ("- [".data ++ [c'] ++ ("] ".data ++ (T ++ [' ']))) ++ FMT3 from by
        simp [FMT3]]
    rw [show DUE_DATE_PH = '\x7b' :: "\x7bDUE_DATE\x7d\x7d".data from rfl]
    rw [splitSub_append_head '\x7b' _ _ _ (forall_ne_brace c' T hc' hT),
      show splitSub ('\x7b' :: "\x7bDUE_DATE\x7d\x7d".data) FMT3 =
        some (TASK_LIST_NAME_PH, CREATED_DATE_PH) from by decide]
    simp
  simp only [out4, hdue]
  rw [if_pos hne, replaceFirst, e3, hsplit,
    show testSettings.displayOptions_TaskDueMark.data = ['📅'] from rfl]
  simp

/-- The created-date substitution, generic in the already-substituted due
segment. -/
theorem out5_eq (momentFmt : Option String → String) (t : ObsidianTask)
    (c' : Char) (T DS E : List Char)
    (e4 : out4 testSettings momentFmt t =
      '-' :: ' ' :: '[' :: c' :: ']' :: ' ' ::
        (T ++ ' ' :: (TASK_LIST_NAME_PH ++ (DS ++ CREATED_DATE_PH))))
    (hEeq : (momentFmt t.createdDateTime).data = E)
    (hc' : cleanChar c' = true) (hT : ∀ c ∈ T, cleanChar c = true)
    (hDSb : ∀ c ∈ DS, c ≠ '\x7b') :
    out5 testSettings momentFmt t =
      '-' :: ' ' :: '[' :: c' :: ']' :: ' ' ::
        (T ++ ' ' :: (TASK_LIST_NAME_PH ++ (DS ++ '🔎' :: (E ++ [' '])))) := by
  have hsplit : splitSub CREATED_DATE_PH
      ('-' :: ' ' :: '[' :: c' :: ']' :: ' ' ::
        (T ++ ' ' :: (TASK_LIST_NAME_PH ++ (DS ++ CREATED_DATE_PH)))) =
      some ((("- [".data ++ [c'] ++ ("] ".data ++ (T ++ [' ']))) ++
        TASK_LIST_NAME_PH) ++ DS, []) := by
    rw [show ('-' :: ' ' :: '[' :: c' :: ']' :: ' ' ::
        (T ++ ' ' :: (TASK_LIST_NAME_PH ++ (DS ++ CREATED_DATE_PH)))
        : List Char) =
      ("- [".data ++ [c'] ++ ("] ".data ++ (T ++ [' ']))) ++
        (TASK_LIST_NAME_PH ++ (DS ++ CREATED_DATE_PH)) from by simp]
    rw [show CREATED_DATE_PH = '\x7b' :: "\x7bCREATED_DATE\x7d\x7d".data
      from rfl]
    rw [splitSub_append_head '\x7b' _ _ _ (forall_ne_brace c' T hc' hT),
      splitSub_append_chunk _ TASK_LIST_NAME_PH _ (by
        intro i hi
        rw [show TASK_LIST_NAME_PH.length = 18 from rfl] at hi
        interval_cases i <;> rfl),
      splitSub_append_head '\x7b' _ _ _ hDSb,
      show splitSub ('\x7b' :: "\x7bCREATED_DATE\x7d\x7d".data)
          ('\x7b' :: "\x7bCREATED_DATE\x7d\x7d".data)
        = some ([], []) from by decide]
    simp
  rw [out5, replaceFirst, e4, hsplit, hEeq,
    show testSettings.displayOptions_TaskCreatedMark.data = ['🔎'] from rfl]
  simp

theorem splitSub_TLN (c' : Char) (T R : List Char)
    (hc' : cleanChar c' = true) (hT : ∀ c ∈ T, cleanChar c = true) :
    splitSub TASK_LIST_NAME_PH
      ('-' :: ' ' :: '[' :: c' :: ']' :: ' ' ::
        (T ++ ' ' :: (TASK_LIST_NAME_PH ++ R))) =
      some ("- [".data ++ [c'] ++ ("] ".data ++ (T ++ [' '])), R) := by
  rw [show ('-' :: ' ' :: '[' :: c' :: ']' :: ' ' ::
      (T ++ ' ' :: (TASK_LIST_NAME_PH ++ R)) : List Char) =
    ("- [".data ++ [c'] ++ ("] ".data ++ (T ++ [' ']))) ++
      (TASK_LIST_NAME_PH ++ R) from by simp]
  rw [show TASK_LIST_NAME_PH = '\x7b' :: "\x7bTASK_LIST_NAME\x7d\x7d".data
    from rfl]
  rw [splitSub_append_head '\x7b' _ _ _ (forall_ne_brace c' T hc' hT),
    splitSub_self_append]
  simp

/-- List-name substitution, absent-list case. -/
theorem out6_eq_nolist (momentFmt : Option String → String) (t : ObsidianTask)
    (c' : Char) (T DS E : List Char)
    (e5 : out5 testSettings momentFmt t =
      '-' :: ' ' :: '[' :: c' :: ']' :: ' ' ::
        (T ++ ' ' :: (TASK_LIST_NAME_PH ++ (DS ++ '🔎' :: (E ++ [' '])))))
    (hln : t.listName = none)
    (hc' : cleanChar c' = true) (hT : ∀ c ∈ T, cleanChar c = true) :
    out6 testSettings momentFmt t = lineC c' T [] DS E [' '] := by
  simp only [out6, hln]
  rw [replaceFirst, e5, splitSub_TLN c' T _ hc' hT]
  simp [lineC]

/-- List-name substitution, nonempty space-free list case. -/
theorem out6_eq_list (momentFmt : Option String → String) (t : ObsidianTask)
    (c' : Char) (T DS E : List Char) (ln : String)
    (e5 : out5 testSettings momentFmt t =
      '-' :: ' ' :: '[' :: c' :: ']' :: ' ' ::
        (T ++ ' ' :: (TASK_LIST_NAME_PH ++ (DS ++ '🔎' :: (E ++ [' '])))))
    (hln : t.listName = some ln) (hln0 : ln ≠ "")
    (hlnAl : ∀ c ∈ ln.data, isAlnumAscii c = true)
    (hc' : cleanChar c' = true) (hT : ∀ c ∈ T, cleanChar c = true) :
    out6 testSettings momentFmt t =
      lineC c' T ('+' :: (ln.data ++ [' '])) DS E [' '] := by
  have hnosp : containsSub [' '] ln.data = false :=
    containsSub_single_false ' ' ln.data
      (fun c hc => ne_of_class (hlnAl c hc) (by decide))
  simp only [out6, hln]
  rw [if_pos hln0, hnosp]
  rw [if_neg (by decide), replaceFirst, e5, splitSub_TLN c' T _ hc' hT,
    show testSettings.displayOptions_ListIndicator.data = ['+'] from rfl]
  simp [lineC]

/-- Anchor step, no block link: the stage is untouched. -/
theorem out7_eq_noanchor (momentFmt : Option String → String)
    (t : ObsidianTask) (c' : Char) (T LS DS E : List Char)
    (e6 : out6 testSettings momentFmt t = lineC c' T LS DS E [' '])
    (hbl : t.blockLink = none) :
    out7 testSettings momentFmt t = lineC c' T LS DS E [' '] := by
  have hb : hasBlockLink t = false := by
    rw [hasBlockLink, hbl]
    rfl
  rw [out7, hb, if_neg (by decide)]
  exact e6

/-- Anchor step, nonempty block link: trim then append the anchor. -/
theorem out7_eq_anchor (momentFmt : Option String → String)
    (t : ObsidianTask) (c' : Char) (T LS DS E : List Char) (bs : String)
    (e6 : out6 testSettings momentFmt t = lineC c' T LS DS E [' '])
    (hbl : t.blockLink = some bs) (hbs0 : bs ≠ "")
    (hE : exactDate E = true) :
    out7 testSettings momentFmt t = lineC c' T LS DS E (' ' :: '^' :: bs.data) := by
  have hb : hasBlockLink t = true := by
    rw [hasBlockLink, hbl]
    simpa [truthy] using hbs0
  have hh : ∀ c, (lineC c' T LS DS E ([] : List Char)).head? = some c →
      jsWs c = false := by
    intro c hc
    rw [show (lineC c' T LS DS E ([] : List Char)).head? = some '-' from rfl]
      at hc
    rw [← Option.some.inj hc]
    decide
  have hl := lineC_getLast_ws c' T LS DS E [] hE (Or.inl rfl)
  rw [out7, hb, if_pos rfl, e6, hbl,
    show (lineC c' T LS DS E ([' '] : List Char))
      = lineC c' T LS DS E [] ++ [' '] from by simp [lineC],
    jsTrim_append_space _ hh hl]
  simp [lineC]

/-- The assembled single-line rendering, no anchor: the final trim removes
the created-date trailing space. -/
theorem render_noanchor (momentFmt : Option String → String)
    (t : ObsidianTask) (c' : Char) (T LS DS E : List Char)
    (e7 : out7 testSettings momentFmt t = lineC c' T LS DS E [' '])
    (hE : exactDate E = true) :
    getMarkdownTask testSettings momentFmt t true =
      String.mk (lineC c' T LS DS E []) := by
  have hh : ∀ c, (lineC c' T LS DS E ([] : List Char)).head? = some c →
      jsWs c = false := by
    intro c hc
    rw [show (lineC c' T LS DS E ([] : List Char)).head? = some '-' from rfl]
      at hc
    rw [← Option.some.inj hc]
    decide
  have hl := lineC_getLast_ws c' T LS DS E [] hE (Or.inl rfl)
  rw [getMarkdownTask, if_pos rfl, e7,
    show (lineC c' T LS DS E ([' '] : List Char))
      = lineC c' T LS DS E [] ++ [' '] from by simp [lineC],
    jsTrim_append_space _ hh hl]

/-- The assembled single-line rendering with an anchor is already trimmed. -/
theorem render_anchor (momentFmt : Option String → String)
    (t : ObsidianTask) (c' : Char) (T LS DS E b : List Char)
    (e7 : out7 testSettings momentFmt t = lineC c' T LS DS E (' ' :: '^' :: b))
    (hE : exactDate E = true) (hb0 : b ≠ [])
    (hbAl : ∀ c ∈ b, isAlnumAscii c = true) :
    getMarkdownTask testSettings momentFmt t true =
      String.mk (lineC c' T LS DS E (' ' :: '^' :: b)) := by
  rw [getMarkdownTask, if_pos rfl, e7,
    jsTrim_lineC c' T LS DS E _ hE (Or.inr ⟨b, rfl, hb0, hbAl⟩)]

/-- A nonempty clean list with non-space edges is its own trim. -/
theorem jsTrim_clean_list (T : List Char) (hT0 : T ≠ [])
    (hT : ∀ c ∈ T, cleanChar c = true)
    (hTh : ∀ c, T.head? = some c → c ≠ ' ')
    (hTl : ∀ c, T.getLast? = some c → c ≠ ' ') : jsTrim T = T := by
  apply jsTrim_eq_self
  · intro c hc
    cases T with
    | nil => cases hc
    | cons x xs =>
      rw [← Option.some.inj hc]
      exact jsWs_false_of_clean_ne x (hT x (List.mem_cons_self x xs))
        (hTh x rfl)
  · intro c hc
    obtain ⟨z, h1, h2⟩ := getLast_exists T hT0
    rw [h1] at hc
    rw [← Option.some.inj hc]
    exact jsWs_false_of_clean_ne z (hT z h2) (hTl z h1)

/-- The full restricted round trip, generic in the status symbol. -/
theorem roundtrip_core (momentFmt : Option String → String) (lzone : String)
    (t : ObsidianTask) (c' : Char) (Ts : String)
    (htitle : t.title = some Ts)
    (hT0 : Ts.data ≠ []) (hT : ∀ c ∈ Ts.data, cleanChar c = true)
    (hTh : ∀ c, Ts.data.head? = some c → c ≠ ' ')
    (hTl : ∀ c, Ts.data.getLast? = some c → c ≠ ' ')
    (hsym : (getStatusIndicator testSettings t).data = [c'])
    (hc' : cleanChar c' = true)
    (him : t.importance = some Importance.normal)
    (hdue : t.dueDateTime = JsOpt.undef ∨
      ∃ D : String, t.dueDateTime = JsOpt.val ⟨D, some lzone⟩ ∧ D ≠ "" ∧
        momentFmt (some D) = D ∧ exactDate D.data = true)
    (hE : exactDate (momentFmt t.createdDateTime).data = true)
    (hln : t.listName = none ∨
      ∃ ls : String, t.listName = some ls ∧ ls ≠ "" ∧
        ∀ c ∈ ls.data, isAlnumAscii c = true)
    (hbl : t.blockLink = none ∨
      ∃ bs : String, t.blockLink = some bs ∧ bs ≠ "" ∧
        ∀ c ∈ bs.data, isAlnumAscii c = true) :
    (parseLine testSettings lzone
        (getMarkdownTask testSettings momentFmt t true)).title = some Ts ∧
    (parseLine testSettings lzone
        (getMarkdownTask testSettings momentFmt t true)).status
      = some (if c' = 'x' then TaskStatus.completed else TaskStatus.notStarted) ∧
    (parseLine testSettings lzone
        (getMarkdownTask testSettings momentFmt t true)).importance
      = some Importance.normal ∧
    (parseLine testSettings lzone
        (getMarkdownTask testSettings momentFmt t true)).dueDateTime
      = t.dueDateTime := by
  have htd : (t.title.getD "").data = Ts.data := by
    rw [htitle]
    rfl
  have htr : jsTrim Ts.data = Ts.data := jsTrim_clean_list Ts.data hT0 hT hTh hTl
  have e1 := out1_eq t Ts.data htd htr
  have e2 := out2_eq t c' Ts.data e1 hsym
  have e3 := out3_eq t c' Ts.data e2 him hc' hT
  have hDSx : ∃ DS, out4 testSettings momentFmt t =
      '-' :: ' ' :: '[' :: c' :: ']' :: ' ' ::
        (Ts.data ++ ' ' :: (TASK_LIST_NAME_PH ++ (DS ++ CREATED_DATE_PH))) ∧
      (∀ c ∈ DS, c ≠ '\x7b') ∧
      ((DS = [] ∧ t.dueDateTime = JsOpt.undef) ∨
       (∃ D : List Char, DS = '📅' :: (D ++ [' ']) ∧ exactDate D = true ∧
          t.dueDateTime = JsOpt.val ⟨String.mk D, some lzone⟩)) := by
    rcases hdue with hdue | ⟨D, hdue, hD0, hDfmt, hDexact⟩
    · exact ⟨[], out4_eq_undef momentFmt t c' Ts.data e3 hdue hc' hT,
        by simp, Or.inl ⟨rfl, hdue⟩⟩
    · refine ⟨'📅' :: (D.data ++ [' ']), ?_, ?_,
        Or.inr ⟨D.data, rfl, hDexact, by rw [hdue]⟩⟩
      · have h4 := out4_eq_val momentFmt t c' Ts.data D (some lzone) e3 hdue
          hD0 hc' hT
        rw [hDfmt] at h4
        exact h4
      · intro c hc
        rcases List.mem_cons.mp hc with rfl | hc2
        · decide
        · rcases List.mem_append.mp hc2 with hc3 | hc4
          · exact dateChar_ne c '\x7b'
              (dateChar_of_exactDate D.data hDexact c hc3) (by decide)
          · rw [List.mem_singleton.mp hc4]
            decide
  obtain ⟨DS, e4, hDSb, hDSspec⟩ := hDSx
  have e5 := out5_eq momentFmt t c' Ts.data DS
    (momentFmt t.createdDateTime).data e4 rfl hc' hT hDSb
  have hLSx : ∃ LS, out6 testSettings momentFmt t =
      lineC c' Ts.data LS DS (momentFmt t.createdDateTime).data [' '] ∧
      (LS = [] ∨ ∃ L, LS = '+' :: (L ++ [' ']) ∧ L ≠ [] ∧
        ∀ c ∈ L, isAlnumAscii c = true) := by
    rcases hln with hln | ⟨ls, hln, hls0, hlsAl⟩
    · exact ⟨[], out6_eq_nolist momentFmt t c' Ts.data DS _ e5 hln hc' hT,
        Or.inl rfl⟩
    · refine ⟨'+' :: (ls.data ++ [' ']),
        out6_eq_list momentFmt t c' Ts.data DS _ ls e5 hln hls0 hlsAl hc' hT,
        Or.inr ⟨ls.data, rfl, ?_, hlsAl⟩⟩
      intro hx
      apply hls0
      cases ls
      exact congrArg String.mk hx
  obtain ⟨LS, e6, hLSspec⟩ := hLSx
  have hASx : ∃ AS, getMarkdownTask testSettings momentFmt t true =
      String.mk (lineC c' Ts.data LS DS (momentFmt t.createdDateTime).data AS) ∧
      (AS = [] ∨ ∃ b, AS = ' ' :: '^' :: b ∧ b ≠ [] ∧
        ∀ c ∈ b, isAlnumAscii c = true) := by
    rcases hbl with hbl | ⟨bs, hbl, hbs0, hbsAl⟩
    · exact ⟨[], render_noanchor momentFmt t c' Ts.data LS DS _
        (out7_eq_noanchor momentFmt t c' Ts.data LS DS _ e6 hbl) hE,
        Or.inl rfl⟩
    · have hb0 : bs.data ≠ [] := by
        intro hx
        apply hbs0
        cases bs
        exact congrArg String.mk hx
      exact ⟨' ' :: '^' :: bs.data,
        render_anchor momentFmt t c' Ts.data LS DS _ bs.data
          (out7_eq_anchor momentFmt t c' Ts.data LS DS _ bs e6 hbl hbs0 hE)
          hE hb0 hbsAl,
        Or.inr ⟨bs.data, rfl, hb0, hbsAl⟩⟩
  obtain ⟨AS, hrender, hASspec⟩ := hASx
  have hDSalt : DS = [] ∨ ∃ D, DS = '📅' :: (D ++ [' ']) ∧
      exactDate D = true := by
    rcases hDSspec with ⟨h1, -⟩ | ⟨D, h1, h2, -⟩
    · exact Or.inl h1
    · exact Or.inr ⟨D, h1, h2⟩
  have main := parseLine_lineC lzone c' Ts.data LS DS
    (momentFmt t.createdDateTime).data AS hc' hT0 hT hTh hTl hLSspec hDSalt
    hE hASspec
  rw [hrender]
  refine ⟨main.1, main.2.1, main.2.2.1, ?_⟩
  rcases hDSspec with ⟨hDSnil, hdueeq⟩ | ⟨D, hDSeq, -, hdueeq⟩
  · rw [main.2.2.2.1 hDSnil, hdueeq]
  · rw [main.2.2.2.2 D hDSeq, hdueeq]

/-- C6 (amended): the parse/format round trip holds on the restricted
domain — a record whose title is nonempty, consists of alphanumeric
characters and spaces, and has no leading or trailing space; whose status
is `notStarted` or `completed`; whose importance is `normal`; whose due
date is absent or an explicit local-zone calendar date rendered verbatim by
the date formatter; whose created date renders as an exact `YYYY-MM-DD`
date; and whose list name and anchor are each absent or nonempty
alphanumeric.  Parsing the single-line rendering then reproduces title,
status, importance and due date exactly. -/
theorem c6_roundtrip_restricted (momentFmt : Option String → String)
    (lzone : String) (t : ObsidianTask) (Ts : String)
    (htitle : t.title = some Ts)
    (hT0 : Ts.data ≠ []) (hT : ∀ c ∈ Ts.data, cleanChar c = true)
    (hTh : ∀ c, Ts.data.head? = some c → c ≠ ' ')
    (hTl : ∀ c, Ts.data.getLast? = some c → c ≠ ' ')
    (hst : t.status = some TaskStatus.notStarted ∨
      t.status = some TaskStatus.completed)
    (him : t.importance = some Importance.normal)
    (hdue : t.dueDateTime = JsOpt.undef ∨
      ∃ D : String, t.dueDateTime = JsOpt.val ⟨D, some lzone⟩ ∧ D ≠ "" ∧
        momentFmt (some D) = D ∧ exactDate D.data = true)
    (hE : exactDate (momentFmt t.createdDateTime).data = true)
    (hln : t.listName = none ∨
      ∃ ls : String, t.listName = some ls ∧ ls ≠ "" ∧
        ∀ c ∈ ls.data, isAlnumAscii c = true)
    (hbl : t.blockLink = none ∨
      ∃ bs : String, t.blockLink = some bs ∧ bs ≠ "" ∧
        ∀ c ∈ bs.data, isAlnumAscii c = true) :
    (parseLine testSettings lzone
        (getMarkdownTask testSettings momentFmt t true)).title = t.title ∧
    (parseLine testSettings lzone
        (getMarkdownTask testSettings momentFmt t true)).status = t.status ∧
    (parseLine testSettings lzone
        (getMarkdownTask testSettings momentFmt t true)).importance
      = t.importance ∧
    (parseLine testSettings lzone
        (getMarkdownTask testSettings momentFmt t true)).dueDateTime
      = t.dueDateTime := by
  rcases hst with hst | hst
  · have hsym : (getStatusIndicator testSettings t).data = [' '] := by
      simp only [getStatusIndicator, hst]
      rfl
    have core := roundtrip_core momentFmt lzone t ' ' Ts htitle hT0 hT hTh hTl
      hsym (by decide) him hdue hE hln hbl
    refine ⟨?_, ?_, ?_, core.2.2.2⟩
    · rw [core.1, htitle]
    · rw [core.2.1, hst]
      decide
    · rw [core.2.2.1, him]
  · have hsym : (getStatusIndicator testSettings t).data = ['x'] := by
      simp only [getStatusIndicator, hst]
      rfl
    have core := roundtrip_core momentFmt lzone t 'x' Ts htitle hT0 hT hTh hTl
      hsym (by decide) him hdue hE hln hbl
    refine ⟨?_, ?_, ?_, core.2.2.2⟩
    · rw [core.1, htitle]
    · rw [core.2.1, hst]
      decide
    · rw [core.2.2.1, him]

/-- A concrete record in the restricted domain of the amended C6. -/
def demoTask : ObsidianTask :=
  ⟨none, some "Demo task", some .notStarted, some .normal, .undef, none, none,
    none, none, none, none, none⟩

/-- C6 witness: the restricted round trip at a concrete record. -/
theorem c6_roundtrip_restricted_witness :
    (parseLine testSettings "utc"
        (getMarkdownTask testSettings (fun _ => "2025-01-10") demoTask
          true)).title = demoTask.title ∧
    (parseLine testSettings "utc"
        (getMarkdownTask testSettings (fun _ => "2025-01-10") demoTask
          true)).status = demoTask.status ∧
    (parseLine testSettings "utc"
        (getMarkdownTask testSettings (fun _ => "2025-01-10") demoTask
          true)).importance = demoTask.importance ∧
    (parseLine testSettings "utc"
        (getMarkdownTask testSettings (fun _ => "2025-01-10") demoTask
          true)).dueDateTime = demoTask.dueDateTime :=
  c6_roundtrip_restricted (fun _ => "2025-01-10") "utc" demoTask "Demo task"
    rfl (by decide) (by decide)
    (fun c hc => by rw [← Option.some.inj hc]; decide)
    (fun c hc => by rw [← Option.some.inj hc]; decide)
    (Or.inl rfl) rfl (Or.inl rfl) (by decide) (Or.inl rfl) (Or.inl rfl)

end RT

end MsTodo
